import Mathlib

/-!
# Xournal++ : object input stream and stroke input handler

A shallow embedding of `src/util/serializing/ObjectInputStream.cpp` and of
`src/control/tools/StrokeHandler.cpp`.

Conventions of the embedding.

* A byte (`char`) is a natural number; a buffer is a `List Nat`.
* The target is the usual LP64 little-endian one: `sizeof(int) = 4`,
  `sizeof(size_t) = sizeof(double) = 8`, two's complement integers.  A `double`
  that is only copied byte-wise is represented by its 64-bit object
  representation.
* `std::istringstream` is a buffer, a get position and one state bit.  In the
  code paths used here `eofbit` and `failbit` are always raised together, so
  the single bit `failed` stands for "not `good()`".
* A member function that may throw returns the outcome together with the
  stream state it leaves behind, because the stream object survives a throw.
* Storage that the C++ code reads without having initialised it (a local `T
  output` or a `new char[n]` block after a short `istream.read`) is supplied by
  a function `junk` from byte offsets to byte values.
* Coordinates, widths and distances that are `double` in the source are
  rationals here.  The handler is given twice: with the exact operations, for
  the properties stated in exact arithmetic, and in the namespace `Double`
  with every operation rounded to binary64, for the properties of the program
  as it computes.
-/

namespace Xournalpp

/-! ## Machine integers -/

/-- Value of a little-endian byte sequence. -/
def leNat : List Nat → Nat
  | [] => 0
  | b :: bs => b + 256 * leNat bs

/-- The `n` little-endian bytes of `v`. -/
def leBytes : Nat → Nat → List Nat
  | 0, _ => []
  | n + 1, v => v % 256 :: leBytes n (v / 256)

/-- Reinterpretation of a 32-bit pattern as a signed `int`. -/
def toInt32 (u : Nat) : Int :=
  if u % 2 ^ 32 < 2 ^ 31 then ((u % 2 ^ 32 : Nat) : Int) else ((u % 2 ^ 32 : Nat) : Int) - 2 ^ 32

/-- The 32-bit pattern of an `int`. -/
def ofInt32 (i : Int) : Nat := (i % 2 ^ 32).toNat

/-- Conversion `(size_t) i` of an `int` (sign extension to 64 bits). -/
def intToSizeT (i : Int) : Nat := (i % 2 ^ 64).toNat

/-- Conversion `(uint32_t) n` of a `size_t`. -/
def toUInt32 (n : Nat) : Nat := n % 2 ^ 32

/-- Signed 32-bit multiplication `len * width` with wrap-around. -/
def mulInt32 (a b : Int) : Int := toInt32 (ofInt32 (a * b))

/-! ## `std::istringstream` -/

/-- The input string stream: `str()` is the whole buffer whatever has been
read, `gpos` the offset of the get pointer, `failed` the state not `good()`. -/
structure IStringStream where
  str : List Nat
  gpos : Nat
  failed : Bool
  deriving DecidableEq, Repr

/-- White space of the classic locale, skipped by formatted extraction. -/
def isSpace (c : Nat) : Bool := c == 32 || (9 ≤ c && c ≤ 13)

namespace IStringStream

/-- The characters from the get pointer to the end: `rdbuf()->in_avail()` is
its length. -/
def avail (s : IStringStream) : List Nat := s.str.drop s.gpos

/-- Formatted extraction `istream >> c` of one `char`: nothing is stored when
the stream is not good; otherwise leading white space is skipped (`skipws` is
set by default) and the next character is taken, end of buffer raising the
state bits. -/
def extractChar (s : IStringStream) : Option Nat × IStringStream :=
  if s.failed then (none, s)
  else
    let p := s.gpos + (s.avail.takeWhile isSpace).length
    match s.str[p]? with
    | none => (none, { s with gpos := p, failed := true })
    | some c => (some c, { s with gpos := p + 1 })

/-- Unformatted `istream.read(buf, n)`: returns the characters stored, which
are fewer than `n` exactly when the state bits get raised. -/
def read (s : IStringStream) (n : Nat) : List Nat × IStringStream :=
  if s.failed then ([], s)
  else
    let got := s.avail.take n
    (got, { s with gpos := s.gpos + got.length, failed := decide (got.length ≠ n) })

/-- Positioning `rdbuf()->pubseekpos(p)`: moves the get pointer when `p` is
inside the buffer, and does not touch the state bits. -/
def pubseekpos (s : IStringStream) (p : Nat) : IStringStream :=
  if p ≤ s.str.length then { s with gpos := p } else s

end IStringStream

/-- Contents of an object of `n` bytes after `got` has been stored at its
start: the rest keeps whatever the storage held (`junk`). -/
def fillFrom (junk : Nat → Nat) (n : Nat) (got : List Nat) : List Nat :=
  got ++ (List.range' got.length (n - got.length)).map junk

/-! ## `ObjectInputStream` -/

/-- Text of an `InputStreamException`, kept structured: one constructor per
`throw` of the source, with the values formatted into the message. -/
inductive Message
  | endReachedBytes (wanted available : Nat)
  | typeMismatch (name type : List Nat)
  | endReachedString
  | endReachedDataLen
  | endReachedData
  | endReachedImageLen
  | endReachedImage
  | endReachedType (expected : String) (index total : Nat)
  | expectedSignature (expected : String) (index total : Nat) (read : Nat)
  | expectedButRead (expected found : String)
  deriving DecidableEq, Repr

/-- What a member function can throw: the stream's own exception, or the
`std::length_error` of `std::string::resize`. -/
inductive Raised
  | inputStreamException (what : Message)
  | lengthError
  deriving DecidableEq, Repr

/-- The reader: the string stream and the member `len`. -/
structure ObjectInputStream where
  istream : IStringStream
  len : Nat
  deriving DecidableEq, Repr

/-- Outcome of a member function and the state it leaves. -/
abbrev Result (α : Type) := Except Raised α × ObjectInputStream

instance instDecidableEqExcept {ε α : Type} [DecidableEq ε] [DecidableEq α] :
    DecidableEq (Except ε α)
  | .ok a, .ok b => if h : a = b then isTrue (by rw [h]) else isFalse (by intro e; cases e; exact h rfl)
  | .error a, .error b =>
    if h : a = b then isTrue (by rw [h]) else isFalse (by intro e; cases e; exact h rfl)
  | .ok _, .error _ => isFalse (by intro e; cases e)
  | .error _, .ok _ => isFalse (by intro e; cases e)

namespace ObjectInputStream

/-- Two lower-case hexadecimal digits, as `%02hhx` prints a `char`. -/
def hex2 (c : Nat) : String :=
  String.mk [Nat.digitChar (c % 256 / 16), Nat.digitChar (c % 16)]

/-- Source `ObjectInputStream::getType`.  For the null character `%c` prints
the terminator, so the C string the result is made of ends before it. -/
def getType (type : Nat) : String :=
  if type = 123 then "Object begin"
  else if type = 125 then "Object end"
  else if type = 105 then "Number"
  else if type = 100 then "Floating point"
  else if type = 115 then "String"
  else if type = 98 then "Binary"
  else if type = 109 then "Image"
  else if type = 0 then "Unknown type: " ++ hex2 type ++ " ("
  else "Unknown type: " ++ hex2 type ++ " (" ++ String.singleton (Char.ofNat type) ++ ")"

/-- Source `ObjectInputStream::pos`, in `size_t` arithmetic. -/
def pos (o : ObjectInputStream) : Nat := (o.len + 2 ^ 64 - o.istream.str.length % 2 ^ 64) % 2 ^ 64

/-- Source `readTypeFromSStream<T>` with `n = sizeof(T)`: the bytes of the
object returned. -/
def readTypeFromSStream (junk : Nat → Nat) (n : Nat) (o : ObjectInputStream) : Result (List Nat) :=
  if o.istream.str.length < n then
    (.error (.inputStreamException (.endReachedBytes n o.istream.str.length)), o)
  else
    let r := o.istream.read n
    (.ok (fillFrom junk n r.1), { o with istream := r.2 })

/-- Source `ObjectInputStream::checkType`. -/
def checkType (type : Nat) (o : ObjectInputStream) : Result Unit :=
  if o.istream.str.length < 2 then
    (.error (.inputStreamException
      (.endReachedType (getType type) (toUInt32 (pos o)) (toUInt32 o.len))), o)
  else
    let r1 := o.istream.extractChar
    let r2 := r1.2.extractChar
    let underscore := r1.1.getD 0
    let t := r2.1.getD 0
    let o2 : ObjectInputStream := { o with istream := r2.2 }
    if underscore ≠ 95 then
      (.error (.inputStreamException
        (.expectedSignature (getType type) (toUInt32 (toUInt32 (pos o2) + 1)) (toUInt32 o.len)
          underscore)), o2)
    else if t ≠ type then
      (.error (.inputStreamException (.expectedButRead (getType type) (getType t))), o2)
    else (.ok (), o2)

/-- Source `ObjectInputStream::readInt`. -/
def readInt (junk : Nat → Nat) (o : ObjectInputStream) : Result Int :=
  match checkType 105 o with
  | (.error e, o1) => (.error e, o1)
  | (.ok _, o1) =>
    match readTypeFromSStream junk 4 o1 with
    | (.error e, o2) => (.error e, o2)
    | (.ok bs, o2) => (.ok (toInt32 (leNat bs)), o2)

/-- Source `ObjectInputStream::readDouble`; the value is the 64-bit pattern. -/
def readDouble (junk : Nat → Nat) (o : ObjectInputStream) : Result Nat :=
  match checkType 100 o with
  | (.error e, o1) => (.error e, o1)
  | (.ok _, o1) =>
    match readTypeFromSStream junk 8 o1 with
    | (.error e, o2) => (.error e, o2)
    | (.ok bs, o2) => (.ok (leNat bs), o2)

/-- Source `ObjectInputStream::readSizeT`. -/
def readSizeT (junk : Nat → Nat) (o : ObjectInputStream) : Result Nat :=
  match checkType 108 o with
  | (.error e, o1) => (.error e, o1)
  | (.ok _, o1) =>
    match readTypeFromSStream junk 8 o1 with
    | (.error e, o2) => (.error e, o2)
    | (.ok bs, o2) => (.ok (leNat bs), o2)

/-- Source `ObjectInputStream::readString`.  The guard compares the buffer
size with the member `len`; `output.resize(lenString)` throws
`std::length_error` for the sizes a negative `int` converts to (they are at
least `2 ^ 64 - 2 ^ 31`, above `max_size()`, and every other size is below
`2 ^ 31`); the string is zero-filled by `resize` before `istream.read` stores
into it. -/
def readString (junk : Nat → Nat) (o : ObjectInputStream) : Result (List Nat) :=
  match checkType 115 o with
  | (.error e, o1) => (.error e, o1)
  | (.ok _, o1) =>
    match readTypeFromSStream junk 4 o1 with
    | (.error e, o2) => (.error e, o2)
    | (.ok bs, o2) =>
      let lenString := intToSizeT (toInt32 (leNat bs))
      if o2.istream.str.length < o2.len then
        (.error (.inputStreamException .endReachedString), o2)
      else if 2 ^ 63 ≤ lenString then (.error .lengthError, o2)
      else
        let r := o2.istream.read lenString
        (.ok (r.1 ++ List.replicate (lenString - r.1.length) 0), { o2 with istream := r.2 })

/-- Source `ObjectInputStream::readObject()`. -/
def readObject (junk : Nat → Nat) (o : ObjectInputStream) : Result (List Nat) :=
  match checkType 123 o with
  | (.error e, o1) => (.error e, o1)
  | (.ok _, o1) => readString junk o1

/-- Source `ObjectInputStream::readObject(const char* name)`. -/
def readObjectNamed (junk : Nat → Nat) (name : List Nat) (o : ObjectInputStream) : Result Unit :=
  match readObject junk o with
  | (.error e, o1) => (.error e, o1)
  | (.ok type, o1) =>
    if type ≠ name then (.error (.inputStreamException (.typeMismatch name type)), o1)
    else (.ok (), o1)

/-- Source `ObjectInputStream::getNextObjectName`. -/
def getNextObjectName (junk : Nat → Nat) (o : ObjectInputStream) : Result (List Nat) :=
  let pos := (o.len + 2 ^ 64 - o.istream.avail.length % 2 ^ 64) % 2 ^ 64
  match checkType 123 o with
  | (.error e, o1) => (.error e, o1)
  | (.ok _, o1) =>
    match readString junk o1 with
    | (.error e, o2) => (.error e, o2)
    | (.ok name, o2) =>
      (.ok name, { o2 with istream := if pos < 2 ^ 63 then o2.istream.pubseekpos pos else o2.istream })

/-- Source `ObjectInputStream::endObject`. -/
def endObject (o : ObjectInputStream) : Result Unit := checkType 125 o

/-- Source `ObjectInputStream::readData`: the block `*data` (absent for the
null pointer) and `*length`. -/
def readData (junk : Nat → Nat) (o : ObjectInputStream) : Result (Option (List Nat) × Int) :=
  match checkType 98 o with
  | (.error e, o1) => (.error e, o1)
  | (.ok _, o1) =>
    if o1.istream.str.length < 2 * 4 then
      (.error (.inputStreamException .endReachedDataLen), o1)
    else
      match readTypeFromSStream junk 4 o1 with
      | (.error e, o2) => (.error e, o2)
      | (.ok bl, o2) =>
        match readTypeFromSStream junk 4 o2 with
        | (.error e, o3) => (.error e, o3)
        | (.ok bw, o3) =>
          let len := toInt32 (leNat bl)
          let width := toInt32 (leNat bw)
          if o3.istream.str.length < intToSizeT (mulInt32 len width) then
            (.error (.inputStreamException .endReachedData), o3)
          else if len = 0 then (.ok (none, 0), o3)
          else
            let n := intToSizeT (mulInt32 len width)
            let r := o3.istream.read n
            (.ok (some (fillFrom junk n r.1), len), { o3 with istream := r.2 })

/-- Source `cairoReadFunction`: `true` stands for `CAIRO_STATUS_SUCCESS`. -/
def cairoReadFunction (iss : IStringStream) (length : Nat) : Bool × List Nat × IStringStream :=
  if iss.str.length < length then (false, [], iss)
  else
    let r := iss.read length
    (true, r.1, r.2)

/-- The calls of the read callback made by the PNG decoder, given the lengths
it asks for; it gives up at the first read error. -/
def pngReads : List Nat → IStringStream → IStringStream
  | [], iss => iss
  | n :: ns, iss =>
    match cairoReadFunction iss n with
    | (false, _, iss1) => iss1
    | (true, _, iss1) => pngReads ns iss1

/-- Source `ObjectInputStream::readImage`.  The decoder of
`cairo_image_surface_create_from_png_stream` is outside the program: it is
represented by the list `requests` of lengths it passes to the callback, and
the surface it builds is not represented. -/
def readImage (junk : Nat → Nat) (requests : List Nat) (o : ObjectInputStream) : Result Unit :=
  match checkType 109 o with
  | (.error e, o1) => (.error e, o1)
  | (.ok _, o1) =>
    if o1.istream.str.length < 8 then
      (.error (.inputStreamException .endReachedImageLen), o1)
    else
      match readTypeFromSStream junk 8 o1 with
      | (.error e, o2) => (.error e, o2)
      | (.ok bs, o2) =>
        if o2.istream.str.length < leNat bs then
          (.error (.inputStreamException .endReachedImage), o2)
        else (.ok (), { o2 with istream := pngReads requests o2.istream })

/-- The reader over the buffer `buf` with the get pointer at offset `p`, the
stream good and `len` the size of the buffer, as `read` sets it. -/
def at_ (buf : List Nat) (p : Nat) : ObjectInputStream :=
  { istream := { str := buf, gpos := p, failed := false }, len := buf.length }

/-- Source `ObjectInputStream::read`, with `data_len` the length of `data`
and `version` the characters of the constant `XML_VERSION_STR`: the value
returned, or what escapes the `catch (InputStreamException&)`. -/
def read (junk : Nat → Nat) (version : List Nat) (data : List Nat) : Result Bool :=
  match readString junk (at_ data 0) with
  | (.error (.inputStreamException _), o1) => (.ok false, o1)
  | (.error .lengthError, o1) => (.error .lengthError, o1)
  | (.ok v, o1) => if v ≠ version then (.ok false, o1) else (.ok true, o1)

/-! ### The documented layout and a reading session -/

/-- The kinds of field a reader can ask for. -/
inductive Kind
  | int | double | sizeT | string | blob
  deriving DecidableEq, Repr

/-- A field to be written, with its value. -/
inductive Field
  | int (v : Int)
  | double (bits : Nat)
  | sizeT (v : Nat)
  | string (s : List Nat)
  | blob (count width : Int) (bytes : List Nat)
  deriving DecidableEq, Repr

/-- What a typed read hands back. -/
inductive Value
  | int (v : Int)
  | double (bits : Nat)
  | sizeT (v : Nat)
  | string (s : List Nat)
  | data (block : Option (List Nat)) (length : Int)
  deriving DecidableEq, Repr

/-- The two-byte type tag: an underscore and the type code. -/
def tag (c : Nat) : List Nat := [95, c]

/-- Layout of a string field: tag `s`, `int` length, raw bytes. -/
def encodeString (s : List Nat) : List Nat :=
  tag 115 ++ leBytes 4 (ofInt32 s.length) ++ s

namespace Field

/-- Kind of a field. -/
def kind : Field → Kind
  | .int _ => .int
  | .double _ => .double
  | .sizeT _ => .sizeT
  | .string _ => .string
  | .blob _ _ _ => .blob

/-- Layout of a field as the format documents it. -/
def encode : Field → List Nat
  | .int v => tag 105 ++ leBytes 4 (ofInt32 v)
  | .double b => tag 100 ++ leBytes 8 b
  | .sizeT v => tag 108 ++ leBytes 8 v
  | .string s => encodeString s
  | .blob c w bytes => tag 98 ++ leBytes 4 (ofInt32 c) ++ leBytes 4 (ofInt32 w) ++ bytes

/-- The value a field stands for on the reading side: a blob of count zero is
the null block. -/
def value : Field → Value
  | .int v => .int v
  | .double b => .double b
  | .sizeT v => .sizeT v
  | .string s => .string s
  | .blob c _ bytes => .data (if c = 0 then none else some bytes) c

/-- A field that fits the widths of the layout. -/
def WellFormed : Field → Prop
  | .int v => -2 ^ 31 ≤ v ∧ v < 2 ^ 31
  | .double b => b < 2 ^ 64
  | .sizeT v => v < 2 ^ 64
  | .string s => s.length < 2 ^ 31
  | .blob c w bytes =>
    (-2 ^ 31 ≤ c ∧ c < 2 ^ 31) ∧ (-2 ^ 31 ≤ w ∧ w < 2 ^ 31) ∧
      c * w = (bytes.length : Int) ∧ bytes.length < 2 ^ 31

end Field

/-- Layout of a sequence of fields, one after the other. -/
def encodeFields : List Field → List Nat
  | [] => []
  | f :: fs => f.encode ++ encodeFields fs

/-- Layout of an object: opening tag, name, fields, closing tag. -/
def encodeObject (name : List Nat) (fields : List Field) : List Nat :=
  tag 123 ++ encodeString name ++ encodeFields fields ++ tag 125

/-- The typed read matching a kind. -/
def readField (junk : Nat → Nat) (k : Kind) (o : ObjectInputStream) : Result Value :=
  match k with
  | .int =>
    match readInt junk o with
    | (.error e, o1) => (.error e, o1)
    | (.ok v, o1) => (.ok (.int v), o1)
  | .double =>
    match readDouble junk o with
    | (.error e, o1) => (.error e, o1)
    | (.ok v, o1) => (.ok (.double v), o1)
  | .sizeT =>
    match readSizeT junk o with
    | (.error e, o1) => (.error e, o1)
    | (.ok v, o1) => (.ok (.sizeT v), o1)
  | .string =>
    match readString junk o with
    | (.error e, o1) => (.error e, o1)
    | (.ok v, o1) => (.ok (.string v), o1)
  | .blob =>
    match readData junk o with
    | (.error e, o1) => (.error e, o1)
    | (.ok v, o1) => (.ok (.data v.1 v.2), o1)

/-- The typed reads for a list of kinds, in order, up to the first throw. -/
def readFields (junk : Nat → Nat) : List Kind → ObjectInputStream → Result (List Value)
  | [], o => (.ok [], o)
  | k :: ks, o =>
    match readField junk k o with
    | (.error e, o1) => (.error e, o1)
    | (.ok v, o1) =>
      match readFields junk ks o1 with
      | (.error e, o2) => (.error e, o2)
      | (.ok vs, o2) => (.ok (v :: vs), o2)

/-- A caller reading one object: `readObject`, the typed reads, `endObject`. -/
def readWholeObject (junk : Nat → Nat) (ks : List Kind) (o : ObjectInputStream) :
    Result (List Nat × List Value) :=
  match readObject junk o with
  | (.error e, o1) => (.error e, o1)
  | (.ok name, o1) =>
    match readFields junk ks o1 with
    | (.error e, o2) => (.error e, o2)
    | (.ok vs, o2) =>
      match endObject o2 with
      | (.error e, o3) => (.error e, o3)
      | (.ok _, o3) => (.ok (name, vs), o3)

/-- A call of one of the public reading member functions. -/
inductive Call
  | readObject
  | readObjectNamed (name : List Nat)
  | getNextObjectName
  | endObject
  | readInt
  | readDouble
  | readSizeT
  | readString
  | readData
  | readImage (requests : List Nat)
  deriving DecidableEq, Repr

/-- The reader after a call, whether it returned or threw. -/
def runCall (junk : Nat → Nat) : Call → ObjectInputStream → ObjectInputStream
  | .readObject, o => (readObject junk o).2
  | .readObjectNamed name, o => (readObjectNamed junk name o).2
  | .getNextObjectName, o => (getNextObjectName junk o).2
  | .endObject, o => (endObject o).2
  | .readInt, o => (readInt junk o).2
  | .readDouble, o => (readDouble junk o).2
  | .readSizeT, o => (readSizeT junk o).2
  | .readString, o => (readString junk o).2
  | .readData, o => (readData junk o).2
  | .readImage requests, o => (readImage junk requests o).2

/-- The states a reader can be in once `read` has been given the buffer
`data`: the one `read` leaves, and every one reached from there by calls. -/
inductive Reachable (data : List Nat) : ObjectInputStream → Prop
  | start (junk : Nat → Nat) (version : List Nat) :
    Reachable data (ObjectInputStream.read junk version data).2
  | call (junk : Nat → Nat) (c : Call) (o : ObjectInputStream) :
    Reachable data o → Reachable data (runCall junk c o)

end ObjectInputStream

open ObjectInputStream

/-! ### States of a reader -/

/-- The characters at the get pointer are not an object head: an opening tag
followed by a name laid out as a string field. -/
def NoHead (s : IStringStream) : Prop :=
  ∀ n r : List Nat, n.length < 2 ^ 31 → s.avail ≠ tag 123 ++ encodeString n ++ r

/-- How extraction and reading change a string stream: not at all, or, from a
good stream, by moving the get pointer within the buffer, the state bits being
raised only with the pointer at the end. -/
def Evolves (s s' : IStringStream) : Prop :=
  s' = s ∨ (s'.str = s.str ∧ s.failed = false ∧ (s.gpos ≤ s.str.length → s'.gpos ≤ s.str.length) ∧
    (s'.failed = true → s.str.length ≤ s'.gpos))

/-- Same `len`, and the string stream evolved by reads. -/
def Keeps (o o' : ObjectInputStream) : Prop := o'.len = o.len ∧ Evolves o.istream o'.istream

/-- What holds of every reader state over the buffer `data`: the buffer and
`len` are those `read` installed, the get pointer is inside the buffer, and a
stream that is not good does not stand before an object head. -/
def Inv (data : List Nat) (o : ObjectInputStream) : Prop :=
  o.istream.str = data ∧ o.len = data.length ∧ o.istream.gpos ≤ data.length ∧
    (o.istream.failed = true → NoHead o.istream)

/-! ## `StrokeHandler`

Painting is not represented: of the mask surface and its cairo context only
their existence is kept, and repaint requests to the view are left out.  The
stabiliser, whose sources are absent, appears as the list of its calls and as
the points it hands to `paintTo`. -/

/-- A point of a stroke: position, and in `z` the pressure or the sentinel. -/
structure Point where
  x : ℚ
  y : ℚ
  z : ℚ
  deriving DecidableEq, Repr

/-- Tool a stroke is drawn with. -/
inductive StrokeTool
  | pen
  | eraser
  | highlighter
  deriving DecidableEq, Repr

/-- A stroke: its points in order, base width, tool, fill (`-1` for none) and
whether the line style has dashes. -/
structure Stroke where
  points : List Point
  width : ℚ
  toolType : StrokeTool
  fill : Int
  hasDashes : Bool
  deriving DecidableEq, Repr

/-- An axis-aligned rectangle. -/
structure Rectangle where
  x : ℚ
  y : ℚ
  width : ℚ
  height : ℚ
  deriving DecidableEq, Repr

/-- What the shape recogniser returns when it recognises something: the
replacement stroke and the strokes of the layer it stands for. -/
structure ShapeRecognizerResult where
  recognized : Stroke
  sources : List Stroke
  deriving DecidableEq, Repr

/-- An entry of the undo log: `InsertUndoAction(page, layer, element)` or
`RecognizerUndoAction(page, layer, original, recognized)` with the source
elements added to it. -/
inductive UndoAction
  | insert (element : Stroke)
  | recognizer (original recognized : Stroke) (sources : List Stroke)
  deriving DecidableEq, Repr

/-- An input event: device position, pressure and the 32-bit event time. -/
structure PositionInputData where
  x : ℚ
  y : ℚ
  pressure : ℚ
  timestamp : Nat
  deriving DecidableEq, Repr

/-- A call made to the stabiliser. -/
inductive StabilizerCall
  | initializeWith (zoom : ℚ) (pos : PositionInputData)
  | processEvent (pos : PositionInputData)
  | finalizeStroke
  deriving DecidableEq, Repr

/-- Drawing type of the tool: the shape recogniser or any other. -/
inductive DrawingType
  | default
  | strokeRecognizer
  deriving DecidableEq, Repr

/-- The parts of the program the handler calls whose sources are absent:
constants of `Point` and `InputHandler`, geometry of `Point` and `Stroke`, the
shape recogniser and the grid snapping.  They are parameters; every theorem
holds whatever they are. -/
structure Env where
  NO_PRESSURE : ℚ
  PIXEL_MOTION_THRESHOLD : ℚ
  lineLengthTo : Point → Point → ℚ
  hasPressure : Stroke → Bool
  getAvgPressure : Stroke → ℚ
  recognizePatterns : Stroke → Option ShapeRecognizerResult
  snapToGrid : Point → Point
  getSnappedBounds : Stroke → Rectangle
  move : Stroke → ℚ → ℚ → Stroke
  scale : Stroke → ℚ → ℚ → ℚ → ℚ → Stroke

/-- What the handler reads from `Control` during an event: zoom, the settings
of the stroke filter and of snapping, display resolution, the drawing type of
the tool, and the attributes `createStroke` gives a new stroke. -/
structure Control where
  zoom : ℚ
  strokeFilterEnabled : Bool
  strokeFilterIgnoreTime : Int
  strokeFilterIgnoreLength : ℚ
  strokeFilterSuccessiveTime : Int
  displayDpi : ℚ
  snapRecognizedShapesEnabled : Bool
  drawingType : DrawingType
  toolWidth : ℚ
  toolType : StrokeTool
  toolFill : Int
  toolHasDashes : Bool

/-- Source `StrokeHandler::MAX_WIDTH_VARIATION`. -/
def MAX_WIDTH_VARIATION : ℚ := 3 / 10

/-- The constant `DBL_EPSILON` of `<cfloat>`. -/
def DBL_EPSILON : ℚ := 1 / 2 ^ 52

/-- Difference `a - b` of two `guint32`. -/
def subUInt32 (a b : Nat) : Nat := (a % 2 ^ 32 + 2 ^ 32 - b % 2 ^ 32) % 2 ^ 32

namespace Stroke

/-- Modelled from the spec: `Stroke::addPoint`, append-only growth of the
ordered sequence of points (the class `Stroke` is not among the sources). -/
def addPoint (s : Stroke) (p : Point) : Stroke := { s with points := s.points ++ [p] }

/-- Modelled from the spec: `Stroke::setLastPressure`, the one mutation of a
point already in the stroke, the pressure field of the last one. -/
def setLastPressure (s : Stroke) (pressure : ℚ) : Stroke :=
  match s.points.getLast? with
  | none => s
  | some p => { s with points := s.points.dropLast ++ [{ p with z := pressure }] }

/-- Modelled from the spec: `Stroke::clearPressure`, every point is left with
the sentinel for no pressure. -/
def clearPressure (noPressure : ℚ) (s : Stroke) : Stroke :=
  { s with points := s.points.map fun p => { p with z := noPressure } }

end Stroke

/-- The handler together with the collaborators it changes: the fields of
`StrokeHandler` and `InputHandler` used by the event functions, the static
`lastStrokeTime`, the elements of the selected layer of the page, the undo
log, and the calls made to the stabiliser. -/
structure StrokeHandler where
  stroke : Option Stroke
  buttonDownPoint : Point
  surfMask : Bool
  crMask : Bool
  reco : Bool
  startStrokeTime : Nat
  lastStrokeTime : Nat
  hasPressure : Bool
  fullRedraw : Bool
  userTapped : Bool
  layer : List Stroke
  undo : List UndoAction
  stabilizerCalls : List StabilizerCall
  deriving DecidableEq, Repr

namespace StrokeHandler

/-- Source `StrokeHandler::drawSegmentTo`: the point is appended, without its
pressure when pressure is not tracked. -/
def drawSegmentTo (env : Env) (point : Point) (h : StrokeHandler) : StrokeHandler :=
  match h.stroke with
  | none => h
  | some stroke =>
    { h with stroke := some (stroke.addPoint
        (if h.hasPressure then point else { x := point.x, y := point.y, z := env.NO_PRESSURE })) }

/-- The call `stroke->setLastPressure(z)` on the handler's stroke. -/
def setLastPressure (pressure : ℚ) (h : StrokeHandler) : StrokeHandler :=
  match h.stroke with
  | none => h
  | some stroke => { h with stroke := some (stroke.setLastPressure pressure) }

/-- The loop of `paintTo` over the intermediate points: `n` rounds of
advancing `endPoint` by `increment` and drawing a segment to it. -/
def subdivide (env : Env) (increment : Point) : Nat → Point → StrokeHandler → StrokeHandler
  | 0, _, h => h
  | n + 1, endPoint, h =>
    let next : Point :=
      { x := endPoint.x + increment.x, y := endPoint.y + increment.y, z := endPoint.z + increment.z }
    subdivide env increment n next (drawSegmentTo env next h)

/-- The number of steps `paintTo` computes for a width variation `widthDelta`
over a distance `distance`. -/
def nbSteps (env : Env) (widthDelta distance : ℚ) : Int :=
  min ⌈|widthDelta| / MAX_WIDTH_VARIATION⌉ ⌊distance / env.PIXEL_MOTION_THRESHOLD⌋

/-- Source `StrokeHandler::paintTo`. -/
def paintTo (env : Env) (point : Point) (h : StrokeHandler) : StrokeHandler :=
  match h.stroke with
  | none => h
  | some stroke =>
    match stroke.points.getLast? with
    | none => drawSegmentTo env point h
    | some endPoint =>
      let distance := env.lineLengthTo point endPoint
      if distance < env.PIXEL_MOTION_THRESHOLD then h
      else if h.hasPressure then
        let h1 :=
          if endPoint.z ≠ env.NO_PRESSURE then
            let widthDelta := (point.z - endPoint.z) * stroke.width
            if -widthDelta > MAX_WIDTH_VARIATION ∨ widthDelta > MAX_WIDTH_VARIATION then
              let n := nbSteps env widthDelta distance
              let stepLength : ℚ := 1 / (n : ℚ)
              let increment : Point :=
                { x := (point.x - endPoint.x) * stepLength, y := (point.y - endPoint.y) * stepLength,
                  z := widthDelta * stepLength }
              let z0 := endPoint.z * stroke.width + increment.z
              subdivide env increment (n - 1).toNat { endPoint with z := z0 } (setLastPressure z0 h)
            else h
          else h
        drawSegmentTo env point (setLastPressure (point.z * stroke.width) h1)
      else drawSegmentTo env point h

/-- The stabiliser handing points to the handler: each is painted at once. -/
def paintAll (env : Env) (points : List Point) (h : StrokeHandler) : StrokeHandler :=
  points.foldl (fun acc p => paintTo env p acc) h

/-- Source `StrokeHandler::onMotionNotifyEvent`; `emitted` are the points
`stabilizer->processEvent(pos)` hands to `paintTo`. -/
def onMotionNotifyEvent (env : Env) (emitted : List Point) (pos : PositionInputData)
    (h : StrokeHandler) : Bool × StrokeHandler :=
  match h.stroke with
  | none => (false, h)
  | some _ =>
    if pos.pressure = 0 then (true, h)
    else
      (true, paintAll env emitted
        { h with stabilizerCalls := h.stabilizerCalls ++ [StabilizerCall.processEvent pos] })

/-- Source `StrokeHandler::onMotionCancelEvent`. -/
def onMotionCancelEvent (h : StrokeHandler) : StrokeHandler := { h with stroke := none }

/-- Source `StrokeHandler::destroySurface`. -/
def destroySurface (h : StrokeHandler) : StrokeHandler :=
  if h.surfMask ∨ h.crMask then { h with surfMask := false, crMask := false } else h

/-- Modelled from the spec: `InputHandler::createStroke`, a new stroke with
the attributes of the current tool, anchored at the given point. -/
def createStroke (ctl : Control) (p : Point) (h : StrokeHandler) : StrokeHandler :=
  let stroke : Stroke :=
    { points := [p], width := ctl.toolWidth, toolType := ctl.toolType, fill := ctl.toolFill,
      hasDashes := ctl.toolHasDashes }
  { h with stroke := some stroke }

/-- Source `StrokeHandler::onButtonPressEvent`. -/
def onButtonPressEvent (env : Env) (ctl : Control) (pos : PositionInputData) (h : StrokeHandler) :
    StrokeHandler :=
  let h0 := destroySurface h
  let h1 :=
    match h0.stroke with
    | some _ => h0
    | none =>
      let down : Point := { x := pos.x / ctl.zoom, y := pos.y / ctl.zoom, z := h0.buttonDownPoint.z }
      let h2 := createStroke ctl { x := down.x, y := down.y, z := env.NO_PRESSURE }
        { h0 with buttonDownPoint := down }
      { h2 with
        hasPressure := decide (ctl.toolType = StrokeTool.pen) &&
          decide (pos.pressure ≠ env.NO_PRESSURE),
        fullRedraw := decide (ctl.toolFill ≠ -1) || ctl.toolHasDashes,
        stabilizerCalls := h2.stabilizerCalls ++ [StabilizerCall.initializeWith ctl.zoom pos] }
  { h1 with surfMask := true, crMask := true, startStrokeTime := pos.timestamp }

/-- The expression `lengthSqrd` of `onButtonReleaseEvent`. -/
def lengthSqrd (ctl : Control) (pos : PositionInputData) (h : StrokeHandler) : ℚ :=
  ((pos.x / ctl.zoom - h.buttonDownPoint.x) ^ 2 + (pos.y / ctl.zoom - h.buttonDownPoint.y) ^ 2) *
    ctl.zoom ^ 2

/-- The stroke filter of `onButtonReleaseEvent`, entered when the filter is
enabled: whether the function returns there, and the handler it leaves. -/
def strokeFilter (ctl : Control) (pos : PositionInputData) (h : StrokeHandler) :
    Bool × StrokeHandler :=
  let dpmm := ctl.displayDpi / (254 / 10)
  if lengthSqrd ctl pos h < (ctl.strokeFilterIgnoreLength * dpmm) ^ 2 ∧
      subUInt32 pos.timestamp h.startStrokeTime < ofInt32 ctl.strokeFilterIgnoreTime then
    if subUInt32 pos.timestamp h.lastStrokeTime > ofInt32 ctl.strokeFilterSuccessiveTime then
      (true, { h with stroke := none, userTapped := true, lastStrokeTime := pos.timestamp })
    else (false, { h with lastStrokeTime := pos.timestamp })
  else (false, { h with lastStrokeTime := pos.timestamp })

/-- The two scale factors of `strokeRecognizerDetected`. -/
def snapFactor (extent snappedFar snappedNear : ℚ) : ℚ :=
  if |extent| > DBL_EPSILON then (snappedFar - snappedNear) / extent else 1

/-- The snapping block of `strokeRecognizerDetected`; the scaling is done
without rotation and without restoring the line width. -/
def snapRecognized (env : Env) (recognized : Stroke) : Stroke :=
  let oldSnappedBounds := env.getSnappedBounds recognized
  let topLeft : Point := { x := oldSnappedBounds.x, y := oldSnappedBounds.y, z := env.NO_PRESSURE }
  let topLeftSnapped := env.snapToGrid topLeft
  let moved := env.move recognized (topLeftSnapped.x - topLeft.x) (topLeftSnapped.y - topLeft.y)
  let snappedBounds := env.getSnappedBounds moved
  let belowRight : Point :=
    { x := snappedBounds.x + snappedBounds.width, y := snappedBounds.y + snappedBounds.height,
      z := env.NO_PRESSURE }
  let belowRightSnapped := env.snapToGrid belowRight
  let fx := snapFactor snappedBounds.width belowRightSnapped.x topLeftSnapped.x
  let fy := snapFactor snappedBounds.height belowRightSnapped.y topLeftSnapped.y
  env.scale moved topLeftSnapped.x topLeftSnapped.y fx fy

/-- The stroke `snappedStroke` of `strokeRecognizerDetected`: the recognised
stroke with the width taken from the drawn one, snapped when snapping is
enabled. -/
def replacement (env : Env) (ctl : Control) (stroke : Stroke) (result : ShapeRecognizerResult) :
    Stroke :=
  let recognized : Stroke :=
    { result.recognized with
      width := if env.hasPressure stroke then env.getAvgPressure stroke else stroke.width }
  if ctl.snapRecognizedShapesEnabled then snapRecognized env recognized else recognized

/-- Source `StrokeHandler::strokeRecognizerDetected`. -/
def strokeRecognizerDetected (env : Env) (ctl : Control) (result : ShapeRecognizerResult)
    (h : StrokeHandler) : StrokeHandler :=
  match h.stroke with
  | none => h
  | some stroke =>
    let snappedStroke := replacement env ctl stroke result
    { h with
      undo := h.undo ++ [UndoAction.recognizer stroke snappedStroke result.sources],
      layer := result.sources.foldl (fun l s => l.erase s) (h.layer ++ [snappedStroke]) }

/-- The stroke as `onButtonReleaseEvent` hands it on: a stroke of one point
gets that point a second time and loses its pressure. -/
def twoPoints (env : Env) (stroke : Stroke) : Stroke :=
  match stroke.points with
  | [p] => (stroke.addPoint p).clearPressure env.NO_PRESSURE
  | _ => stroke

/-- The part of `onButtonReleaseEvent` after the stroke filter. -/
def commit (env : Env) (ctl : Control) (h : StrokeHandler) : StrokeHandler :=
  match h.stroke with
  | none => h
  | some stroke0 =>
    let stroke := twoPoints env stroke0
    let h1 : StrokeHandler :=
      { h with stroke := some stroke, undo := h.undo ++ [UndoAction.insert stroke] }
    if ctl.drawingType = DrawingType.strokeRecognizer then
      let h2 : StrokeHandler := { h1 with reco := true }
      match env.recognizePatterns stroke with
      | some result =>
        let h3 := strokeRecognizerDetected env ctl result h2
        { h3 with stroke := none }
      | none => { h2 with layer := h2.layer ++ [stroke], stroke := none }
    else { h1 with layer := h1.layer ++ [stroke], stroke := none }

/-- The call `stabilizer->finalizeStroke()`; `flush` are the points it hands
to `paintTo` to close the gap to the input device. -/
def finalizeStroke (env : Env) (flush : List Point) (h : StrokeHandler) : StrokeHandler :=
  paintAll env flush { h with stabilizerCalls := h.stabilizerCalls ++ [StabilizerCall.finalizeStroke] }

/-- Source `StrokeHandler::onButtonReleaseEvent`. -/
def onButtonReleaseEvent (env : Env) (ctl : Control) (flush : List Point)
    (pos : PositionInputData) (h : StrokeHandler) : StrokeHandler :=
  match h.stroke with
  | none => h
  | some _ =>
    let h1 := finalizeStroke env flush h
    if ctl.strokeFilterEnabled then
      let r := strokeFilter ctl pos h1
      if r.1 then r.2 else commit env ctl r.2
    else commit env ctl h1

end StrokeHandler

open StrokeHandler

/-! ### Auxiliary notions for the handler -/

/-- The second handler differs from the first at most in the stroke and in
the calls made to the stabiliser, and has a stroke exactly when the first has
one. -/
def Frame (h h' : StrokeHandler) : Prop :=
  h' = { h with stroke := h'.stroke, stabilizerCalls := h'.stabilizerCalls } ∧
    h'.stroke.isSome = h.stroke.isSome

/-- The three conditions of the stroke filter, as the code evaluates them on
a handler. -/
def FilterCond (ctl : Control) (pos : PositionInputData) (h : StrokeHandler) : Prop :=
  lengthSqrd ctl pos h < (ctl.strokeFilterIgnoreLength * (ctl.displayDpi / (254 / 10))) ^ 2 ∧
    subUInt32 pos.timestamp h.startStrokeTime < ofInt32 ctl.strokeFilterIgnoreTime ∧
    subUInt32 pos.timestamp h.lastStrokeTime > ofInt32 ctl.strokeFilterSuccessiveTime

/-- The handler after a press and the motion events that follow it, each
with the points the stabiliser emits for it. -/
def afterMotions (env : Env) (motions : List (List Point × PositionInputData))
    (h : StrokeHandler) : StrokeHandler :=
  motions.foldl (fun acc m => (onMotionNotifyEvent env m.1 m.2 acc).2) h

/-! ### Sample data -/

namespace Example

/-- Sample collaborators: no pressure is `-1`, the motion threshold `0.3`, a
length that is the Euclidean one for points differing in one coordinate, a
recogniser that recognises nothing, and a grid that snaps nothing. -/
def env : Env :=
  { NO_PRESSURE := -1
    PIXEL_MOTION_THRESHOLD := 3 / 10
    lineLengthTo := fun p q => max |p.x - q.x| |p.y - q.y|
    hasPressure := fun _ => false
    getAvgPressure := fun _ => 1
    recognizePatterns := fun _ => none
    snapToGrid := fun p => p
    getSnappedBounds := fun _ => { x := 0, y := 0, width := 0, height := 0 }
    move := fun s _ _ => s
    scale := fun s _ _ _ _ => s }

/-- A horizontal line of two points, what the sample recogniser returns. -/
def line : Stroke :=
  { points := [{ x := 0, y := 0, z := -1 }, { x := 10, y := 0, z := -1 }], width := 2,
    toolType := StrokeTool.pen, fill := -1, hasDashes := false }

/-- The sample collaborators with a recogniser that always answers `line`,
consuming no other stroke. -/
def recoEnv : Env :=
  { env with recognizePatterns := fun _ => some { recognized := line, sources := [] } }

/-- Sample settings: filter on, ignore time 150, ignore length 1 at 254 dpi,
successive time 500, zoom 2, pen of width 1. -/
def ctl : Control :=
  { zoom := 2
    strokeFilterEnabled := true
    strokeFilterIgnoreTime := 150
    strokeFilterIgnoreLength := 1
    strokeFilterSuccessiveTime := 500
    displayDpi := 254
    snapRecognizedShapesEnabled := false
    drawingType := DrawingType.default
    toolWidth := 1
    toolType := StrokeTool.pen
    toolFill := -1
    toolHasDashes := false }

/-- The sample settings with the stroke filter off. -/
def ctlNoFilter : Control := { ctl with strokeFilterEnabled := false }

/-- The sample settings with the filter off and the shape recogniser on. -/
def ctlReco : Control := { ctlNoFilter with drawingType := DrawingType.strokeRecognizer }

/-- A handler with no gesture in progress, empty layer and undo log. -/
def idle : StrokeHandler :=
  { stroke := none, buttonDownPoint := { x := 0, y := 0, z := 0 }, surfMask := false,
    crMask := false, reco := false, startStrokeTime := 0, lastStrokeTime := 0,
    hasPressure := false, fullRedraw := false, userTapped := false, layer := [], undo := [],
    stabilizerCalls := [] }

/-- A press at pixel (20, 40) at time 1000. -/
def press : PositionInputData := { x := 20, y := 40, pressure := 1 / 2, timestamp := 1000 }

/-- A release one pixel to the right, 50 ms later. -/
def release : PositionInputData := { x := 21, y := 40, pressure := 1 / 2, timestamp := 1050 }

/-- The stroke the press creates: one point, at document position (10, 20). -/
def dot : Stroke :=
  { points := [{ x := 10, y := 20, z := -1 }], width := 1, toolType := StrokeTool.pen,
    fill := -1, hasDashes := false }

/-- The stroke committed for `dot`. -/
def dot2 : Stroke :=
  { points := [{ x := 10, y := 20, z := -1 }, { x := 10, y := 20, z := -1 }], width := 1,
    toolType := StrokeTool.pen, fill := -1, hasDashes := false }

/-- The handler after the sample press. -/
def pressed : StrokeHandler := StrokeHandler.onButtonPressEvent env ctl press idle

end Example

/-! ### Further notions for painting -/

/-- Source `stroke->getPointCount()` on the handler's stroke. -/
def StrokeHandler.getPointCount (h : StrokeHandler) : Nat :=
  match h.stroke with
  | none => 0
  | some stroke => stroke.points.length

namespace Example

/-- A pen stroke of width 10 under way: two points, the last with pressure
`0.1`. -/
def inkedStroke : Stroke :=
  { points := [{ x := 10, y := 20, z := 1 }, { x := 11, y := 20, z := 1 / 10 }], width := 10,
    toolType := StrokeTool.pen, fill := -1, hasDashes := false }

/-- The last point of `inkedStroke`. -/
def inkedEnd : Point := { x := 11, y := 20, z := 1 / 10 }

/-- A handler drawing `inkedStroke` with pressure tracked. -/
def inked : StrokeHandler := { idle with stroke := some inkedStroke, hasPressure := true }

/-- A point `0.6` to the right of `inkedEnd`, with pressure `0.4`: two motion
thresholds away, with a width variation of ten times the maximum. -/
def farther : Point := { x := 116 / 10, y := 20, z := 4 / 10 }

end Example

/-! ### Further notions for the handler -/

/-- Source `StrokeHandler::~StrokeHandler`. -/
def StrokeHandler.destructor (h : StrokeHandler) : StrokeHandler :=
  { destroySurface h with reco := false }

/-- Modelled from the spec: the effect of `Stroke::scale` (not among the
sources) on one coordinate, scaling by the factor `f` about the centre `x0`. -/
def scaleAbout (x0 f x : ℚ) : ℚ := x0 + (x - x0) * f

namespace StrokeHandler

/-- The recognised stroke once `strokeRecognizerDetected` has set its width:
the average pressure of the drawn stroke if it has pressure, else its width. -/
def recognizedWithWidth (env : Env) (stroke : Stroke) (result : ShapeRecognizerResult) : Stroke :=
  { result.recognized with
    width := if env.hasPressure stroke then env.getAvgPressure stroke else stroke.width }

/-- The point `topLeftSnapped` of `strokeRecognizerDetected`. -/
def snapTopLeftSnapped (env : Env) (recognized : Stroke) : Point :=
  env.snapToGrid
    { x := (env.getSnappedBounds recognized).x, y := (env.getSnappedBounds recognized).y,
      z := env.NO_PRESSURE }

/-- The stroke `snappedStroke` of `strokeRecognizerDetected` after `move`. -/
def snapMoved (env : Env) (recognized : Stroke) : Stroke :=
  env.move recognized
    ((snapTopLeftSnapped env recognized).x - (env.getSnappedBounds recognized).x)
    ((snapTopLeftSnapped env recognized).y - (env.getSnappedBounds recognized).y)

/-- The rectangle `snappedBounds` of `strokeRecognizerDetected`. -/
def snapBounds (env : Env) (recognized : Stroke) : Rectangle :=
  env.getSnappedBounds (snapMoved env recognized)

/-- The point `belowRightSnapped` of `strokeRecognizerDetected`. -/
def snapBelowRightSnapped (env : Env) (recognized : Stroke) : Point :=
  env.snapToGrid
    { x := (snapBounds env recognized).x + (snapBounds env recognized).width,
      y := (snapBounds env recognized).y + (snapBounds env recognized).height,
      z := env.NO_PRESSURE }

/-- The factor `fx` of `strokeRecognizerDetected`. -/
def snapFx (env : Env) (recognized : Stroke) : ℚ :=
  snapFactor (snapBounds env recognized).width (snapBelowRightSnapped env recognized).x
    (snapTopLeftSnapped env recognized).x

/-- The factor `fy` of `strokeRecognizerDetected`. -/
def snapFy (env : Env) (recognized : Stroke) : ℚ :=
  snapFactor (snapBounds env recognized).height (snapBelowRightSnapped env recognized).y
    (snapTopLeftSnapped env recognized).y

end StrokeHandler

namespace Example

/-- A second press at the same place, 150 ms after `release`. -/
def press2 : PositionInputData := { x := 20, y := 40, pressure := 1 / 2, timestamp := 1200 }

/-- The release of the second tap, 200 ms after `release`. -/
def release2 : PositionInputData := { x := 21, y := 40, pressure := 1 / 2, timestamp := 1250 }

/-- A motion sample without pressure, as a stylus emits when lifted. -/
def lift : PositionInputData := { x := 21, y := 40, pressure := 0, timestamp := 1040 }

end Example

namespace Example

/-- Bounding rectangle of the points of a stroke (of no point: empty at the
origin). -/
def boundsOf (s : Stroke) : Rectangle :=
  match s.points with
  | [] => { x := 0, y := 0, width := 0, height := 0 }
  | p :: ps =>
    let minX := ps.foldl (fun m q => min m q.x) p.x
    let maxX := ps.foldl (fun m q => max m q.x) p.x
    let minY := ps.foldl (fun m q => min m q.y) p.y
    let maxY := ps.foldl (fun m q => max m q.y) p.y
    { x := minX, y := minY, width := maxX - minX, height := maxY - minY }

/-- Sample collaborators with geometry: a unit grid snapping each coordinate
down, bounds that are the bounding rectangle of the points, `move` as
translation and `scale` as scaling about a centre. -/
def gridEnv : Env :=
  { env with
    snapToGrid := fun p => { x := (⌊p.x⌋ : ℚ), y := (⌊p.y⌋ : ℚ), z := p.z }
    getSnappedBounds := boundsOf
    move := fun s dx dy =>
      { s with points := s.points.map fun p => { p with x := p.x + dx, y := p.y + dy } }
    scale := fun s x0 y0 fx fy =>
      { s with points := s.points.map fun p =>
          { p with x := scaleAbout x0 fx p.x, y := scaleAbout y0 fy p.y } } }

/-- A recognised horizontal line from `(1/2, 1/2)` to `(4, 1/2)`, of width 1. -/
def sketch : Stroke :=
  { points := [{ x := 1 / 2, y := 1 / 2, z := -1 }, { x := 4, y := 1 / 2, z := -1 }], width := 1,
    toolType := StrokeTool.pen, fill := -1, hasDashes := false }

/-- The sample settings with the recogniser and snapping on. -/
def ctlSnap : Control := { ctlReco with snapRecognizedShapesEnabled := true }

end Example

/-! ### Further notions for interpolation -/

/-- Position of a point, its pressure left out. -/
def Point.position (p : Point) : ℚ × ℚ := (p.x, p.y)

namespace StrokeHandler

/-- The local `stepLength` of `paintTo`: `1.0 / nbSteps`. -/
def stepLength (env : Env) (widthDelta distance : ℚ) : ℚ :=
  1 / (nbSteps env widthDelta distance : ℚ)

/-- The local `increment` of `paintTo` for a stroke of width `width` whose
last point is `endPoint`. -/
def increment (env : Env) (point endPoint : Point) (width : ℚ) : Point :=
  { x := (point.x - endPoint.x) *
      stepLength env ((point.z - endPoint.z) * width) (env.lineLengthTo point endPoint)
    y := (point.y - endPoint.y) *
      stepLength env ((point.z - endPoint.z) * width) (env.lineLengthTo point endPoint)
    z := (point.z - endPoint.z) * width *
      stepLength env ((point.z - endPoint.z) * width) (env.lineLengthTo point endPoint) }

end StrokeHandler

/-! ## Double arithmetic

The handler computes in `double`, IEEE 754 binary64 with rounding to nearest,
a tie going to the even significand.  A finite double is the rational it
stands for, and an operation of the source is the exact operation followed by
`roundToDouble`.  Infinities, NaN and the sign of zero are not represented, so
the definitions of this section follow the program as long as no operation
overflows or divides by zero; no two operations are fused, `std::pow(x, 2)` is
taken as the correctly rounded square, and the conversion
`static_cast<int>(nbSteps)` as exact. -/

/-- Nearest integer, a tie going to the even one. -/
def roundHalfEven (q : ℚ) : Int :=
  if q - ⌊q⌋ < 1 / 2 then ⌊q⌋
  else if 1 / 2 < q - ⌊q⌋ then ⌊q⌋ + 1
  else if ⌊q⌋ % 2 = 0 then ⌊q⌋ else ⌊q⌋ + 1

/-- Exponent of the unit in the last place of the doubles of the magnitude of
`x`: 52 below the binade of `x`, and `-1074` for the subnormal ones. -/
def ulpExponent (x : ℚ) : Int := max (Int.log 2 |x|) (-1022) - 52

/-- The double nearest to `x`, a tie going to the even significand. -/
def roundToDouble (x : ℚ) : ℚ :=
  (roundHalfEven (x / 2 ^ ulpExponent x) : ℚ) * 2 ^ ulpExponent x

namespace Double

/-- Sum of two doubles. -/
def add (a b : ℚ) : ℚ := roundToDouble (a + b)

/-- Difference of two doubles. -/
def sub (a b : ℚ) : ℚ := roundToDouble (a - b)

/-- Product of two doubles. -/
def mul (a b : ℚ) : ℚ := roundToDouble (a * b)

/-- Quotient of two doubles. -/
def div (a b : ℚ) : ℚ := roundToDouble (a / b)

/-- The call `pow(x, 2)`. -/
def sq (x : ℚ) : ℚ := roundToDouble (x * x)

/-- Source `StrokeHandler::MAX_WIDTH_VARIATION`: the double the literal `0.3`
denotes. -/
def MAX_WIDTH_VARIATION : ℚ := roundToDouble (3 / 10)

/-- One round of the loop of `paintTo` on `endPoint`: the three `+=`. -/
def advance (increment endPoint : Point) : Point :=
  { x := add endPoint.x increment.x, y := add endPoint.y increment.y,
    z := add endPoint.z increment.z }

/-- The loop of `paintTo` over the intermediate points, in double arithmetic:
`n` rounds of advancing `endPoint` and drawing a segment to it. -/
def subdivide (env : Env) (increment : Point) : Nat → Point → StrokeHandler → StrokeHandler
  | 0, _, h => h
  | n + 1, endPoint, h =>
    subdivide env increment n (advance increment endPoint)
      (drawSegmentTo env (advance increment endPoint) h)

/-- The number of steps `paintTo` computes, in double arithmetic: both
quotients are rounded before the ceiling and the floor are taken. -/
def nbSteps (env : Env) (widthDelta distance : ℚ) : Int :=
  min ⌈div |widthDelta| MAX_WIDTH_VARIATION⌉ ⌊div distance env.PIXEL_MOTION_THRESHOLD⌋

/-- The local `widthDelta` of `paintTo`. -/
def widthDelta (point endPoint : Point) (width : ℚ) : ℚ :=
  mul (sub point.z endPoint.z) width

/-- The local `increment` of `paintTo` for `nbSteps = n`. -/
def increment (point endPoint : Point) (width : ℚ) (n : Int) : Point :=
  { x := mul (sub point.x endPoint.x) (div 1 (n : ℚ))
    y := mul (sub point.y endPoint.y) (div 1 (n : ℚ))
    z := mul (widthDelta point endPoint width) (div 1 (n : ℚ)) }

/-- The local `endPoint` of `paintTo` once its pressure has been turned into
a width and advanced by the increment, for `nbSteps = n`. -/
def startPoint (point endPoint : Point) (width : ℚ) (n : Int) : Point :=
  { endPoint with z := add (mul endPoint.z width) (increment point endPoint width n).z }

/-- The points a subdividing `paintTo` has put in place of the former last
point when its loop ends, for `nbSteps = n`: `startPoint`, then `startPoint`
advanced once, twice, up to `n - 1` times. -/
def steps (point endPoint : Point) (width : ℚ) (n : Int) : List Point :=
  (List.range n.toNat).map fun k : Nat =>
    (advance (increment point endPoint width n))^[k] (startPoint point endPoint width n)

/-- Source `StrokeHandler::paintTo`, in double arithmetic. -/
def paintTo (env : Env) (point : Point) (h : StrokeHandler) : StrokeHandler :=
  match h.stroke with
  | none => h
  | some stroke =>
    match stroke.points.getLast? with
    | none => drawSegmentTo env point h
    | some endPoint =>
      let distance := env.lineLengthTo point endPoint
      if distance < env.PIXEL_MOTION_THRESHOLD then h
      else if h.hasPressure then
        let h1 :=
          if endPoint.z ≠ env.NO_PRESSURE then
            let wd := widthDelta point endPoint stroke.width
            if -wd > MAX_WIDTH_VARIATION ∨ wd > MAX_WIDTH_VARIATION then
              let n := nbSteps env wd distance
              let inc := increment point endPoint stroke.width n
              let z0 := add (mul endPoint.z stroke.width) inc.z
              subdivide env inc (n - 1).toNat { endPoint with z := z0 }
                (StrokeHandler.setLastPressure z0 h)
            else h
          else h
        drawSegmentTo env point (StrokeHandler.setLastPressure (mul point.z stroke.width) h1)
      else drawSegmentTo env point h

/-- The stabiliser handing points to the handler, in double arithmetic. -/
def paintAll (env : Env) (points : List Point) (h : StrokeHandler) : StrokeHandler :=
  points.foldl (fun acc p => paintTo env p acc) h

/-- Source `StrokeHandler::onButtonPressEvent`, in double arithmetic. -/
def onButtonPressEvent (env : Env) (ctl : Control) (pos : PositionInputData) (h : StrokeHandler) :
    StrokeHandler :=
  let h0 := destroySurface h
  let h1 :=
    match h0.stroke with
    | some _ => h0
    | none =>
      let down : Point :=
        { x := div pos.x ctl.zoom, y := div pos.y ctl.zoom, z := h0.buttonDownPoint.z }
      let h2 := createStroke ctl { x := down.x, y := down.y, z := env.NO_PRESSURE }
        { h0 with buttonDownPoint := down }
      { h2 with
        hasPressure := decide (ctl.toolType = StrokeTool.pen) &&
          decide (pos.pressure ≠ env.NO_PRESSURE),
        fullRedraw := decide (ctl.toolFill ≠ -1) || ctl.toolHasDashes,
        stabilizerCalls := h2.stabilizerCalls ++ [StabilizerCall.initializeWith ctl.zoom pos] }
  { h1 with surfMask := true, crMask := true, startStrokeTime := pos.timestamp }

/-- The expression `lengthSqrd` of `onButtonReleaseEvent`, in double
arithmetic. -/
def lengthSqrd (ctl : Control) (pos : PositionInputData) (h : StrokeHandler) : ℚ :=
  mul
    (add (sq (sub (div pos.x ctl.zoom) h.buttonDownPoint.x))
      (sq (sub (div pos.y ctl.zoom) h.buttonDownPoint.y)))
    (sq ctl.zoom)

/-- The bound `pow(strokeFilterIgnoreLength * dpmm, 2)` of the stroke filter,
with `dpmm = getDisplayDpi() / 25.4`. -/
def ignoreLengthSqrd (ctl : Control) : ℚ :=
  sq (mul ctl.strokeFilterIgnoreLength (div ctl.displayDpi (roundToDouble (254 / 10))))

/-- The three conditions of the stroke filter, as the code evaluates them in
double arithmetic. -/
def FilterCond (ctl : Control) (pos : PositionInputData) (h : StrokeHandler) : Prop :=
  lengthSqrd ctl pos h < ignoreLengthSqrd ctl ∧
    subUInt32 pos.timestamp h.startStrokeTime < ofInt32 ctl.strokeFilterIgnoreTime ∧
    subUInt32 pos.timestamp h.lastStrokeTime > ofInt32 ctl.strokeFilterSuccessiveTime

/-- The stroke filter of `onButtonReleaseEvent`, in double arithmetic. -/
def strokeFilter (ctl : Control) (pos : PositionInputData) (h : StrokeHandler) :
    Bool × StrokeHandler :=
  if lengthSqrd ctl pos h < ignoreLengthSqrd ctl ∧
      subUInt32 pos.timestamp h.startStrokeTime < ofInt32 ctl.strokeFilterIgnoreTime then
    if subUInt32 pos.timestamp h.lastStrokeTime > ofInt32 ctl.strokeFilterSuccessiveTime then
      (true, { h with stroke := none, userTapped := true, lastStrokeTime := pos.timestamp })
    else (false, { h with lastStrokeTime := pos.timestamp })
  else (false, { h with lastStrokeTime := pos.timestamp })

/-- The two scale factors of `strokeRecognizerDetected`, in double arithmetic. -/
def snapFactor (extent snappedFar snappedNear : ℚ) : ℚ :=
  if |extent| > DBL_EPSILON then div (sub snappedFar snappedNear) extent else 1

/-- The snapping block of `strokeRecognizerDetected`, in double arithmetic. -/
def snapRecognized (env : Env) (recognized : Stroke) : Stroke :=
  let oldSnappedBounds := env.getSnappedBounds recognized
  let topLeft : Point := { x := oldSnappedBounds.x, y := oldSnappedBounds.y, z := env.NO_PRESSURE }
  let topLeftSnapped := env.snapToGrid topLeft
  let moved := env.move recognized (sub topLeftSnapped.x topLeft.x) (sub topLeftSnapped.y topLeft.y)
  let snappedBounds := env.getSnappedBounds moved
  let belowRight : Point :=
    { x := add snappedBounds.x snappedBounds.width, y := add snappedBounds.y snappedBounds.height,
      z := env.NO_PRESSURE }
  let belowRightSnapped := env.snapToGrid belowRight
  let fx := snapFactor snappedBounds.width belowRightSnapped.x topLeftSnapped.x
  let fy := snapFactor snappedBounds.height belowRightSnapped.y topLeftSnapped.y
  env.scale moved topLeftSnapped.x topLeftSnapped.y fx fy

/-- The stroke `snappedStroke` of `strokeRecognizerDetected`, in double
arithmetic. -/
def replacement (env : Env) (ctl : Control) (stroke : Stroke) (result : ShapeRecognizerResult) :
    Stroke :=
  let recognized : Stroke :=
    { result.recognized with
      width := if env.hasPressure stroke then env.getAvgPressure stroke else stroke.width }
  if ctl.snapRecognizedShapesEnabled then snapRecognized env recognized else recognized

/-- Source `StrokeHandler::strokeRecognizerDetected`, in double arithmetic. -/
def strokeRecognizerDetected (env : Env) (ctl : Control) (result : ShapeRecognizerResult)
    (h : StrokeHandler) : StrokeHandler :=
  match h.stroke with
  | none => h
  | some stroke =>
    let snappedStroke := replacement env ctl stroke result
    { h with
      undo := h.undo ++ [UndoAction.recognizer stroke snappedStroke result.sources],
      layer := result.sources.foldl (fun l s => l.erase s) (h.layer ++ [snappedStroke]) }

/-- The part of `onButtonReleaseEvent` after the stroke filter, in double
arithmetic. -/
def commit (env : Env) (ctl : Control) (h : StrokeHandler) : StrokeHandler :=
  match h.stroke with
  | none => h
  | some stroke0 =>
    let stroke := twoPoints env stroke0
    let h1 : StrokeHandler :=
      { h with stroke := some stroke, undo := h.undo ++ [UndoAction.insert stroke] }
    if ctl.drawingType = DrawingType.strokeRecognizer then
      let h2 : StrokeHandler := { h1 with reco := true }
      match env.recognizePatterns stroke with
      | some result =>
        let h3 := strokeRecognizerDetected env ctl result h2
        { h3 with stroke := none }
      | none => { h2 with layer := h2.layer ++ [stroke], stroke := none }
    else { h1 with layer := h1.layer ++ [stroke], stroke := none }

/-- The call `stabilizer->finalizeStroke()`, the points it hands over being
painted in double arithmetic. -/
def finalizeStroke (env : Env) (flush : List Point) (h : StrokeHandler) : StrokeHandler :=
  paintAll env flush { h with stabilizerCalls := h.stabilizerCalls ++ [StabilizerCall.finalizeStroke] }

/-- Source `StrokeHandler::onButtonReleaseEvent`, in double arithmetic. -/
def onButtonReleaseEvent (env : Env) (ctl : Control) (flush : List Point)
    (pos : PositionInputData) (h : StrokeHandler) : StrokeHandler :=
  match h.stroke with
  | none => h
  | some _ =>
    let h1 := finalizeStroke env flush h
    if ctl.strokeFilterEnabled then
      let r := strokeFilter ctl pos h1
      if r.1 then r.2 else commit env ctl r.2
    else commit env ctl h1

end Double

namespace Example

/-- The sample collaborators for double arithmetic: the motion threshold is
the double `0.3` denotes, and the length is the one of points that differ in
one coordinate. -/
def envDouble : Env :=
  { env with
    PIXEL_MOTION_THRESHOLD := roundToDouble (3 / 10)
    lineLengthTo := fun p q => max |Double.sub p.x q.x| |Double.sub p.y q.y| }

/-- A pen stroke whose width is the double `3.6` denotes, under way: two
points, the last with pressure `0.75`. -/
def softStroke : Stroke :=
  { points := [{ x := 10, y := 20, z := 1 }, { x := 11, y := 20, z := 3 / 4 }],
    width := roundToDouble (36 / 10), toolType := StrokeTool.pen, fill := -1, hasDashes := false }

/-- The last point of `softStroke`. -/
def softEnd : Point := { x := 11, y := 20, z := 3 / 4 }

/-- A handler drawing `softStroke` with pressure tracked. -/
def soft : StrokeHandler := { idle with stroke := some softStroke, hasPressure := true }

/-- A point `6` to the right of `softEnd`, with pressure `0.5`. -/
def lighter : Point := { x := 17, y := 20, z := 1 / 2 }

/-- A pen stroke of width 8 under way: two points, the last with pressure
`0.125`. -/
def wideStroke : Stroke :=
  { points := [{ x := 10, y := 20, z := 1 }, { x := 11, y := 20, z := 1 / 8 }], width := 8,
    toolType := StrokeTool.pen, fill := -1, hasDashes := false }

/-- The last point of `wideStroke`. -/
def wideEnd : Point := { x := 11, y := 20, z := 1 / 8 }

/-- A handler drawing `wideStroke` with pressure tracked. -/
def wide : StrokeHandler := { idle with stroke := some wideStroke, hasPressure := true }

/-- A point `0.75` to the right of `wideEnd`, with pressure `0.5`. -/
def nearby : Point := { x := 47 / 4, y := 20, z := 1 / 2 }

/-- The sample settings at zoom 3. -/
def ctlZoom3 : Control := { ctl with zoom := 3 }

/-- The handler after the sample press at zoom 3, in double arithmetic. -/
def pressedZoom3 : StrokeHandler := Double.onButtonPressEvent envDouble ctlZoom3 press idle

/-- A release ten pixels to the right of the sample press, 50 ms later. -/
def releaseTen : PositionInputData := { x := 30, y := 40, pressure := 1 / 2, timestamp := 1050 }

/-- The handler after the sample press at zoom 2, in double arithmetic. -/
def pressedDouble : StrokeHandler := Double.onButtonPressEvent envDouble ctl press idle

end Example

/-! # Theorems -/

/-! ## Reading what the layout prescribes -/

theorem leBytes_length (n v : Nat) : (leBytes n v).length = n := by
  induction n generalizing v with
  | zero => rfl
  | succ n ih => simp [leBytes, ih]

theorem leNat_leBytes (n v : Nat) : leNat (leBytes n v) = v % 256 ^ n := by
  induction n generalizing v with
  | zero => simp [leBytes, leNat, Nat.mod_one]
  | succ n ih =>
    simp only [leBytes, leNat, ih]
    rw [pow_succ, Nat.mul_comm (256 ^ n) 256, Nat.mod_mul]

theorem toInt32_ofInt32 (v : Int) (h1 : -2 ^ 31 ≤ v) (h2 : v < 2 ^ 31) :
    toInt32 (ofInt32 v) = v := by
  unfold toInt32 ofInt32
  have hnn : (0 : Int) ≤ v % 2 ^ 32 := Int.emod_nonneg _ (by norm_num)
  have hlt : v % 2 ^ 32 < 2 ^ 32 := Int.emod_lt_of_pos _ (by norm_num)
  have hm : ((v % 2 ^ 32).toNat % 2 ^ 32 : Nat) = (v % 2 ^ 32).toNat := by
    apply Nat.mod_eq_of_lt
    omega
  rw [hm]
  split_ifs with h <;> omega

theorem ofInt32_lt (v : Int) : ofInt32 v < 2 ^ 32 := by
  unfold ofInt32
  have hnn : (0 : Int) ≤ v % 2 ^ 32 := Int.emod_nonneg _ (by norm_num)
  have hlt : v % 2 ^ 32 < 2 ^ 32 := Int.emod_lt_of_pos _ (by norm_num)
  omega

theorem toInt32_leNat_leBytes (v : Int) (h1 : -2 ^ 31 ≤ v) (h2 : v < 2 ^ 31) :
    toInt32 (leNat (leBytes 4 (ofInt32 v))) = v := by
  rw [leNat_leBytes, Nat.mod_eq_of_lt (by have := ofInt32_lt v; norm_num at this ⊢; exact this)]
  exact toInt32_ofInt32 v h1 h2

theorem intToSizeT_natCast (n : Nat) (h : n < 2 ^ 64) : intToSizeT (n : Int) = n := by
  unfold intToSizeT
  omega

theorem drop_add_of_eq {buf x r : List Nat} {p : Nat} (h : buf.drop p = x ++ r) :
    buf.drop (p + x.length) = r := by
  rw [← List.drop_drop, h, List.drop_left]

theorem length_of_drop {buf x r : List Nat} {p : Nat} (h : buf.drop p = x ++ r) :
    buf.length - p = x.length + r.length := by
  have := congrArg List.length h
  simpa using this

theorem extractChar_cons {buf r : List Nat} {p c : Nat} (h : buf.drop p = c :: r)
    (hc : isSpace c = false) :
    IStringStream.extractChar ⟨buf, p, false⟩ = (some c, ⟨buf, p + 1, false⟩) := by
  have hg : buf[p]? = some c := by
    have := congrArg List.head? h
    simpa [List.head?_drop] using this
  simp [IStringStream.extractChar, IStringStream.avail, h, List.takeWhile, hc, hg]

theorem read_prefix {buf r : List Nat} {p : Nat} (x : List Nat) (h : buf.drop p = x ++ r) :
    IStringStream.read ⟨buf, p, false⟩ x.length = (x, ⟨buf, p + x.length, false⟩) := by
  simp [IStringStream.read, IStringStream.avail, h]

theorem checkType_at {buf r : List Nat} {p t : Nat} (h : buf.drop p = tag t ++ r)
    (ht : isSpace t = false) :
    checkType t (at_ buf p) = (.ok (), at_ buf (p + 2)) := by
  have h1 : buf.drop p = 95 :: (t :: r) := by simpa [tag] using h
  have h2 : buf.drop (p + 1) = t :: r := drop_add_of_eq (x := [95]) h1
  have hl := length_of_drop h
  have hlen : ¬ buf.length < 2 := by simp [tag] at hl; omega
  simp [checkType, at_, hlen, extractChar_cons h1 (by decide), extractChar_cons h2 ht]

theorem readTypeFromSStream_at (junk : Nat → Nat) {buf r : List Nat} {p : Nat} (x : List Nat)
    (h : buf.drop p = x ++ r) :
    readTypeFromSStream junk x.length (at_ buf p) = (.ok x, at_ buf (p + x.length)) := by
  have hl := length_of_drop h
  have hlen : ¬ buf.length < x.length := by omega
  simp [readTypeFromSStream, at_, hlen, read_prefix x h, fillFrom]

theorem readFixed_at (junk : Nat → Nat) {buf r : List Nat} {p t : Nat} (n v : Nat)
    (h : buf.drop p = tag t ++ leBytes n v ++ r) (ht : isSpace t = false) :
    checkType t (at_ buf p) = (.ok (), at_ buf (p + 2)) ∧
    readTypeFromSStream junk n (at_ buf (p + 2)) = (.ok (leBytes n v), at_ buf (p + 2 + n)) := by
  have h1 : buf.drop p = tag t ++ (leBytes n v ++ r) := by simpa using h
  have h2 : buf.drop (p + 2) = leBytes n v ++ r := drop_add_of_eq h1
  refine ⟨checkType_at h1 ht, ?_⟩
  have := readTypeFromSStream_at junk (leBytes n v) h2
  simpa [leBytes_length] using this

theorem readInt_at (junk : Nat → Nat) {buf r : List Nat} {p : Nat} (v : Int)
    (h1 : -2 ^ 31 ≤ v) (h2 : v < 2 ^ 31)
    (h : buf.drop p = Field.encode (.int v) ++ r) :
    readInt junk (at_ buf p) = (.ok v, at_ buf (p + (Field.encode (.int v)).length)) := by
  obtain ⟨hc, hr⟩ := readFixed_at junk 4 (ofInt32 v) (t := 105) h (by decide)
  simp [readInt, hc, hr, toInt32_leNat_leBytes v h1 h2, Field.encode, tag, leBytes_length,
    Nat.add_assoc]

theorem readDouble_at (junk : Nat → Nat) {buf r : List Nat} {p : Nat} (v : Nat)
    (hv : v < 2 ^ 64) (h : buf.drop p = Field.encode (.double v) ++ r) :
    readDouble junk (at_ buf p) = (.ok v, at_ buf (p + (Field.encode (.double v)).length)) := by
  obtain ⟨hc, hr⟩ := readFixed_at junk 8 v (t := 100) h (by decide)
  have hm : v % 18446744073709551616 = v := Nat.mod_eq_of_lt (by norm_num at hv ⊢; exact hv)
  simp [readDouble, hc, hr, leNat_leBytes, hm, Field.encode, tag, leBytes_length, Nat.add_assoc]

theorem readSizeT_at (junk : Nat → Nat) {buf r : List Nat} {p : Nat} (v : Nat)
    (hv : v < 2 ^ 64) (h : buf.drop p = Field.encode (.sizeT v) ++ r) :
    readSizeT junk (at_ buf p) = (.ok v, at_ buf (p + (Field.encode (.sizeT v)).length)) := by
  obtain ⟨hc, hr⟩ := readFixed_at junk 8 v (t := 108) h (by decide)
  have hm : v % 18446744073709551616 = v := Nat.mod_eq_of_lt (by norm_num at hv ⊢; exact hv)
  simp [readSizeT, hc, hr, leNat_leBytes, hm, Field.encode, tag, leBytes_length, Nat.add_assoc]

theorem readString_at (junk : Nat → Nat) {buf r : List Nat} {p : Nat} (s : List Nat)
    (hs : s.length < 2 ^ 31) (h : buf.drop p = encodeString s ++ r) :
    readString junk (at_ buf p) = (.ok s, at_ buf (p + (encodeString s).length)) := by
  have h0 : buf.drop p = tag 115 ++ leBytes 4 (ofInt32 s.length) ++ (s ++ r) := by
    simpa [encodeString] using h
  obtain ⟨hc, hr⟩ := readFixed_at junk 4 (ofInt32 s.length) (t := 115) h0 (by decide)
  have h3 : buf.drop (p + 2 + 4) = s ++ r := by
    have h1 : buf.drop p = (tag 115 ++ leBytes 4 (ofInt32 s.length)) ++ (s ++ r) := by
      simpa using h0
    have := drop_add_of_eq h1
    simpa [tag, leBytes_length, Nat.add_assoc] using this
  have hlen : intToSizeT (toInt32 (leNat (leBytes 4 (ofInt32 (s.length : Int))))) = s.length := by
    rw [toInt32_leNat_leBytes _ (by omega) (by omega)]
    exact intToSizeT_natCast _ (by omega)
  have hrd := read_prefix s h3
  have hbig : ¬ 9223372036854775808 ≤ s.length := by omega
  have hp : p + 2 + 4 + s.length = p + (4 + s.length + 1 + 1) := by omega
  simp only [readString, hc, hr, hlen]
  simp [at_, hrd, hbig, encodeString, tag, leBytes_length, hp]

theorem readData_at (junk : Nat → Nat) {buf r : List Nat} {p : Nat} (c w : Int) (bytes : List Nat)
    (hw : Field.WellFormed (.blob c w bytes))
    (h : buf.drop p = Field.encode (.blob c w bytes) ++ r) :
    readData junk (at_ buf p) =
      (.ok (if c = 0 then none else some bytes, c),
        at_ buf (p + (Field.encode (.blob c w bytes)).length)) := by
  obtain ⟨⟨hc1, hc2⟩, ⟨hw1, hw2⟩, hcw, hb⟩ := hw
  have h0 : buf.drop p = tag 98 ++ leBytes 4 (ofInt32 c) ++ (leBytes 4 (ofInt32 w) ++ bytes ++ r) := by
    simpa [Field.encode] using h
  obtain ⟨hc, hr⟩ := readFixed_at junk 4 (ofInt32 c) (t := 98) h0 (by decide)
  have h1 : buf.drop (p + 2 + 4) = leBytes 4 (ofInt32 w) ++ (bytes ++ r) := by
    have h1 : buf.drop p = (tag 98 ++ leBytes 4 (ofInt32 c)) ++ (leBytes 4 (ofInt32 w) ++ (bytes ++ r)) := by
      simpa using h0
    have := drop_add_of_eq h1
    simpa [tag, leBytes_length, Nat.add_assoc] using this
  have hr2 : readTypeFromSStream junk 4 (at_ buf (p + 2 + 4)) =
      (.ok (leBytes 4 (ofInt32 w)), at_ buf (p + 2 + 4 + 4)) := by
    have := readTypeFromSStream_at junk (leBytes 4 (ofInt32 w)) h1
    simpa [leBytes_length] using this
  have h2 : buf.drop (p + 2 + 4 + 4) = bytes ++ r := by
    have := drop_add_of_eq h1
    simpa [leBytes_length] using this
  have hl := length_of_drop h2
  have hl1 := length_of_drop h1
  simp only [leBytes_length] at hl1
  have hmul : intToSizeT (mulInt32 c w) = bytes.length := by
    unfold mulInt32
    rw [hcw, toInt32_ofInt32 _ (by omega) (by omega)]
    exact intToSizeT_natCast _ (by omega)
  have hlen8 : ¬ buf.length < 2 * 4 := by omega
  have hlenb : ¬ buf.length < bytes.length := by omega
  have hrd := read_prefix bytes h2
  simp only [readData, hc, hr, hr2, toInt32_leNat_leBytes c hc1 hc2,
    toInt32_leNat_leBytes w hw1 hw2, hmul]
  by_cases hz : c = 0
  · have hb0 : bytes = [] := by
      apply List.eq_nil_of_length_eq_zero
      have : (bytes.length : Int) = 0 := by rw [← hcw, hz]; simp
      exact_mod_cast this
    simp [at_, hlen8, hz, hb0, Field.encode, tag, leBytes_length, Nat.add_assoc]
  · simp [at_, hlen8, hlenb, hz, hrd, fillFrom, Field.encode, tag, leBytes_length, Nat.add_assoc]
    omega

theorem readField_at (junk : Nat → Nat) {buf r : List Nat} {p : Nat} (f : Field)
    (hw : f.WellFormed) (h : buf.drop p = f.encode ++ r) :
    readField junk f.kind (at_ buf p) = (.ok f.value, at_ buf (p + f.encode.length)) := by
  cases f with
  | int v => simp [readField, Field.kind, Field.value, readInt_at junk v hw.1 hw.2 h]
  | double v => simp [readField, Field.kind, Field.value, readDouble_at junk v hw h]
  | sizeT v => simp [readField, Field.kind, Field.value, readSizeT_at junk v hw h]
  | string s =>
    have := readString_at junk s hw h
    simp [readField, Field.kind, Field.value, this, Field.encode]
  | blob c w bytes => simp [readField, Field.kind, Field.value, readData_at junk c w bytes hw h]

theorem readFields_at (junk : Nat → Nat) (fields : List Field) :
    ∀ {buf r : List Nat} {p : Nat}, (∀ f ∈ fields, f.WellFormed) →
      buf.drop p = encodeFields fields ++ r →
      readFields junk (fields.map Field.kind) (at_ buf p) =
        (.ok (fields.map Field.value), at_ buf (p + (encodeFields fields).length)) := by
  induction fields with
  | nil => intro buf r p _ _; simp [readFields, encodeFields]
  | cons f fs ih =>
    intro buf r p hw h
    have h1 : buf.drop p = f.encode ++ (encodeFields fs ++ r) := by
      simpa [encodeFields] using h
    have h2 : buf.drop (p + f.encode.length) = encodeFields fs ++ r := drop_add_of_eq h1
    have hf := readField_at junk f (hw f (List.mem_cons_self _ _)) h1
    have hfs := ih (fun g hg => hw g (List.mem_cons_of_mem _ hg)) h2
    simp [readFields, hf, hfs, encodeFields, Nat.add_assoc]

theorem readWholeObject_at (junk : Nat → Nat) (name : List Nat) (fields : List Field)
    {buf r : List Nat} {p : Nat} (hn : name.length < 2 ^ 31) (hw : ∀ f ∈ fields, f.WellFormed)
    (h : buf.drop p = encodeObject name fields ++ r) :
    readWholeObject junk (fields.map Field.kind) (at_ buf p) =
      (.ok (name, fields.map Field.value), at_ buf (p + (encodeObject name fields).length)) := by
  have h0 : buf.drop p = tag 123 ++ (encodeString name ++ (encodeFields fields ++ (tag 125 ++ r))) := by
    simpa [encodeObject] using h
  have hc := checkType_at h0 (by decide)
  have h1 := drop_add_of_eq h0
  have hs := readString_at junk name hn h1
  have h2 := drop_add_of_eq h1
  have hfs := readFields_at junk fields hw h2
  have h3 := drop_add_of_eq h2
  have he := checkType_at h3 (by decide)
  have htl : ∀ c, (tag c).length = 2 := fun _ => rfl
  simp only [htl, Nat.add_assoc] at hc hs hfs he
  simp [readWholeObject, readObject, endObject, hc, hs, hfs, he, encodeObject, htl, Nat.add_assoc]

/-- C1. Round trip over the documented layout: for every object name and every
sequence of well-formed fields, laid out as the format documents and placed
anywhere in a buffer, `readObject`, then the typed reads matching the fields
in order, then `endObject` raise nothing, return exactly the name and the
values written, leave the stream good, and move the cursor by exactly the
length of the encoding. -/
theorem roundTrip_readWholeObject (junk : Nat → Nat) (name : List Nat) (fields : List Field)
    (before after : List Nat) (hn : name.length < 2 ^ 31) (hw : ∀ f ∈ fields, f.WellFormed) :
    readWholeObject junk (fields.map Field.kind)
        (at_ (before ++ encodeObject name fields ++ after) before.length) =
      (.ok (name, fields.map Field.value),
        at_ (before ++ encodeObject name fields ++ after)
          (before.length + (encodeObject name fields).length)) := by
  apply readWholeObject_at junk name fields hn hw (r := after)
  simp

/-- Witness for C1: an object named `A` holding an `int`, a string and a blob
of two elements of width one, behind one foreign byte. -/
theorem roundTrip_readWholeObject_witness :
    readWholeObject (fun _ => 0)
        ([Field.int (-3), Field.string [66, 67], Field.blob 2 1 [8, 9]].map Field.kind)
        (at_ ([1] ++ encodeObject [65] [Field.int (-3), Field.string [66, 67], Field.blob 2 1 [8, 9]]
          ++ [2]) [1].length) =
      (.ok ([65], [Field.int (-3), Field.string [66, 67], Field.blob 2 1 [8, 9]].map Field.value),
        at_ ([1] ++ encodeObject [65] [Field.int (-3), Field.string [66, 67], Field.blob 2 1 [8, 9]]
          ++ [2])
          ([1].length +
            (encodeObject [65] [Field.int (-3), Field.string [66, 67], Field.blob 2 1 [8, 9]]).length)) :=
  roundTrip_readWholeObject (fun _ => 0) [65]
    [Field.int (-3), Field.string [66, 67], Field.blob 2 1 [8, 9]] [1] [2] (by decide)
    (by
      intro f hf
      simp only [List.mem_cons, List.mem_singleton, List.not_mem_nil, or_false] at hf
      rcases hf with rfl | rfl | rfl <;> simp [Field.WellFormed])

/-! ## Truncated and malformed input -/

theorem read_of_lengthError (junk : Nat → Nat) (version data : List Nat) (o1 : ObjectInputStream)
    (h : readString junk (at_ data 0) = (.error .lengthError, o1)) :
    ObjectInputStream.read junk version data = (.error .lengthError, o1) := by
  simp only [ObjectInputStream.read, h]

theorem readString_negative_length (junk : Nat → Nat) :
    readString junk (at_ [95, 115, 255, 255, 255, 255] 0) =
      (.error .lengthError, at_ [95, 115, 255, 255, 255, 255] 6) := by
  have hc : checkType 115 (at_ [95, 115, 255, 255, 255, 255] 0) =
      (.ok (), at_ [95, 115, 255, 255, 255, 255] 2) := by decide
  have hr : readTypeFromSStream junk 4 (at_ [95, 115, 255, 255, 255, 255] 2) =
      (.ok [255, 255, 255, 255], at_ [95, 115, 255, 255, 255, 255] 6) := rfl
  have hv : intToSizeT (toInt32 (leNat [255, 255, 255, 255])) = 2 ^ 64 - 1 := by decide
  simp only [readString, hc, hr, hv]
  decide

theorem read_version_ok (junk : Nat → Nat) (version rest : List Nat)
    (hv : version.length < 2 ^ 31) :
    ObjectInputStream.read junk version (encodeString version ++ rest) =
      (.ok true, at_ (encodeString version ++ rest) (encodeString version).length) := by
  have hs := @readString_at junk (encodeString version ++ rest) rest 0 version hv (by simp)
  simp only [ObjectInputStream.read, hs]
  simp

theorem readInt_cut_payload (junk : Nat → Nat) :
    readInt junk (at_ [95, 115, 1, 0, 0, 0, 86, 95, 105, 7, 0] 7) =
      (.ok (toInt32 (leNat [7, 0, junk 2, junk 3])),
        { istream := { str := [95, 115, 1, 0, 0, 0, 86, 95, 105, 7, 0], gpos := 11, failed := true },
          len := 11 }) := by
  have hc : checkType 105 (at_ [95, 115, 1, 0, 0, 0, 86, 95, 105, 7, 0] 7) =
      (.ok (), at_ [95, 115, 1, 0, 0, 0, 86, 95, 105, 7, 0] 9) := by decide
  have hr : readTypeFromSStream junk 4 (at_ [95, 115, 1, 0, 0, 0, 86, 95, 105, 7, 0] 9) =
      (.ok [7, 0, junk 2, junk 3],
        { istream := { str := [95, 115, 1, 0, 0, 0, 86, 95, 105, 7, 0], gpos := 11, failed := true },
          len := 11 }) := rfl
  simp only [readInt, hc, hr]

theorem readString_cut_payload (junk : Nat → Nat) :
    readString junk (at_ [95, 115, 1, 0, 0, 0, 86, 95, 115, 3, 0, 0, 0, 65, 66] 7) =
      (.ok [65, 66, 0],
        { istream := { str := [95, 115, 1, 0, 0, 0, 86, 95, 115, 3, 0, 0, 0, 65, 66], gpos := 15,
                       failed := true },
          len := 15 }) := by
  have hc : checkType 115 (at_ [95, 115, 1, 0, 0, 0, 86, 95, 115, 3, 0, 0, 0, 65, 66] 7) =
      (.ok (), at_ [95, 115, 1, 0, 0, 0, 86, 95, 115, 3, 0, 0, 0, 65, 66] 9) := by decide
  have hr : readTypeFromSStream junk 4 (at_ [95, 115, 1, 0, 0, 0, 86, 95, 115, 3, 0, 0, 0, 65, 66] 9) =
      (.ok [3, 0, 0, 0], at_ [95, 115, 1, 0, 0, 0, 86, 95, 115, 3, 0, 0, 0, 65, 66] 13) := rfl
  have hv : intToSizeT (toInt32 (leNat [3, 0, 0, 0])) = 3 := by decide
  simp only [readString, hc, hr, hv]
  decide

/-- C2 (evaluation at the failing inputs). After the version string, a valid
`int` field cut two bytes into its payload, and a valid string field cut one
byte before its end: `read` accepts the buffer, the buffer as a whole is at
least as long as the object asked for, so the size checks pass, the short
`istream.read` only raises the state bits, and `readInt` and `readString`
return a value instead of throwing. -/
theorem truncated_reads_return :
    ((encodeString [86] ++ Field.encode (.int 7)).take 11 =
        [95, 115, 1, 0, 0, 0, 86, 95, 105, 7, 0] ∧
      ∀ junk : Nat → Nat,
        ObjectInputStream.read junk [86] [95, 115, 1, 0, 0, 0, 86, 95, 105, 7, 0] =
          (.ok true, at_ [95, 115, 1, 0, 0, 0, 86, 95, 105, 7, 0] 7) ∧
        readInt junk (at_ [95, 115, 1, 0, 0, 0, 86, 95, 105, 7, 0] 7) =
          (.ok (toInt32 (leNat [7, 0, junk 2, junk 3])),
            { istream := { str := [95, 115, 1, 0, 0, 0, 86, 95, 105, 7, 0], gpos := 11,
                           failed := true },
              len := 11 })) ∧
    ((encodeString [86] ++ Field.encode (.string [65, 66, 67])).take 15 =
        [95, 115, 1, 0, 0, 0, 86, 95, 115, 3, 0, 0, 0, 65, 66] ∧
      ∀ junk : Nat → Nat,
        ObjectInputStream.read junk [86] [95, 115, 1, 0, 0, 0, 86, 95, 115, 3, 0, 0, 0, 65, 66] =
          (.ok true, at_ [95, 115, 1, 0, 0, 0, 86, 95, 115, 3, 0, 0, 0, 65, 66] 7) ∧
        readString junk (at_ [95, 115, 1, 0, 0, 0, 86, 95, 115, 3, 0, 0, 0, 65, 66] 7) =
          (.ok [65, 66, 0],
            { istream := { str := [95, 115, 1, 0, 0, 0, 86, 95, 115, 3, 0, 0, 0, 65, 66],
                           gpos := 15, failed := true },
              len := 15 })) :=
  ⟨⟨by decide, fun junk =>
      ⟨read_version_ok junk [86] [95, 105, 7, 0] (by decide), readInt_cut_payload junk⟩⟩,
    ⟨by decide, fun junk =>
      ⟨read_version_ok junk [86] [95, 115, 3, 0, 0, 0, 65, 66] (by decide),
        readString_cut_payload junk⟩⟩⟩

theorem read_leading_space (junk : Nat → Nat) :
    ObjectInputStream.read junk [86] [32, 95, 115, 1, 0, 0, 0, 86] =
      (.ok true, at_ [32, 95, 115, 1, 0, 0, 0, 86] 8) := by
  have hc : checkType 115 (at_ [32, 95, 115, 1, 0, 0, 0, 86] 0) =
      (.ok (), at_ [32, 95, 115, 1, 0, 0, 0, 86] 3) := by decide
  have hr : readTypeFromSStream junk 4 (at_ [32, 95, 115, 1, 0, 0, 0, 86] 3) =
      (.ok [1, 0, 0, 0], at_ [32, 95, 115, 1, 0, 0, 0, 86] 7) := rfl
  have hv : intToSizeT (toInt32 (leNat [1, 0, 0, 0])) = 1 := by decide
  have hs : readString junk (at_ [32, 95, 115, 1, 0, 0, 0, 86] 0) =
      (.ok [86], at_ [32, 95, 115, 1, 0, 0, 0, 86] 8) := by
    simp only [readString, hc, hr, hv]
    decide
  simp only [ObjectInputStream.read, hs]
  decide

/-- C3 (evaluation at the failing inputs). A buffer whose first field is a
string field with length prefix `-1`: the guard of `readString` compares the
buffer size with `len` and passes, `resize` throws `std::length_error`, and
`read` lets it escape instead of returning `false`.  And a buffer that does
not begin with the tag of a string field but with a blank: the blank is
skipped and `read` returns `true`. -/
theorem read_negative_length_escapes :
    (∀ (junk : Nat → Nat) (version : List Nat),
      ObjectInputStream.read junk version [95, 115, 255, 255, 255, 255] =
        (.error .lengthError, at_ [95, 115, 255, 255, 255, 255] 6)) ∧
    (∀ junk : Nat → Nat,
      ObjectInputStream.read junk [86] [32, 95, 115, 1, 0, 0, 0, 86] =
        (.ok true, at_ [32, 95, 115, 1, 0, 0, 0, 86] 8)) :=
  ⟨fun junk version => read_of_lengthError junk version _ _ (readString_negative_length junk),
    read_leading_space⟩

theorem readInt_leading_space (junk : Nat → Nat) :
    readInt junk (at_ [32, 95, 105, 7, 0, 0, 0] 0) = (.ok 7, at_ [32, 95, 105, 7, 0, 0, 0] 7) := by
  have hc : checkType 105 (at_ [32, 95, 105, 7, 0, 0, 0] 0) =
      (.ok (), at_ [32, 95, 105, 7, 0, 0, 0] 3) := by decide
  have hr : readTypeFromSStream junk 4 (at_ [32, 95, 105, 7, 0, 0, 0] 3) =
      (.ok [7, 0, 0, 0], at_ [32, 95, 105, 7, 0, 0, 0] 7) := rfl
  simp only [readInt, hc, hr]
  decide

/-- C4 (evaluation at the failing inputs). With a blank before the tag the
two bytes at the cursor are not the tag, yet `checkType` accepts for each of
the eight type codes, and `readInt` returns the value behind the tag. -/
theorem checkType_skips_white_space :
    (∀ t ∈ [105, 100, 108, 115, 98, 109, 123, 125],
      ([32, 95, t].take 2 ≠ tag t ∧ (checkType t (at_ [32, 95, t] 0)).1 = .ok ())) ∧
    ∀ junk : Nat → Nat,
      readInt junk (at_ [32, 95, 105, 7, 0, 0, 0] 0) = (.ok 7, at_ [32, 95, 105, 7, 0, 0, 0] 7) :=
  ⟨by decide, readInt_leading_space⟩
/-! ## Reader states and the name peek -/

theorem Evolves.evolves_refl (s : IStringStream) : Evolves s s := Or.inl rfl

theorem Evolves.evolves_trans {a b c : IStringStream} (h1 : Evolves a b) (h2 : Evolves b c) :
    Evolves a c := by
  rcases h1 with rfl | ⟨hs, hf, hg, hb⟩
  · exact h2
  · rcases h2 with rfl | ⟨hs2, hf2, hg2, hb2⟩
    · exact Or.inr ⟨hs, hf, hg, hb⟩
    · refine Or.inr ⟨hs2.trans hs, hf, ?_, ?_⟩
      · intro h; rw [hs] at hg2; exact hg2 (hg h)
      · intro h; rw [hs] at hb2; exact hb2 h

theorem extractChar_evolves (s : IStringStream) : Evolves s s.extractChar.2 := by
  unfold IStringStream.extractChar
  by_cases hf : s.failed = true
  · simp [hf, Evolves]
  · have hf' : s.failed = false := by simpa using hf
    have hk : (s.avail.takeWhile isSpace).length ≤ s.str.length - s.gpos := by
      have := (List.takeWhile_sublist (l := s.avail) isSpace).length_le
      simpa [IStringStream.avail] using this
    rcases hp : s.str[s.gpos + (s.avail.takeWhile isSpace).length]? with _ | c
    · have hge : s.str.length ≤ s.gpos + (s.avail.takeWhile isSpace).length := by simpa using hp
      right
      simp only [hf', hp, Bool.false_eq_true, if_false]
      exact ⟨trivial, trivial, fun h => by omega, fun _ => hge⟩
    · have hlt := (List.getElem?_eq_some_iff.mp hp).1
      right
      simp only [hf', hp, Bool.false_eq_true, if_false]
      exact ⟨trivial, trivial, fun _ => by omega, fun h => by simp at h⟩

theorem read_evolves (s : IStringStream) (n : Nat) : Evolves s (s.read n).2 := by
  unfold IStringStream.read
  by_cases hf : s.failed = true
  · simp [hf, Evolves]
  · have hf' : s.failed = false := by simpa using hf
    right
    simp only [hf', Bool.false_eq_true, if_false, IStringStream.avail, List.length_take,
      List.length_drop, ne_eq, decide_eq_true_eq]
    exact ⟨trivial, trivial, fun h => by omega, fun h => by omega⟩

theorem Keeps.keeps_refl (o : ObjectInputStream) : Keeps o o := ⟨rfl, Evolves.evolves_refl _⟩

theorem Keeps.keeps_trans {a b c : ObjectInputStream} (h1 : Keeps a b) (h2 : Keeps b c) : Keeps a c :=
  ⟨h2.1.trans h1.1, h1.2.evolves_trans h2.2⟩

theorem checkType_keeps (t : Nat) (o : ObjectInputStream) : Keeps o (checkType t o).2 := by
  have h : Evolves o.istream (o.istream.extractChar.2.extractChar.2) :=
    (extractChar_evolves _).evolves_trans (extractChar_evolves _)
  unfold checkType
  dsimp only
  split_ifs <;> first | exact Keeps.keeps_refl o | exact ⟨rfl, h⟩

theorem readTypeFromSStream_keeps (junk : Nat → Nat) (n : Nat) (o : ObjectInputStream) :
    Keeps o (readTypeFromSStream junk n o).2 := by
  unfold readTypeFromSStream
  split_ifs
  · exact Keeps.keeps_refl o
  · exact ⟨rfl, read_evolves _ _⟩

theorem readFixed_keeps (junk : Nat → Nat) (t n : Nat) (o : ObjectInputStream) {α : Type}
    (f : List Nat → α) :
    Keeps o (match checkType t o with
      | (.error e, o1) => ((.error e : Except Raised α), o1)
      | (.ok _, o1) =>
        match readTypeFromSStream junk n o1 with
        | (.error e, o2) => (.error e, o2)
        | (.ok bs, o2) => (.ok (f bs), o2)).2 := by
  have h1 := checkType_keeps t o
  rcases hc : checkType t o with ⟨e | u, o1⟩
  · rw [hc] at h1; exact h1
  · rw [hc] at h1
    have h2 := readTypeFromSStream_keeps junk n o1
    dsimp only
    rcases hr : readTypeFromSStream junk n o1 with ⟨e | bs, o2⟩ <;> rw [hr] at h2 <;>
      exact h1.keeps_trans h2

theorem readInt_keeps (junk : Nat → Nat) (o : ObjectInputStream) : Keeps o (readInt junk o).2 :=
  readFixed_keeps junk 105 4 o _

theorem readDouble_keeps (junk : Nat → Nat) (o : ObjectInputStream) :
    Keeps o (readDouble junk o).2 :=
  readFixed_keeps junk 100 8 o _

theorem readSizeT_keeps (junk : Nat → Nat) (o : ObjectInputStream) :
    Keeps o (readSizeT junk o).2 :=
  readFixed_keeps junk 108 8 o _

theorem readString_keeps (junk : Nat → Nat) (o : ObjectInputStream) :
    Keeps o (readString junk o).2 := by
  unfold readString
  have h1 := checkType_keeps 115 o
  rcases hc : checkType 115 o with ⟨e | u, o1⟩
  · rw [hc] at h1; exact h1
  · rw [hc] at h1
    have h2 := readTypeFromSStream_keeps junk 4 o1
    dsimp only
    rcases hr : readTypeFromSStream junk 4 o1 with ⟨e | bs, o2⟩
    · rw [hr] at h2; exact h1.keeps_trans h2
    · rw [hr] at h2
      have h12 := h1.keeps_trans h2
      dsimp only
      split_ifs
      · exact h12
      · exact h12
      · exact h12.keeps_trans ⟨rfl, read_evolves _ _⟩

theorem readObject_keeps (junk : Nat → Nat) (o : ObjectInputStream) :
    Keeps o (readObject junk o).2 := by
  unfold readObject
  have h1 := checkType_keeps 123 o
  rcases hc : checkType 123 o with ⟨e | u, o1⟩
  · rw [hc] at h1; exact h1
  · rw [hc] at h1; exact h1.keeps_trans (readString_keeps junk o1)

theorem readObjectNamed_keeps (junk : Nat → Nat) (name : List Nat) (o : ObjectInputStream) :
    Keeps o (readObjectNamed junk name o).2 := by
  unfold readObjectNamed
  have h1 := readObject_keeps junk o
  rcases hc : readObject junk o with ⟨e | u, o1⟩
  · rw [hc] at h1; exact h1
  · rw [hc] at h1
    dsimp only
    split_ifs <;> exact h1

theorem readData_keeps (junk : Nat → Nat) (o : ObjectInputStream) :
    Keeps o (readData junk o).2 := by
  unfold readData
  have h1 := checkType_keeps 98 o
  rcases hc : checkType 98 o with ⟨e | u, o1⟩
  · rw [hc] at h1; exact h1
  · rw [hc] at h1
    dsimp only
    split_ifs
    · exact h1
    · have h2 := readTypeFromSStream_keeps junk 4 o1
      rcases hr : readTypeFromSStream junk 4 o1 with ⟨e | bl, o2⟩
      · rw [hr] at h2; exact h1.keeps_trans h2
      · rw [hr] at h2
        have h3 := readTypeFromSStream_keeps junk 4 o2
        dsimp only
        rcases hr2 : readTypeFromSStream junk 4 o2 with ⟨e | bw, o3⟩
        · rw [hr2] at h3; exact (h1.keeps_trans h2).keeps_trans h3
        · rw [hr2] at h3
          have h123 := (h1.keeps_trans h2).keeps_trans h3
          dsimp only
          split_ifs
          · exact h123
          · exact h123
          · exact h123.keeps_trans ⟨rfl, read_evolves _ _⟩

theorem pngReads_evolves (requests : List Nat) :
    ∀ iss : IStringStream, Evolves iss (pngReads requests iss) := by
  induction requests with
  | nil => intro iss; exact Evolves.evolves_refl iss
  | cons n ns ih =>
    intro iss
    unfold pngReads cairoReadFunction
    split_ifs
    · exact Evolves.evolves_refl iss
    · exact (read_evolves iss n).evolves_trans (ih _)

theorem readImage_keeps (junk : Nat → Nat) (requests : List Nat) (o : ObjectInputStream) :
    Keeps o (readImage junk requests o).2 := by
  unfold readImage
  have h1 := checkType_keeps 109 o
  rcases hc : checkType 109 o with ⟨e | u, o1⟩
  · rw [hc] at h1; exact h1
  · rw [hc] at h1
    dsimp only
    split_ifs
    · exact h1
    · have h2 := readTypeFromSStream_keeps junk 8 o1
      rcases hr : readTypeFromSStream junk 8 o1 with ⟨e | bs, o2⟩
      · rw [hr] at h2; exact h1.keeps_trans h2
      · rw [hr] at h2
        dsimp only
        split_ifs
        · exact h1.keeps_trans h2
        · exact (h1.keeps_trans h2).keeps_trans ⟨rfl, pngReads_evolves _ _⟩

theorem Inv.of_keeps {data : List Nat} {o o' : ObjectInputStream} (hi : Inv data o)
    (hk : Keeps o o') : Inv data o' := by
  obtain ⟨hs, hl, hg, hf⟩ := hi
  obtain ⟨hl', he⟩ := hk
  rcases he with heq | ⟨hs', _, hg', hf'⟩
  · exact ⟨heq ▸ hs, hl'.trans hl, heq ▸ hg, heq ▸ hf⟩
  · refine ⟨hs'.trans hs, hl'.trans hl, ?_, ?_⟩
    · rw [hs] at hg'; exact hg' hg
    · intro hb n r _ hav
      have hge := hf' hb
      have : o'.istream.avail = [] := by
        unfold IStringStream.avail
        rw [hs']
        exact List.drop_eq_nil_of_le hge
      rw [this] at hav
      simp [tag] at hav

theorem Inv.eq_at {data : List Nat} {o : ObjectInputStream} (hi : Inv data o)
    (hf : o.istream.failed = false) : o = at_ data o.istream.gpos := by
  obtain ⟨hs, hl, _, _⟩ := hi
  rcases o with ⟨⟨str, gpos, failed⟩, len⟩
  simp only at hs hl hf
  subst hs hl hf
  rfl

theorem getNextObjectName_at (junk : Nat → Nat) {buf r : List Nat} {p : Nat} (n : List Nat)
    (hb : buf.length < 2 ^ 63) (hn : n.length < 2 ^ 31)
    (h : buf.drop p = tag 123 ++ encodeString n ++ r) :
    getNextObjectName junk (at_ buf p) = (.ok n, at_ buf p) := by
  have h0 : buf.drop p = tag 123 ++ (encodeString n ++ r) := by simpa using h
  have hc := checkType_at h0 (by decide)
  have hs := readString_at junk n hn (drop_add_of_eq h0)
  have hl := length_of_drop h0
  have hp : p ≤ buf.length := by
    simp only [tag, List.length_cons, List.length_nil, List.length_append] at hl
    omega
  have hpos : (buf.length + 2 ^ 64 - (buf.length - p) % 2 ^ 64) % 2 ^ 64 = p := by omega
  have htl : (tag 123).length = 2 := rfl
  rw [htl] at hs
  have hp63 : p < 2 ^ 63 := by omega
  simp only [getNextObjectName, hc, hs]
  simp only [at_, IStringStream.avail, List.length_drop, hpos, IStringStream.pubseekpos, hp63,
    hp, if_true]

theorem getNextObjectName_inv (junk : Nat → Nat) {data : List Nat} {o : ObjectInputStream}
    (hb : data.length < 2 ^ 63) (hi : Inv data o) : Inv data (getNextObjectName junk o).2 := by
  by_cases hhead : NoHead o.istream
  · -- no object head at the cursor: whatever is left, a restored cursor is the old one
    unfold getNextObjectName
    dsimp only
    have h1 := checkType_keeps 123 o
    rcases hc : checkType 123 o with ⟨e | u, o1⟩
    · rw [hc] at h1; exact hi.of_keeps h1
    · rw [hc] at h1
      dsimp only
      have h2 := readString_keeps junk o1
      rcases hr : readString junk o1 with ⟨e | name, o2⟩
      · rw [hr] at h2; exact hi.of_keeps (h1.keeps_trans h2)
      · rw [hr] at h2
        dsimp only
        have hi2 := hi.of_keeps (h1.keeps_trans h2)
        obtain ⟨hs, hl, hg, hf⟩ := hi
        obtain ⟨hs2, hl2, hg2, hf2⟩ := hi2
        have hpos : (o.len + 2 ^ 64 - o.istream.avail.length % 2 ^ 64) % 2 ^ 64 = o.istream.gpos := by
          simp only [IStringStream.avail, List.length_drop, hs, hl]
          omega
        rw [hpos]
        unfold IStringStream.pubseekpos
        rw [hs2]
        have hp63 : o.istream.gpos < 2 ^ 63 := by omega
        simp only [hp63, hg, if_true]
        refine ⟨rfl, hl2, hg, ?_⟩
        intro _ n r hn hav
        apply hhead n r hn
        simpa [IStringStream.avail, hs, hs2] using hav
  · -- an object head at the cursor: the stream is good and the call restores the state
    unfold NoHead at hhead
    push_neg at hhead
    obtain ⟨n, r, hn, hav⟩ := hhead
    have hgood : o.istream.failed = false := by
      by_contra hbad
      exact hi.2.2.2 (by simpa using hbad) n r hn hav
    have heq := hi.eq_at hgood
    have hav' : data.drop o.istream.gpos = tag 123 ++ encodeString n ++ r := by
      simpa [IStringStream.avail, hi.1] using hav
    rw [heq, getNextObjectName_at junk n hb hn hav', ← heq]
    exact hi

theorem read_state (junk : Nat → Nat) (version data : List Nat) :
    (ObjectInputStream.read junk version data).2 = (readString junk (at_ data 0)).2 := by
  unfold ObjectInputStream.read
  rcases readString junk (at_ data 0) with ⟨(_ | _) | v, o1⟩
  · rfl
  · rfl
  · dsimp only
    split_ifs <;> rfl

theorem runCall_inv (junk : Nat → Nat) (c : Call) {data : List Nat} {o : ObjectInputStream}
    (hb : data.length < 2 ^ 63) (hi : Inv data o) : Inv data (runCall junk c o) := by
  cases c with
  | readObject => exact hi.of_keeps (readObject_keeps junk o)
  | readObjectNamed name => exact hi.of_keeps (readObjectNamed_keeps junk name o)
  | getNextObjectName => exact getNextObjectName_inv junk hb hi
  | endObject => exact hi.of_keeps (checkType_keeps 125 o)
  | readInt => exact hi.of_keeps (readInt_keeps junk o)
  | readDouble => exact hi.of_keeps (readDouble_keeps junk o)
  | readSizeT => exact hi.of_keeps (readSizeT_keeps junk o)
  | readString => exact hi.of_keeps (readString_keeps junk o)
  | readData => exact hi.of_keeps (readData_keeps junk o)
  | readImage requests => exact hi.of_keeps (readImage_keeps junk requests o)

theorem reachable_inv {data : List Nat} {o : ObjectInputStream} (hb : data.length < 2 ^ 63)
    (h : Reachable data o) : Inv data o := by
  induction h with
  | start junk version =>
    rw [read_state]
    have h0 : Inv data (at_ data 0) := ⟨rfl, rfl, Nat.zero_le _, fun h => by simp [at_] at h⟩
    exact h0.of_keeps (readString_keeps junk _)
  | call junk c o _ ih => exact runCall_inv junk c hb ih

/-- C5. Name peek is non-consuming: in every state a reader can be in after
`read` was given `data`, if the characters at the cursor are an opening tag
followed by the string field of a name `n`, then `getNextObjectName` returns `n`
and leaves the reader in exactly the state it was in (cursor and state bits),
so every later sequence of calls behaves as if it had not been called; in
particular an immediately following `readObject()` returns `n`. -/
theorem getNextObjectName_restores (data : List Nat) (o : ObjectInputStream)
    (junk junk' : Nat → Nat) (n rest : List Nat) (hlen : data.length < 2 ^ 31)
    (hreach : Reachable data o) (hn : n.length < 2 ^ 31)
    (hcur : o.istream.avail = tag 123 ++ encodeString n ++ rest) :
    getNextObjectName junk o = (.ok n, o) ∧ (readObject junk' o).1 = .ok n := by
  have hi := reachable_inv (show data.length < 2 ^ 63 by omega) hreach
  have hgood : o.istream.failed = false := by
    by_contra hbad
    exact hi.2.2.2 (by simpa using hbad) n rest hn hcur
  have heq := hi.eq_at hgood
  have hav : data.drop o.istream.gpos = tag 123 ++ encodeString n ++ rest := by
    simpa [IStringStream.avail, hi.1] using hcur
  constructor
  · rw [heq, getNextObjectName_at junk n (by omega) hn hav]
  · have h0 : data.drop o.istream.gpos = tag 123 ++ (encodeString n ++ rest) := by simpa using hav
    have hc := checkType_at h0 (by decide)
    have hs := readString_at junk' n hn (drop_add_of_eq h0)
    have htl : (tag 123).length = 2 := rfl
    rw [htl] at hs
    rw [heq]
    simp only [readObject, hc, hs]

/-- Witness for C5: after the version string `V`, before an object named `A`. -/
theorem getNextObjectName_restores_witness :
    getNextObjectName (fun _ => 0)
        (ObjectInputStream.read (fun _ => 0) [86]
          [95, 115, 1, 0, 0, 0, 86, 95, 123, 95, 115, 1, 0, 0, 0, 65, 95, 125]).2 =
      (.ok [65],
        (ObjectInputStream.read (fun _ => 0) [86]
          [95, 115, 1, 0, 0, 0, 86, 95, 123, 95, 115, 1, 0, 0, 0, 65, 95, 125]).2) ∧
    (readObject (fun _ => 0)
        (ObjectInputStream.read (fun _ => 0) [86]
          [95, 115, 1, 0, 0, 0, 86, 95, 123, 95, 115, 1, 0, 0, 0, 65, 95, 125]).2).1 = .ok [65] :=
  getNextObjectName_restores [95, 115, 1, 0, 0, 0, 86, 95, 123, 95, 115, 1, 0, 0, 0, 65, 95, 125] _
    (fun _ => 0) (fun _ => 0) [65] [95, 125] (by decide) (Reachable.start _ _) (by decide)
    (by decide)

/-! ## The stroke handler -/

theorem frame_refl (h : StrokeHandler) : Frame h h := ⟨rfl, rfl⟩

theorem frame_trans {a b c : StrokeHandler} (h1 : Frame a b) (h2 : Frame b c) : Frame a c := by
  obtain ⟨e1, s1⟩ := h1
  obtain ⟨e2, s2⟩ := h2
  refine ⟨?_, s2.trans s1⟩
  rw [e2, e1]

theorem drawSegmentTo_frame (env : Env) (p : Point) (h : StrokeHandler) :
    Frame h (drawSegmentTo env p h) := by
  unfold drawSegmentTo
  cases hs : h.stroke with
  | none => exact frame_refl h
  | some s => exact ⟨rfl, by simp [hs]⟩

theorem setLastPressure_frame (z : ℚ) (h : StrokeHandler) :
    Frame h (StrokeHandler.setLastPressure z h) := by
  unfold StrokeHandler.setLastPressure
  cases hs : h.stroke with
  | none => exact frame_refl h
  | some s => exact ⟨rfl, by simp [hs]⟩

theorem subdivide_frame (env : Env) (inc : Point) (n : Nat) :
    ∀ (e : Point) (h : StrokeHandler), Frame h (subdivide env inc n e h) := by
  induction n with
  | zero => intro e h; exact frame_refl h
  | succ n ih =>
    intro e h
    exact frame_trans (drawSegmentTo_frame env _ h) (ih _ _)

theorem paintTo_frame (env : Env) (p : Point) (h : StrokeHandler) :
    Frame h (paintTo env p h) := by
  unfold paintTo
  cases hs : h.stroke with
  | none => exact frame_refl h
  | some s =>
    dsimp only
    cases hl : s.points.getLast? with
    | none => exact drawSegmentTo_frame env p h
    | some e =>
      dsimp only
      split_ifs
      · exact frame_refl h
      · exact frame_trans (frame_trans (frame_trans (setLastPressure_frame _ h)
          (subdivide_frame env _ _ _ _)) (setLastPressure_frame _ _)) (drawSegmentTo_frame env p _)
      · exact frame_trans (setLastPressure_frame _ h) (drawSegmentTo_frame env p _)
      · exact frame_trans (setLastPressure_frame _ h) (drawSegmentTo_frame env p _)
      · exact drawSegmentTo_frame env p h

theorem paintAll_frame (env : Env) (ps : List Point) :
    ∀ h : StrokeHandler, Frame h (paintAll env ps h) := by
  induction ps with
  | nil => intro h; exact frame_refl h
  | cons p ps ih =>
    intro h
    exact frame_trans (paintTo_frame env p h) (ih _)

theorem finalizeStroke_frame (env : Env) (flush : List Point) (h : StrokeHandler) :
    Frame h (finalizeStroke env flush h) := by
  unfold finalizeStroke
  exact frame_trans (b := { h with stabilizerCalls := h.stabilizerCalls ++ [StabilizerCall.finalizeStroke] })
    ⟨rfl, rfl⟩ (paintAll_frame env flush _)

theorem frame_fields {h h' : StrokeHandler} (f : Frame h h') :
    h'.layer = h.layer ∧ h'.undo = h.undo ∧ h'.buttonDownPoint = h.buttonDownPoint ∧
      h'.startStrokeTime = h.startStrokeTime ∧ h'.lastStrokeTime = h.lastStrokeTime ∧
      h'.surfMask = h.surfMask ∧ h'.crMask = h.crMask := by
  obtain ⟨e, _⟩ := f
  rw [e]
  exact ⟨rfl, rfl, rfl, rfl, rfl, rfl, rfl⟩

theorem frame_stroke_some {h h' : StrokeHandler} (f : Frame h h') {s : Stroke}
    (hs : h.stroke = some s) : ∃ s', h'.stroke = some s' := by
  have := f.2
  rw [hs] at this
  exact Option.isSome_iff_exists.mp this

theorem strokeFilter_of_cond {ctl : Control} {pos : PositionInputData} {h : StrokeHandler}
    (hc : FilterCond ctl pos h) :
    strokeFilter ctl pos h =
      (true, { h with stroke := none, userTapped := true, lastStrokeTime := pos.timestamp }) := by
  obtain ⟨h1, h2, h3⟩ := hc
  simp only [strokeFilter, h1, h2, h3, and_self, if_true]

theorem strokeFilter_of_not_cond {ctl : Control} {pos : PositionInputData} {h : StrokeHandler}
    (hc : ¬ FilterCond ctl pos h) :
    strokeFilter ctl pos h = (false, { h with lastStrokeTime := pos.timestamp }) := by
  unfold FilterCond at hc
  unfold strokeFilter
  dsimp only
  split_ifs with h1 h2
  · exact absurd ⟨h1.1, h1.2, h2⟩ hc
  · rfl
  · rfl

theorem lengthSqrd_eq (ctl : Control) (pos : PositionInputData) (h : StrokeHandler) (px py : ℚ)
    (hz : ctl.zoom ≠ 0) (hx : h.buttonDownPoint.x = px / ctl.zoom)
    (hy : h.buttonDownPoint.y = py / ctl.zoom) :
    lengthSqrd ctl pos h = (pos.x - px) ^ 2 + (pos.y - py) ^ 2 := by
  unfold lengthSqrd
  rw [hx, hy]
  field_simp

theorem commit_stroke (env : Env) (ctl : Control) (h : StrokeHandler) :
    (commit env ctl h).stroke = none := by
  unfold commit
  cases hs : h.stroke with
  | none => simpa using hs
  | some s =>
    dsimp only
    split_ifs
    · cases env.recognizePatterns (twoPoints env s) <;> rfl
    · rfl

theorem commit_raw (env : Env) (ctl : Control) (h : StrokeHandler) (s : Stroke)
    (hs : h.stroke = some s)
    (hraw : ctl.drawingType ≠ DrawingType.strokeRecognizer ∨
      env.recognizePatterns (twoPoints env s) = none) :
    (commit env ctl h).layer = h.layer ++ [twoPoints env s] ∧
      (commit env ctl h).undo = h.undo ++ [UndoAction.insert (twoPoints env s)] := by
  unfold commit
  rw [hs]
  dsimp only
  by_cases hd : ctl.drawingType = DrawingType.strokeRecognizer
  · have hn : env.recognizePatterns (twoPoints env s) = none := by
      rcases hraw with h1 | h1
      · exact absurd hd h1
      · exact h1
    rw [if_pos hd, hn]
    exact ⟨rfl, rfl⟩
  · rw [if_neg hd]
    exact ⟨rfl, rfl⟩

theorem commit_recognized (env : Env) (ctl : Control) (h : StrokeHandler) (s : Stroke)
    (result : ShapeRecognizerResult) (hs : h.stroke = some s)
    (hd : ctl.drawingType = DrawingType.strokeRecognizer)
    (hr : env.recognizePatterns (twoPoints env s) = some result) :
    (commit env ctl h).undo =
        h.undo ++ [UndoAction.insert (twoPoints env s),
          UndoAction.recognizer (twoPoints env s)
            (replacement env ctl (twoPoints env s) result) result.sources] ∧
      (commit env ctl h).layer =
        result.sources.foldl (fun l e => l.erase e)
          (h.layer ++ [replacement env ctl (twoPoints env s) result]) := by
  unfold commit
  rw [hs]
  dsimp only
  rw [if_pos hd, hr]
  simp [strokeRecognizerDetected, replacement]

theorem finalizeStroke_stroke_some (env : Env) (flush : List Point) (h : StrokeHandler)
    {s : Stroke} (hs : (finalizeStroke env flush h).stroke = some s) :
    ∃ s0, h.stroke = some s0 := by
  have := (finalizeStroke_frame env flush h).2
  rw [hs] at this
  exact Option.isSome_iff_exists.mp this.symm

theorem strokeFilter_snd_of_false (ctl : Control) (pos : PositionInputData) (h : StrokeHandler)
    (hf : (strokeFilter ctl pos h).1 = false) :
    (strokeFilter ctl pos h).2 = { h with lastStrokeTime := pos.timestamp } := by
  by_cases hc : FilterCond ctl pos h
  · rw [strokeFilter_of_cond hc] at hf
    simp at hf
  · rw [strokeFilter_of_not_cond hc]

theorem release_eq_commit (env : Env) (ctl : Control) (flush : List Point)
    (pos : PositionInputData) (h : StrokeHandler) (s : Stroke)
    (hs : (finalizeStroke env flush h).stroke = some s)
    (hreach : ctl.strokeFilterEnabled = false ∨
      (strokeFilter ctl pos (finalizeStroke env flush h)).1 = false) :
    ∃ h2 : StrokeHandler, onButtonReleaseEvent env ctl flush pos h = commit env ctl h2 ∧
      h2.stroke = some s ∧ h2.layer = h.layer ∧ h2.undo = h.undo := by
  obtain ⟨s0, hs0⟩ := finalizeStroke_stroke_some env flush h hs
  obtain ⟨hl, hu, _⟩ := frame_fields (finalizeStroke_frame env flush h)
  unfold onButtonReleaseEvent
  rw [hs0]
  dsimp only
  by_cases hen : ctl.strokeFilterEnabled = true
  · have hf : (strokeFilter ctl pos (finalizeStroke env flush h)).1 = false := by
      rcases hreach with h1 | h1
      · rw [hen] at h1; cases h1
      · exact h1
    rw [if_pos hen, hf, strokeFilter_snd_of_false ctl pos _ hf]
    exact ⟨_, rfl, hs, hl, hu⟩
  · rw [if_neg hen]
    exact ⟨_, rfl, hs, hl, hu⟩

theorem twoPoints_single (env : Env) (s : Stroke) (p : Point) (hp : s.points = [p]) :
    (twoPoints env s).points =
      [{ x := p.x, y := p.y, z := env.NO_PRESSURE }, { x := p.x, y := p.y, z := env.NO_PRESSURE }] := by
  simp [twoPoints, hp, Stroke.addPoint, Stroke.clearPressure]

theorem twoPoints_other (env : Env) (s : Stroke) (hp : ∀ p, s.points ≠ [p]) :
    twoPoints env s = s := by
  unfold twoPoints
  split
  · rename_i p hq
    exact absurd hq (hp p)
  · rfl

theorem twoPoints_length (env : Env) (s : Stroke) (hp : s.points ≠ []) :
    2 ≤ (twoPoints env s).points.length := by
  rcases hq : s.points with _ | ⟨p, _ | ⟨q, r⟩⟩
  · exact absurd hq hp
  · rw [twoPoints_single env s p hq]; simp
  · rw [twoPoints_other env s (by intro p' h'; rw [hq] at h'; simp at h'), hq]; simp

theorem subUInt32_of_le (a b : Nat) (ha : a < 2 ^ 32) (hb : b ≤ a) :
    ((subUInt32 a b : Nat) : Int) = (a : Int) - (b : Int) := by
  unfold subUInt32
  omega

theorem ofInt32_of_nonneg (i : Int) (h0 : 0 ≤ i) (h1 : i < 2 ^ 31) : ((ofInt32 i : Nat) : Int) = i := by
  unfold ofInt32
  omega

theorem filter_times_plain (release press last : Nat) (ignoreTime successiveTime : Int)
    (hr : release < 2 ^ 32) (hp : press ≤ release) (hl : last ≤ release)
    (hi : 0 ≤ ignoreTime ∧ ignoreTime < 2 ^ 31)
    (hs : 0 ≤ successiveTime ∧ successiveTime < 2 ^ 31) :
    (subUInt32 release press < ofInt32 ignoreTime ↔ (release : Int) - press < ignoreTime) ∧
      (subUInt32 release last > ofInt32 successiveTime ↔
        (release : Int) - last > successiveTime) := by
  have h1 := subUInt32_of_le release press hr hp
  have h2 := subUInt32_of_le release last hr hl
  have h3 := ofInt32_of_nonneg ignoreTime hi.1 hi.2
  have h4 := ofInt32_of_nonneg successiveTime hs.1 hs.2
  constructor <;> constructor <;> intro h <;> omega

/-- C7. Single-point commit: for a release that reaches the commit path
(filter off, or filter not discarding) with the stroke `s` in progress, the
stroke handed to the insert action, and added to the layer when no shape is
recognised, is `twoPoints env s`; when `s` has exactly one point it has
exactly two points, both at the position of that point and both without
pressure, the rest of the stroke unchanged; and whenever `s` has at least one
point it has at least two. -/
theorem singlePoint_commit (env : Env) (ctl : Control) (flush : List Point)
    (pos : PositionInputData) (h : StrokeHandler) (s : Stroke)
    (hs : (finalizeStroke env flush h).stroke = some s)
    (hreach : ctl.strokeFilterEnabled = false ∨
      (strokeFilter ctl pos (finalizeStroke env flush h)).1 = false) :
    (∃ rest : List UndoAction,
      (onButtonReleaseEvent env ctl flush pos h).undo =
        h.undo ++ UndoAction.insert (twoPoints env s) :: rest) ∧
    ((ctl.drawingType ≠ DrawingType.strokeRecognizer ∨
        env.recognizePatterns (twoPoints env s) = none) →
      (onButtonReleaseEvent env ctl flush pos h).layer = h.layer ++ [twoPoints env s]) ∧
    (∀ p : Point, s.points = [p] →
      twoPoints env s =
        { s with points := [{ x := p.x, y := p.y, z := env.NO_PRESSURE },
                            { x := p.x, y := p.y, z := env.NO_PRESSURE }] }) ∧
    (s.points ≠ [] → 2 ≤ (twoPoints env s).points.length) := by
  obtain ⟨h2, he, hs2, hl2, hu2⟩ := release_eq_commit env ctl flush pos h s hs hreach
  rw [he]
  refine ⟨?_, ?_, ?_, twoPoints_length env s⟩
  · by_cases hd : ctl.drawingType = DrawingType.strokeRecognizer
    · cases hr : env.recognizePatterns (twoPoints env s) with
      | none => exact ⟨[], by rw [(commit_raw env ctl h2 s hs2 (Or.inr hr)).2, hu2]⟩
      | some r => exact ⟨_, by rw [(commit_recognized env ctl h2 s r hs2 hd hr).1, hu2]⟩
    · exact ⟨[], by rw [(commit_raw env ctl h2 s hs2 (Or.inl hd)).2, hu2]⟩
  · intro hraw
    rw [(commit_raw env ctl h2 s hs2 hraw).1, hl2]
  · intro p hp
    simp [twoPoints, hp, Stroke.addPoint, Stroke.clearPressure]

/-- C8, as amended. For a release that reaches the commit path in
shape-recogniser mode with the recogniser returning a result,
`onButtonReleaseEvent` adds exactly two actions to the undo log: first the
insert action of the raw stroke, then one recogniser action bundling the raw
stroke, the replacement and the consumed source strokes; the replacement is
added to the layer, the sources are removed from it, and the session is
idle. -/
theorem recognized_commit_two_actions (env : Env) (ctl : Control) (flush : List Point)
    (pos : PositionInputData) (h : StrokeHandler) (s : Stroke) (result : ShapeRecognizerResult)
    (hs : (finalizeStroke env flush h).stroke = some s)
    (hreach : ctl.strokeFilterEnabled = false ∨
      (strokeFilter ctl pos (finalizeStroke env flush h)).1 = false)
    (hd : ctl.drawingType = DrawingType.strokeRecognizer)
    (hr : env.recognizePatterns (twoPoints env s) = some result) :
    (onButtonReleaseEvent env ctl flush pos h).undo =
        h.undo ++ [UndoAction.insert (twoPoints env s),
          UndoAction.recognizer (twoPoints env s)
            (replacement env ctl (twoPoints env s) result) result.sources] ∧
      (onButtonReleaseEvent env ctl flush pos h).layer =
        result.sources.foldl (fun l e => l.erase e)
          (h.layer ++ [replacement env ctl (twoPoints env s) result]) ∧
      (onButtonReleaseEvent env ctl flush pos h).stroke = none := by
  obtain ⟨h2, he, hs2, hl2, hu2⟩ := release_eq_commit env ctl flush pos h s hs hreach
  rw [he]
  obtain ⟨hu, hl⟩ := commit_recognized env ctl h2 s result hs2 hd hr
  rw [hu, hl, hu2, hl2]
  exact ⟨rfl, rfl, commit_stroke env ctl h2⟩

/-- C9. Raw commit: for a release that reaches the commit path (filter off,
or filter not discarding) with the stroke `s` in progress once the stabiliser
has flushed, and with the tool not in shape-recogniser mode or the recogniser
returning nothing, `onButtonReleaseEvent` appends that stroke to the layer
once, appends exactly one insert action for it to the undo log, and leaves no
stroke in progress; the stroke is `s` itself unless `s` has a single point, and
`s` is the handler's stroke when the stabiliser flushes nothing. -/
theorem raw_commit (env : Env) (ctl : Control) (flush : List Point)
    (pos : PositionInputData) (h : StrokeHandler) (s : Stroke)
    (hs : (finalizeStroke env flush h).stroke = some s)
    (hreach : ctl.strokeFilterEnabled = false ∨
      (strokeFilter ctl pos (finalizeStroke env flush h)).1 = false)
    (hraw : ctl.drawingType ≠ DrawingType.strokeRecognizer ∨
      env.recognizePatterns (twoPoints env s) = none) :
    (onButtonReleaseEvent env ctl flush pos h).layer = h.layer ++ [twoPoints env s] ∧
      (onButtonReleaseEvent env ctl flush pos h).undo =
        h.undo ++ [UndoAction.insert (twoPoints env s)] ∧
      (onButtonReleaseEvent env ctl flush pos h).stroke = none ∧
      ((∀ p : Point, s.points ≠ [p]) → twoPoints env s = s) ∧
      (flush = [] → h.stroke = some s) := by
  obtain ⟨h2, he, hs2, hl2, hu2⟩ := release_eq_commit env ctl flush pos h s hs hreach
  rw [he]
  obtain ⟨hl, hu⟩ := commit_raw env ctl h2 s hs2 hraw
  rw [hu, hl, hu2, hl2]
  refine ⟨rfl, rfl, commit_stroke env ctl h2, twoPoints_other env s, ?_⟩
  intro hf
  rw [hf] at hs
  exact hs

theorem onMotionNotifyEvent_frame (env : Env) (emitted : List Point) (pos : PositionInputData)
    (h : StrokeHandler) : Frame h (onMotionNotifyEvent env emitted pos h).2 := by
  unfold onMotionNotifyEvent
  cases hs : h.stroke with
  | none => exact frame_refl h
  | some s =>
    dsimp only
    split_ifs
    · exact frame_refl h
    · refine frame_trans ?_ (paintAll_frame env emitted _)
      exact ⟨rfl, by simp [hs]⟩

theorem afterMotions_frame (env : Env) (motions : List (List Point × PositionInputData)) :
    ∀ h : StrokeHandler, Frame h (afterMotions env motions h) := by
  induction motions with
  | nil => intro h; exact frame_refl h
  | cons m ms ih =>
    intro h
    exact frame_trans (onMotionNotifyEvent_frame env m.1 m.2 h) (ih _)

theorem onButtonPressEvent_layer_undo (env : Env) (ctl : Control) (pos : PositionInputData)
    (h : StrokeHandler) :
    (onButtonPressEvent env ctl pos h).layer = h.layer ∧
      (onButtonPressEvent env ctl pos h).undo = h.undo := by
  unfold onButtonPressEvent destroySurface createStroke
  split_ifs <;> dsimp only <;> split <;> exact ⟨rfl, rfl⟩

/-- C10. Cancellation commits nothing: in every state `onMotionCancelEvent`
leaves no stroke in progress and the layer and undo log untouched; after a
press and any motion events, with whatever points the stabiliser emits, the
layer and undo log after the cancel are those before the press; and on the
cancelled handler a release changes nothing and a motion is reported as not
handled and changes nothing. -/
theorem cancel_commits_nothing (env : Env) (ctl : Control) (press : PositionInputData)
    (motions : List (List Point × PositionInputData)) (h : StrokeHandler) :
    ((onMotionCancelEvent h).stroke = none ∧ (onMotionCancelEvent h).layer = h.layer ∧
      (onMotionCancelEvent h).undo = h.undo) ∧
    ((onMotionCancelEvent (afterMotions env motions (onButtonPressEvent env ctl press h))).stroke
        = none ∧
      (onMotionCancelEvent (afterMotions env motions (onButtonPressEvent env ctl press h))).layer
        = h.layer ∧
      (onMotionCancelEvent (afterMotions env motions (onButtonPressEvent env ctl press h))).undo
        = h.undo) ∧
    (∀ (env' : Env) (ctl' : Control) (flush : List Point) (pos : PositionInputData),
      onButtonReleaseEvent env' ctl' flush pos (onMotionCancelEvent h) = onMotionCancelEvent h) ∧
    (∀ (env' : Env) (emitted : List Point) (pos : PositionInputData),
      onMotionNotifyEvent env' emitted pos (onMotionCancelEvent h) =
        (false, onMotionCancelEvent h)) := by
  obtain ⟨hl, hu, _⟩ := frame_fields (afterMotions_frame env motions (onButtonPressEvent env ctl press h))
  obtain ⟨hpl, hpu⟩ := onButtonPressEvent_layer_undo env ctl press h
  refine ⟨⟨rfl, rfl, rfl⟩, ⟨rfl, ?_, ?_⟩, ?_, ?_⟩
  · exact hl.trans hpl
  · exact hu.trans hpu
  · intro env' ctl' flush pos; rfl
  · intro env' emitted pos; rfl

theorem pressed_eq : Example.pressed =
    { Example.idle with
      stroke := some Example.dot, buttonDownPoint := { x := 10, y := 20, z := 0 },
      surfMask := true, crMask := true, startStrokeTime := 1000, hasPressure := true,
      stabilizerCalls := [StabilizerCall.initializeWith 2 Example.press] } := by
  simp [Example.pressed, onButtonPressEvent, destroySurface, createStroke, Example.env,
    Example.ctl, Example.press, Example.idle, Example.dot]
  norm_num

theorem finalize_pressed : (finalizeStroke Example.env [] Example.pressed).stroke = some Example.dot := by
  rw [pressed_eq]; rfl

/-- Witness for C7: the same tap with the filter off is committed as a stroke
of two equal points without pressure. -/
theorem singlePoint_commit_witness :
    (onButtonReleaseEvent Example.env Example.ctlNoFilter [] Example.release Example.pressed).layer =
        Example.pressed.layer ++ [twoPoints Example.env Example.dot] ∧
      twoPoints Example.env Example.dot = Example.dot2 :=
  have h := singlePoint_commit Example.env Example.ctlNoFilter [] Example.release Example.pressed
    Example.dot finalize_pressed (Or.inl rfl)
  ⟨h.2.1 (Or.inl (by decide)), h.2.2.1 { x := 10, y := 20, z := -1 } rfl⟩

/-- Witness for C9: the same tap with the filter off and the default drawing
type. -/
theorem raw_commit_witness :
    (onButtonReleaseEvent Example.env Example.ctlNoFilter [] Example.release Example.pressed).layer =
        Example.pressed.layer ++ [twoPoints Example.env Example.dot] ∧
      (onButtonReleaseEvent Example.env Example.ctlNoFilter [] Example.release Example.pressed).undo =
        Example.pressed.undo ++ [UndoAction.insert (twoPoints Example.env Example.dot)] ∧
      (onButtonReleaseEvent Example.env Example.ctlNoFilter [] Example.release Example.pressed).stroke =
        none :=
  have h := raw_commit Example.env Example.ctlNoFilter [] Example.release Example.pressed
    Example.dot finalize_pressed (Or.inl rfl) (Or.inl (by decide))
  ⟨h.1, h.2.1, h.2.2.1⟩

/-- Witness for C8 as amended: the same tap in shape-recogniser mode with a
recogniser that answers with a line. -/
theorem recognized_commit_two_actions_witness :
    (onButtonReleaseEvent Example.recoEnv Example.ctlReco [] Example.release Example.pressed).undo =
      Example.pressed.undo ++ [UndoAction.insert (twoPoints Example.recoEnv Example.dot),
        UndoAction.recognizer (twoPoints Example.recoEnv Example.dot)
          (replacement Example.recoEnv Example.ctlReco (twoPoints Example.recoEnv Example.dot)
            { recognized := Example.line, sources := [] }) []] :=
  (recognized_commit_two_actions Example.recoEnv Example.ctlReco [] Example.release Example.pressed
    Example.dot { recognized := Example.line, sources := [] }
    (by rw [pressed_eq]; rfl) (Or.inl rfl) rfl rfl).1

/-- C8, counterexample. In shape-recogniser mode, with a recogniser that
returns a result, a dot drawn on an empty undo log leaves two actions in the
log, the first being a separate insert action for the raw stroke. -/
theorem recognized_commit_not_one_action :
    Example.ctlReco.drawingType = DrawingType.strokeRecognizer ∧
    Example.recoEnv.recognizePatterns Example.dot2 = some { recognized := Example.line, sources := [] } ∧
    Example.pressed.undo = [] ∧
    (onButtonReleaseEvent Example.recoEnv Example.ctlReco [] Example.release Example.pressed).undo =
      [UndoAction.insert Example.dot2,
        UndoAction.recognizer Example.dot2 { Example.line with width := 1 } []] ∧
    ¬ ∃ a : UndoAction,
      (onButtonReleaseEvent Example.recoEnv Example.ctlReco [] Example.release Example.pressed).undo =
        Example.pressed.undo ++ [a] := by
  have hu : (onButtonReleaseEvent Example.recoEnv Example.ctlReco [] Example.release
      Example.pressed).undo =
      [UndoAction.insert Example.dot2,
        UndoAction.recognizer Example.dot2 { Example.line with width := 1 } []] := by
    rw [pressed_eq]
    simp [onButtonReleaseEvent, finalizeStroke, paintAll, commit, Example.ctlReco,
      Example.ctlNoFilter, Example.ctl, Example.idle, Example.recoEnv, Example.env, twoPoints,
      Example.dot, Example.dot2, Stroke.addPoint, Stroke.clearPressure, strokeRecognizerDetected,
      replacement, Example.line]
  have hp : Example.pressed.undo = [] := by rw [pressed_eq]; rfl
  refine ⟨rfl, rfl, hp, hu, ?_⟩
  rw [hu, hp]
  simp

/-! ## Painting -/

theorem setLastPressure_length (s : Stroke) (z : ℚ) :
    (s.setLastPressure z).points.length = s.points.length := by
  unfold Stroke.setLastPressure
  cases hl : s.points.getLast? with
  | none => rfl
  | some p =>
    have hne : s.points ≠ [] := by
      intro h0; rw [h0] at hl; simp at hl
    have := List.length_pos.mpr hne
    simp [List.length_dropLast]
    omega

theorem drawSegmentTo_count (env : Env) (p : Point) (h : StrokeHandler)
    (hs : h.stroke.isSome = true) :
    (drawSegmentTo env p h).getPointCount = h.getPointCount + 1 := by
  obtain ⟨s, hs'⟩ := Option.isSome_iff_exists.mp hs
  simp [drawSegmentTo, StrokeHandler.getPointCount, hs', Stroke.addPoint]

theorem setLastPressure_count (z : ℚ) (h : StrokeHandler) :
    (StrokeHandler.setLastPressure z h).getPointCount = h.getPointCount := by
  unfold StrokeHandler.setLastPressure StrokeHandler.getPointCount
  cases hs : h.stroke with
  | none => simp [hs]
  | some s => simp [setLastPressure_length]

theorem subdivide_count (env : Env) (inc : Point) (n : Nat) :
    ∀ (e : Point) (h : StrokeHandler), h.stroke.isSome = true →
      (subdivide env inc n e h).getPointCount = h.getPointCount + n := by
  induction n with
  | zero => intro e h _; rfl
  | succ n ih =>
    intro e h hs
    have hs' : (drawSegmentTo env
        { x := e.x + inc.x, y := e.y + inc.y, z := e.z + inc.z } h).stroke.isSome = true := by
      rw [(drawSegmentTo_frame env _ h).2]; exact hs
    simp only [subdivide]
    rw [ih _ _ hs', drawSegmentTo_count env _ h hs]
    omega

theorem nbSteps_pos (env : Env) (widthDelta distance : ℚ)
    (hT : 0 < env.PIXEL_MOTION_THRESHOLD) (hd : env.PIXEL_MOTION_THRESHOLD ≤ distance)
    (hw : MAX_WIDTH_VARIATION < |widthDelta|) : 1 ≤ nbSteps env widthDelta distance := by
  unfold nbSteps
  apply le_min
  · have h0 : (0 : ℚ) < |widthDelta| / MAX_WIDTH_VARIATION := by
      apply div_pos (lt_trans (by norm_num [MAX_WIDTH_VARIATION]) hw)
      norm_num [MAX_WIDTH_VARIATION]
    exact Int.one_le_ceil_iff.mpr h0
  · apply Int.le_floor.mpr
    rw [Int.cast_one, le_div_iff₀ hT, one_mul]
    exact hd

theorem abs_gt_iff_or (w m : ℚ) : m < |w| ↔ (-w > m ∨ w > m) := by
  rw [lt_abs]
  constructor
  · rintro (h | h)
    · exact Or.inr h
    · exact Or.inl h
  · rintro (h | h)
    · exact Or.inr h
    · exact Or.inl h

theorem paintTo_subdividing_count (env : Env) (point endPoint : Point) (h : StrokeHandler)
    (s : Stroke) (hs : h.stroke = some s) (hl : s.points.getLast? = some endPoint)
    (hT : 0 < env.PIXEL_MOTION_THRESHOLD)
    (hd : env.PIXEL_MOTION_THRESHOLD ≤ env.lineLengthTo point endPoint)
    (hp : h.hasPressure = true) (hz : endPoint.z ≠ env.NO_PRESSURE)
    (hw : MAX_WIDTH_VARIATION < |(point.z - endPoint.z) * s.width|) :
    ((paintTo env point h).getPointCount : Int) =
      (h.getPointCount : Int) +
        nbSteps env ((point.z - endPoint.z) * s.width) (env.lineLengthTo point endPoint) := by
  have hsome : h.stroke.isSome = true := by rw [hs]; rfl
  have hsl : ∀ z, (StrokeHandler.setLastPressure z h).stroke.isSome = true := fun z => by
    rw [(setLastPressure_frame z h).2]; exact hsome
  have hnd : ¬ env.lineLengthTo point endPoint < env.PIXEL_MOTION_THRESHOLD := not_lt.mpr hd
  have hor := (abs_gt_iff_or _ _).mp hw
  have hn := nbSteps_pos env _ _ hT hd hw
  simp only [paintTo, hs, hl, hnd, if_false, hp, if_true, hz, ne_eq, not_false_eq_true, hor]
  rw [drawSegmentTo_count, setLastPressure_count, subdivide_count _ _ _ _ _ (hsl _),
    setLastPressure_count]
  · push_cast
    omega
  · rw [(setLastPressure_frame _ _).2, (subdivide_frame env _ _ _ _).2]
    exact hsl _

theorem nbSteps_cast_pos (env : Env) (widthDelta distance : ℚ)
    (hT : 0 < env.PIXEL_MOTION_THRESHOLD) (hd : env.PIXEL_MOTION_THRESHOLD ≤ distance)
    (hw : MAX_WIDTH_VARIATION < |widthDelta|) :
    (0 : ℚ) < (nbSteps env widthDelta distance : ℚ) := by
  have := nbSteps_pos env widthDelta distance hT hd hw
  exact_mod_cast (by omega : 0 < nbSteps env widthDelta distance)

theorem example_distance :
    Example.env.lineLengthTo Example.farther Example.inkedEnd = 6 / 10 := by
  norm_num [Example.env, Example.farther, Example.inkedEnd]

theorem example_widthDelta :
    (Example.farther.z - Example.inkedEnd.z) * Example.inkedStroke.width = 3 := by
  norm_num [Example.farther, Example.inkedEnd, Example.inkedStroke]

/-! ## Timestamps, motion samples and the mask -/

theorem commit_keeps (env : Env) (ctl : Control) (h : StrokeHandler) :
    (commit env ctl h).lastStrokeTime = h.lastStrokeTime ∧
      (commit env ctl h).surfMask = h.surfMask ∧ (commit env ctl h).crMask = h.crMask := by
  unfold commit
  cases hs : h.stroke with
  | none => exact ⟨rfl, rfl, rfl⟩
  | some s =>
    dsimp only
    split_ifs
    · cases env.recognizePatterns (twoPoints env s) <;> exact ⟨rfl, rfl, rfl⟩
    · exact ⟨rfl, rfl, rfl⟩

theorem strokeFilter_keeps (ctl : Control) (pos : PositionInputData) (h : StrokeHandler) :
    (strokeFilter ctl pos h).2.lastStrokeTime = pos.timestamp ∧
      (strokeFilter ctl pos h).2.surfMask = h.surfMask ∧
      (strokeFilter ctl pos h).2.crMask = h.crMask := by
  unfold strokeFilter
  dsimp only
  split_ifs <;> exact ⟨rfl, rfl, rfl⟩

theorem release_masks (env : Env) (ctl : Control) (flush : List Point) (pos : PositionInputData)
    (h : StrokeHandler) :
    (onButtonReleaseEvent env ctl flush pos h).surfMask = h.surfMask ∧
      (onButtonReleaseEvent env ctl flush pos h).crMask = h.crMask := by
  obtain ⟨_, _, _, _, _, hsm, hcm⟩ := frame_fields (finalizeStroke_frame env flush h)
  unfold onButtonReleaseEvent
  cases hs : h.stroke with
  | none => exact ⟨rfl, rfl⟩
  | some s =>
    dsimp only
    obtain ⟨_, hf1, hf2⟩ := strokeFilter_keeps ctl pos (finalizeStroke env flush h)
    split_ifs
    · exact ⟨hf1.trans hsm, hf2.trans hcm⟩
    · obtain ⟨_, hc1, hc2⟩ := commit_keeps env ctl (strokeFilter ctl pos (finalizeStroke env flush h)).2
      exact ⟨(hc1.trans hf1).trans hsm, (hc2.trans hf2).trans hcm⟩
    · obtain ⟨_, hc1, hc2⟩ := commit_keeps env ctl (finalizeStroke env flush h)
      exact ⟨hc1.trans hsm, hc2.trans hcm⟩

theorem release_lastStrokeTime_enabled (env : Env) (ctl : Control) (flush : List Point)
    (pos : PositionInputData) (h : StrokeHandler) (s0 : Stroke) (hs : h.stroke = some s0)
    (hen : ctl.strokeFilterEnabled = true) :
    (onButtonReleaseEvent env ctl flush pos h).lastStrokeTime = pos.timestamp := by
  unfold onButtonReleaseEvent
  rw [hs]
  dsimp only
  rw [if_pos hen]
  obtain ⟨hf, _, _⟩ := strokeFilter_keeps ctl pos (finalizeStroke env flush h)
  split_ifs
  · exact hf
  · exact (commit_keeps env ctl _).1.trans hf

theorem release_lastStrokeTime_disabled (env : Env) (ctl : Control) (flush : List Point)
    (pos : PositionInputData) (h : StrokeHandler) (hen : ctl.strokeFilterEnabled = false) :
    (onButtonReleaseEvent env ctl flush pos h).lastStrokeTime = h.lastStrokeTime := by
  obtain ⟨_, _, _, _, hlt, _, _⟩ := frame_fields (finalizeStroke_frame env flush h)
  unfold onButtonReleaseEvent
  cases hs : h.stroke with
  | none => rfl
  | some s =>
    dsimp only
    rw [hen]
    simp only [Bool.false_eq_true, if_false]
    exact (commit_keeps env ctl _).1.trans hlt

/-- C15, as amended. After an `onButtonReleaseEvent` call that finds an active
stroke: with the stroke filter enabled, whatever the outcome (discarded,
committed raw, or replaced by a recognised shape), `lastStrokeTime` is the
timestamp of that release; with the stroke filter disabled, `lastStrokeTime` is
left as it was. -/
theorem lastStrokeTime_after_release (env : Env) (ctl : Control) (flush : List Point)
    (pos : PositionInputData) (h : StrokeHandler) (s0 : Stroke) (hs : h.stroke = some s0) :
    (ctl.strokeFilterEnabled = true →
      (onButtonReleaseEvent env ctl flush pos h).lastStrokeTime = pos.timestamp) ∧
    (ctl.strokeFilterEnabled = false →
      (onButtonReleaseEvent env ctl flush pos h).lastStrokeTime = h.lastStrokeTime) :=
  ⟨release_lastStrokeTime_enabled env ctl flush pos h s0 hs,
    release_lastStrokeTime_disabled env ctl flush pos h⟩

theorem drawSegmentTo_calls (env : Env) (p : Point) (h : StrokeHandler) :
    (drawSegmentTo env p h).stabilizerCalls = h.stabilizerCalls := by
  unfold drawSegmentTo
  cases h.stroke <;> rfl

theorem setLastPressure_calls (z : ℚ) (h : StrokeHandler) :
    (StrokeHandler.setLastPressure z h).stabilizerCalls = h.stabilizerCalls := by
  unfold StrokeHandler.setLastPressure
  cases h.stroke <;> rfl

theorem subdivide_calls (env : Env) (inc : Point) (n : Nat) :
    ∀ (e : Point) (h : StrokeHandler),
      (subdivide env inc n e h).stabilizerCalls = h.stabilizerCalls := by
  induction n with
  | zero => intro e h; rfl
  | succ n ih =>
    intro e h
    simp only [subdivide]
    rw [ih, drawSegmentTo_calls]

theorem paintTo_calls (env : Env) (p : Point) (h : StrokeHandler) :
    (paintTo env p h).stabilizerCalls = h.stabilizerCalls := by
  unfold paintTo
  cases hs : h.stroke with
  | none => rfl
  | some s =>
    dsimp only
    cases hl : s.points.getLast? with
    | none => exact drawSegmentTo_calls env p h
    | some e =>
      dsimp only
      split_ifs
      · rfl
      · rw [drawSegmentTo_calls, setLastPressure_calls, subdivide_calls, setLastPressure_calls]
      · rw [drawSegmentTo_calls, setLastPressure_calls]
      · rw [drawSegmentTo_calls, setLastPressure_calls]
      · exact drawSegmentTo_calls env p h

theorem paintAll_calls (env : Env) (ps : List Point) :
    ∀ h : StrokeHandler, (paintAll env ps h).stabilizerCalls = h.stabilizerCalls := by
  induction ps with
  | nil => intro h; rfl
  | cons p ps ih =>
    intro h
    simp only [paintAll, List.foldl_cons]
    exact (ih (paintTo env p h)).trans (paintTo_calls env p h)

/-- C16. Zero-pressure samples are ignored but reported handled: without an
active stroke `onMotionNotifyEvent` returns `false` and changes nothing; with an
active stroke and pressure 0 it returns `true` and changes nothing, so nothing
is forwarded to the stabiliser and the stroke is as before; with an active
stroke and a non-zero pressure it returns `true` and the calls made to the
stabiliser have grown by exactly one `processEvent` of that sample. -/
theorem zero_pressure_ignored (env : Env) (emitted : List Point) (pos : PositionInputData)
    (h : StrokeHandler) :
    (h.stroke = none → onMotionNotifyEvent env emitted pos h = (false, h)) ∧
    (h.stroke ≠ none → pos.pressure = 0 → onMotionNotifyEvent env emitted pos h = (true, h)) ∧
    (h.stroke ≠ none → pos.pressure ≠ 0 →
      (onMotionNotifyEvent env emitted pos h).1 = true ∧
      (onMotionNotifyEvent env emitted pos h).2.stabilizerCalls =
        h.stabilizerCalls ++ [StabilizerCall.processEvent pos]) := by
  refine ⟨?_, ?_, ?_⟩
  · intro hs
    simp only [onMotionNotifyEvent, hs]
  · intro hs hp
    obtain ⟨s, hs'⟩ := Option.ne_none_iff_exists'.mp hs
    simp only [onMotionNotifyEvent, hs', hp, if_true]
  · intro hs hp
    obtain ⟨s, hs'⟩ := Option.ne_none_iff_exists'.mp hs
    simp only [onMotionNotifyEvent, hs', hp, if_false, true_and]
    rw [paintAll_calls]

theorem press_masks (env : Env) (ctl : Control) (pos : PositionInputData) (h : StrokeHandler) :
    (onButtonPressEvent env ctl pos h).surfMask = true ∧
      (onButtonPressEvent env ctl pos h).crMask = true := ⟨rfl, rfl⟩

theorem destructor_masks (h : StrokeHandler) :
    h.destructor.surfMask = false ∧ h.destructor.crMask = false := by
  unfold StrokeHandler.destructor destroySurface
  split_ifs with hm
  · exact ⟨rfl, rfl⟩
  · simp only [not_or, Bool.not_eq_true] at hm
    exact ⟨hm.1, hm.2⟩

/-- C17, as amended. After `onButtonPressEvent` the mask surface and its
context exist; `onMotionNotifyEvent`, `onButtonReleaseEvent` and
`onMotionCancelEvent` leave the surface and the context as they find them; the
destructor of the handler destroys them. -/
theorem mask_lifetime (env : Env) (ctl : Control) (flush emitted : List Point)
    (pos : PositionInputData) (h : StrokeHandler) :
    ((onButtonPressEvent env ctl pos h).surfMask = true ∧
      (onButtonPressEvent env ctl pos h).crMask = true) ∧
    ((onMotionNotifyEvent env emitted pos h).2.surfMask = h.surfMask ∧
      (onMotionNotifyEvent env emitted pos h).2.crMask = h.crMask) ∧
    ((onButtonReleaseEvent env ctl flush pos h).surfMask = h.surfMask ∧
      (onButtonReleaseEvent env ctl flush pos h).crMask = h.crMask) ∧
    ((onMotionCancelEvent h).surfMask = h.surfMask ∧ (onMotionCancelEvent h).crMask = h.crMask) ∧
    (h.destructor.surfMask = false ∧ h.destructor.crMask = false) := by
  obtain ⟨_, _, _, _, _, hsm, hcm⟩ := frame_fields (onMotionNotifyEvent_frame env emitted pos h)
  exact ⟨press_masks env ctl pos h, ⟨hsm, hcm⟩, release_masks env ctl flush pos h, ⟨rfl, rfl⟩,
    destructor_masks h⟩

theorem release_stroke_none (env : Env) (ctl : Control) (flush : List Point)
    (pos : PositionInputData) (h : StrokeHandler) :
    (onButtonReleaseEvent env ctl flush pos h).stroke = none := by
  unfold onButtonReleaseEvent
  cases hs : h.stroke with
  | none => simpa using hs
  | some s =>
    dsimp only
    split_ifs with hen hr
    · by_cases hc : FilterCond ctl pos (finalizeStroke env flush h)
      · rw [strokeFilter_of_cond hc]
      · rw [strokeFilter_of_not_cond hc] at hr
        simp at hr
    · exact commit_stroke _ _ _
    · exact commit_stroke _ _ _

/-- C17, counterexample. After a press, the release that commits the stroke
and the cancel both end the gesture and leave the mask surface and its context
in existence. -/
theorem mask_survives_release :
    (onButtonReleaseEvent Example.env Example.ctlNoFilter [] Example.release Example.pressed).stroke
        = none ∧
      (onButtonReleaseEvent Example.env Example.ctlNoFilter [] Example.release
        Example.pressed).surfMask = true ∧
      (onButtonReleaseEvent Example.env Example.ctlNoFilter [] Example.release
        Example.pressed).crMask = true ∧
      (onMotionCancelEvent Example.pressed).stroke = none ∧
      (onMotionCancelEvent Example.pressed).surfMask = true ∧
      (onMotionCancelEvent Example.pressed).crMask = true := by
  obtain ⟨h1, h2⟩ := release_masks Example.env Example.ctlNoFilter [] Example.release
    Example.pressed
  have hp1 : Example.pressed.surfMask = true := rfl
  have hp2 : Example.pressed.crMask = true := rfl
  exact ⟨release_stroke_none _ _ _ _ _, h1.trans hp1, h2.trans hp2, rfl, hp1, hp2⟩

/-- C15, counterexample. With the stroke filter disabled, a release at time
1050 of an active stroke leaves `lastStrokeTime` at 0. -/
theorem lastStrokeTime_not_updated :
    Example.pressed.stroke = some Example.dot ∧
    Example.ctlNoFilter.strokeFilterEnabled = false ∧
    Example.release.timestamp = 1050 ∧
    (onButtonReleaseEvent Example.env Example.ctlNoFilter [] Example.release
      Example.pressed).lastStrokeTime = 0 := by
  refine ⟨by rw [pressed_eq], rfl, rfl, ?_⟩
  rw [release_lastStrokeTime_disabled _ _ _ _ _ rfl]
  rfl

theorem release_undo_prefix (env : Env) (ctl : Control) (flush : List Point)
    (pos : PositionInputData) (h : StrokeHandler) (s : Stroke)
    (hs : (finalizeStroke env flush h).stroke = some s)
    (hreach : ctl.strokeFilterEnabled = false ∨
      (strokeFilter ctl pos (finalizeStroke env flush h)).1 = false) :
    ∃ rest : List UndoAction,
      (onButtonReleaseEvent env ctl flush pos h).undo =
        h.undo ++ UndoAction.insert (twoPoints env s) :: rest := by
  obtain ⟨h2, he, hs2, _, hu2⟩ := release_eq_commit env ctl flush pos h s hs hreach
  rw [he]
  by_cases hd : ctl.drawingType = DrawingType.strokeRecognizer
  · cases hr : env.recognizePatterns (twoPoints env s) with
    | none => exact ⟨[], by rw [(commit_raw env ctl h2 s hs2 (Or.inr hr)).2, hu2]⟩
    | some r => exact ⟨_, by rw [(commit_recognized env ctl h2 s r hs2 hd hr).1, hu2]⟩
  · exact ⟨[], by rw [(commit_raw env ctl h2 s hs2 (Or.inl hd)).2, hu2]⟩

theorem press_of_idle (env : Env) (ctl : Control) (pos : PositionInputData) (h : StrokeHandler)
    (hs : h.stroke = none) :
    (∃ s, (onButtonPressEvent env ctl pos h).stroke = some s) ∧
      (onButtonPressEvent env ctl pos h).lastStrokeTime = h.lastStrokeTime := by
  unfold onButtonPressEvent destroySurface createStroke
  split_ifs <;> simp [hs]

/-- C14. Successive-dotting override: with the stroke filter enabled, if a
gesture is discarded by a release at time `t1` and the next gesture (press, any
motion events, release) is released at time `t2` with `t2 − t1` at most the
successive time, then the second gesture is not discarded but committed: no
stroke is left in progress and the undo log has gained an insert action,
whatever its displacement and duration.  The time difference is the `guint32`
one the code computes and the setting is converted to unsigned; for `t2` not
before `t1` and a setting that is not negative this is the comparison of the
plain difference. -/
theorem successive_dotting (env1 env2 : Env) (ctl1 ctl2 : Control) (flush1 flush2 : List Point)
    (release1 press2 release2 : PositionInputData)
    (motions : List (List Point × PositionInputData)) (h0 : StrokeHandler) (s0 : Stroke)
    (hs : h0.stroke = some s0) (hen1 : ctl1.strokeFilterEnabled = true)
    (hdisc : (onButtonReleaseEvent env1 ctl1 flush1 release1 h0).stroke = none ∧
      (onButtonReleaseEvent env1 ctl1 flush1 release1 h0).layer = h0.layer ∧
      (onButtonReleaseEvent env1 ctl1 flush1 release1 h0).undo = h0.undo)
    (hwin : subUInt32 release2.timestamp release1.timestamp ≤
      ofInt32 ctl2.strokeFilterSuccessiveTime) :
    ((onButtonReleaseEvent env2 ctl2 flush2 release2
        (afterMotions env2 motions
          (onButtonPressEvent env2 ctl2 press2
            (onButtonReleaseEvent env1 ctl1 flush1 release1 h0)))).stroke = none ∧
      ∃ (s : Stroke) (rest : List UndoAction),
        (onButtonReleaseEvent env2 ctl2 flush2 release2
          (afterMotions env2 motions
            (onButtonPressEvent env2 ctl2 press2
              (onButtonReleaseEvent env1 ctl1 flush1 release1 h0)))).undo =
          h0.undo ++ UndoAction.insert s :: rest) ∧
    (release2.timestamp < 2 ^ 32 → release1.timestamp ≤ release2.timestamp →
      (0 ≤ ctl2.strokeFilterSuccessiveTime ∧ ctl2.strokeFilterSuccessiveTime < 2 ^ 31) →
      (subUInt32 release2.timestamp release1.timestamp ≤ ofInt32 ctl2.strokeFilterSuccessiveTime ↔
        (release2.timestamp : Int) - release1.timestamp ≤ ctl2.strokeFilterSuccessiveTime)) := by
  have ht1 := release_lastStrokeTime_enabled env1 ctl1 flush1 release1 h0 s0 hs hen1
  obtain ⟨⟨s2, hs2⟩, hlt2⟩ := press_of_idle env2 ctl2 press2 _ hdisc.1
  obtain ⟨hpl, hpu⟩ := onButtonPressEvent_layer_undo env2 ctl2 press2
    (onButtonReleaseEvent env1 ctl1 flush1 release1 h0)
  have hfm := afterMotions_frame env2 motions
    (onButtonPressEvent env2 ctl2 press2 (onButtonReleaseEvent env1 ctl1 flush1 release1 h0))
  obtain ⟨_, hmu, _, _, hmt, _, _⟩ := frame_fields hfm
  obtain ⟨s3, hs3⟩ := frame_stroke_some hfm hs2
  have hff := finalizeStroke_frame env2 flush2
    (afterMotions env2 motions
      (onButtonPressEvent env2 ctl2 press2 (onButtonReleaseEvent env1 ctl1 flush1 release1 h0)))
  obtain ⟨_, _, _, _, hft, _, _⟩ := frame_fields hff
  obtain ⟨s4, hs4⟩ := frame_stroke_some hff hs3
  have hnc : ¬ FilterCond ctl2 release2 (finalizeStroke env2 flush2
      (afterMotions env2 motions
        (onButtonPressEvent env2 ctl2 press2
          (onButtonReleaseEvent env1 ctl1 flush1 release1 h0)))) := by
    intro hc
    have h3 := hc.2.2
    rw [hft, hmt, hlt2, ht1] at h3
    omega
  obtain ⟨rest, hund⟩ := release_undo_prefix env2 ctl2 flush2 release2 _ s4 hs4
    (Or.inr (by rw [strokeFilter_of_not_cond hnc]))
  refine ⟨⟨release_stroke_none _ _ _ _ _, twoPoints env2 s4, rest, ?_⟩, ?_⟩
  · rw [hund, hmu, hpu, hdisc.2.2]
  · intro hr hle hs'
    have h1 := subUInt32_of_le release2.timestamp release1.timestamp hr hle
    have h2 := ofInt32_of_nonneg ctl2.strokeFilterSuccessiveTime hs'.1 hs'.2
    constructor <;> intro hh <;> omega

theorem release_of_cond (env : Env) (ctl : Control) (flush : List Point)
    (pos : PositionInputData) (h : StrokeHandler) (s0 : Stroke) (hs : h.stroke = some s0)
    (hen : ctl.strokeFilterEnabled = true)
    (hc : FilterCond ctl pos (finalizeStroke env flush h)) :
    (onButtonReleaseEvent env ctl flush pos h).stroke = none ∧
      (onButtonReleaseEvent env ctl flush pos h).layer = h.layer ∧
      (onButtonReleaseEvent env ctl flush pos h).undo = h.undo := by
  obtain ⟨hl, hu, _⟩ := frame_fields (finalizeStroke_frame env flush h)
  unfold onButtonReleaseEvent
  rw [hs]
  dsimp only
  rw [if_pos hen, strokeFilter_of_cond hc]
  exact ⟨rfl, hl, hu⟩

theorem example_tap_cond :
    FilterCond Example.ctl Example.release (finalizeStroke Example.env [] Example.pressed) := by
  rw [pressed_eq]
  refine ⟨?_, by decide, by decide⟩
  simp [lengthSqrd, finalizeStroke, paintAll, Example.release, Example.ctl, Example.idle]
  norm_num

/-- Witness for C14: the sample tap is discarded, and the same tap 200 ms
later, within the successive time of 500 ms, is committed. -/
theorem successive_dotting_witness :
    (onButtonReleaseEvent Example.env Example.ctl [] Example.release2
        (afterMotions Example.env []
          (onButtonPressEvent Example.env Example.ctl Example.press2
            (onButtonReleaseEvent Example.env Example.ctl [] Example.release
              Example.pressed)))).stroke = none ∧
      ∃ (s : Stroke) (rest : List UndoAction),
        (onButtonReleaseEvent Example.env Example.ctl [] Example.release2
          (afterMotions Example.env []
            (onButtonPressEvent Example.env Example.ctl Example.press2
              (onButtonReleaseEvent Example.env Example.ctl [] Example.release
                Example.pressed)))).undo =
          Example.pressed.undo ++ UndoAction.insert s :: rest :=
  (successive_dotting Example.env Example.env Example.ctl Example.ctl [] [] Example.release
    Example.press2 Example.release2 [] Example.pressed Example.dot (by rw [pressed_eq]) rfl
    (release_of_cond Example.env Example.ctl [] Example.release Example.pressed Example.dot
      (by rw [pressed_eq]) rfl example_tap_cond)
    (by decide)).1

/-- Witness for C15 as amended: the sample tap with the filter enabled. -/
theorem lastStrokeTime_after_release_witness :
    (onButtonReleaseEvent Example.env Example.ctl [] Example.release
      Example.pressed).lastStrokeTime = Example.release.timestamp :=
  (lastStrokeTime_after_release Example.env Example.ctl [] Example.release Example.pressed
    Example.dot (by rw [pressed_eq])).1 rfl

/-- Witness for C16: a sample without pressure during the sample gesture. -/
theorem zero_pressure_ignored_witness :
    onMotionNotifyEvent Example.env [Example.farther] Example.lift Example.pressed =
      (true, Example.pressed) :=
  (zero_pressure_ignored Example.env [Example.farther] Example.lift Example.pressed).2.1
    (by rw [pressed_eq]; simp) rfl

/-! ## Snapping of a recognised shape -/

theorem snapRecognized_eq (env : Env) (recognized : Stroke) :
    snapRecognized env recognized =
      env.scale (snapMoved env recognized) (snapTopLeftSnapped env recognized).x
        (snapTopLeftSnapped env recognized).y (snapFx env recognized) (snapFy env recognized) :=
  rfl

theorem replacement_snapped (env : Env) (ctl : Control) (stroke : Stroke)
    (result : ShapeRecognizerResult) (hsnap : ctl.snapRecognizedShapesEnabled = true) :
    replacement env ctl stroke result =
      snapRecognized env (recognizedWithWidth env stroke result) := by
  simp only [replacement, recognizedWithWidth, hsnap, if_true]

theorem snapFactor_small (extent far near : ℚ) (h : |extent| ≤ DBL_EPSILON) :
    snapFactor extent far near = 1 := by
  unfold snapFactor
  rw [if_neg (not_lt.mpr h)]

theorem snapFactor_large (extent far near : ℚ) (h : DBL_EPSILON < |extent|) :
    snapFactor extent far near = (far - near) / extent := by
  unfold snapFactor
  rw [if_pos h]

theorem scaleAbout_corner (near far extent start : ℚ) (hs : start = near)
    (h : DBL_EPSILON < |extent|) :
    scaleAbout near (snapFactor extent far near) (start + extent) = far := by
  have hpos : (0 : ℚ) < DBL_EPSILON := by norm_num [DBL_EPSILON]
  have hne : extent ≠ 0 := by
    intro h0
    rw [h0, abs_zero] at h
    exact absurd (lt_trans hpos h) (lt_irrefl _)
  rw [snapFactor_large _ _ _ h, hs]
  unfold scaleAbout
  field_simp

/-- C18. Snap scaling of a recognised shape, with snapping enabled and in
exact arithmetic, `r` being the recognised stroke with its width set: the
replacement is the moved stroke scaled about the snapped top-left point by
factors `fx`, `fy`; on each axis the factor is 1 when the absolute dimension of
the bounds of the moved stroke is at most `DBL_EPSILON`, and otherwise
(snapped bottom-right − snapped top-left) / dimension; scaling about the
snapped top-left corner keeps that corner fixed, and when the bounds of the
moved stroke have their top-left corner at the snapped top-left point, it maps
the bottom-right corner of the bounds onto the snapped bottom-right point on
every axis whose dimension exceeds `DBL_EPSILON`. -/
theorem snap_scaling (env : Env) (ctl : Control) (stroke : Stroke)
    (result : ShapeRecognizerResult) (r : Stroke)
    (hr : r = recognizedWithWidth env stroke result)
    (hsnap : ctl.snapRecognizedShapesEnabled = true) :
    replacement env ctl stroke result =
        env.scale (snapMoved env r) (snapTopLeftSnapped env r).x (snapTopLeftSnapped env r).y
          (snapFx env r) (snapFy env r) ∧
    (|(snapBounds env r).width| ≤ DBL_EPSILON → snapFx env r = 1) ∧
    (DBL_EPSILON < |(snapBounds env r).width| →
      snapFx env r =
        ((snapBelowRightSnapped env r).x - (snapTopLeftSnapped env r).x) /
          (snapBounds env r).width) ∧
    (|(snapBounds env r).height| ≤ DBL_EPSILON → snapFy env r = 1) ∧
    (DBL_EPSILON < |(snapBounds env r).height| →
      snapFy env r =
        ((snapBelowRightSnapped env r).y - (snapTopLeftSnapped env r).y) /
          (snapBounds env r).height) ∧
    (scaleAbout (snapTopLeftSnapped env r).x (snapFx env r) (snapTopLeftSnapped env r).x =
        (snapTopLeftSnapped env r).x ∧
      scaleAbout (snapTopLeftSnapped env r).y (snapFy env r) (snapTopLeftSnapped env r).y =
        (snapTopLeftSnapped env r).y) ∧
    ((snapBounds env r).x = (snapTopLeftSnapped env r).x →
      DBL_EPSILON < |(snapBounds env r).width| →
      scaleAbout (snapTopLeftSnapped env r).x (snapFx env r)
          ((snapBounds env r).x + (snapBounds env r).width) =
        (snapBelowRightSnapped env r).x) ∧
    ((snapBounds env r).y = (snapTopLeftSnapped env r).y →
      DBL_EPSILON < |(snapBounds env r).height| →
      scaleAbout (snapTopLeftSnapped env r).y (snapFy env r)
          ((snapBounds env r).y + (snapBounds env r).height) =
        (snapBelowRightSnapped env r).y) := by
  refine ⟨?_, snapFactor_small _ _ _, snapFactor_large _ _ _, snapFactor_small _ _ _,
    snapFactor_large _ _ _, ⟨?_, ?_⟩, ?_, ?_⟩
  · rw [replacement_snapped env ctl stroke result hsnap, snapRecognized_eq, hr]
  · simp [scaleAbout]
  · simp [scaleAbout]
  · intro hx hw
    exact scaleAbout_corner _ _ _ _ hx hw
  · intro hy hh
    exact scaleAbout_corner _ _ _ _ hy hh

theorem floor_example_zero : ⌊(1 / 2 : ℚ)⌋ = 0 := by
  rw [Int.floor_eq_iff]; norm_num

theorem floor_example_three : ⌊(7 / 2 : ℚ)⌋ = 3 := by
  rw [Int.floor_eq_iff]; norm_num

theorem example_snap_values :
    snapTopLeftSnapped Example.gridEnv Example.sketch = { x := 0, y := 0, z := -1 } ∧
      snapBounds Example.gridEnv Example.sketch = { x := 0, y := 0, width := 7 / 2, height := 0 } ∧
      snapBelowRightSnapped Example.gridEnv Example.sketch = { x := 3, y := 0, z := -1 } := by
  have h1 : snapTopLeftSnapped Example.gridEnv Example.sketch = { x := 0, y := 0, z := -1 } := by
    simp [snapTopLeftSnapped, Example.gridEnv, Example.sketch, Example.env, Example.boundsOf,
      floor_example_zero]
    norm_num
  have h2 : snapBounds Example.gridEnv Example.sketch =
      { x := 0, y := 0, width := 7 / 2, height := 0 } := by
    simp only [snapBounds, snapMoved, h1]
    simp [Example.gridEnv, Example.sketch, Example.env, Example.boundsOf]
    norm_num
  refine ⟨h1, h2, ?_⟩
  simp only [snapBelowRightSnapped, h2]
  simp [Example.gridEnv, Example.env, floor_example_three]

/-- Witness for C18: a line of extent `7/2` on a unit grid; its right end is
mapped onto the grid line 3. -/
theorem snap_scaling_witness :
    scaleAbout (snapTopLeftSnapped Example.gridEnv Example.sketch).x
        (snapFx Example.gridEnv Example.sketch)
        ((snapBounds Example.gridEnv Example.sketch).x +
          (snapBounds Example.gridEnv Example.sketch).width) =
      (snapBelowRightSnapped Example.gridEnv Example.sketch).x :=
  (snap_scaling Example.gridEnv Example.ctlSnap Example.dot2
    { recognized := Example.sketch, sources := [] } Example.sketch
    (by simp [recognizedWithWidth, Example.gridEnv, Example.env, Example.sketch, Example.dot2])
    rfl).2.2.2.2.2.2.1
    (by rw [example_snap_values.1, example_snap_values.2.1])
    (by
      rw [example_snap_values.2.1]
      show DBL_EPSILON < |(7 / 2 : ℚ)|
      rw [abs_of_pos (by norm_num)]
      norm_num [DBL_EPSILON])

/-! ## The position reported by the reader -/

theorem pos_of_inv {data : List Nat} {o : ObjectInputStream} (hb : data.length < 2 ^ 64)
    (hi : Inv data o) : pos o = 0 := by
  obtain ⟨hs, hl, _, _⟩ := hi
  unfold pos
  rw [hs, hl, Nat.mod_eq_of_lt hb]
  omega

theorem pos_of_reachable (data : List Nat) (o : ObjectInputStream) (hb : data.length < 2 ^ 31)
    (h : Reachable data o) : pos o = 0 :=
  pos_of_inv (by omega) (reachable_inv (by omega) h)

/-- C19 (evaluation at the failing input). After `read` has consumed the
version string the cursor is at offset 7, yet `pos()` is 0, because
`istream.str().size()` is the size of the whole buffer; and `checkType`, finding
`X` where the tag should be, reports index 1 of 9 although it looked for the tag
at offset 7. -/
theorem pos_stays_zero :
    (∀ junk : Nat → Nat,
      ObjectInputStream.read junk [86] [95, 115, 1, 0, 0, 0, 86, 88, 89] =
        (.ok true, at_ [95, 115, 1, 0, 0, 0, 86, 88, 89] 7)) ∧
    pos (at_ [95, 115, 1, 0, 0, 0, 86, 88, 89] 7) = 0 ∧
    checkType 105 (at_ [95, 115, 1, 0, 0, 0, 86, 88, 89] 7) =
      (.error (.inputStreamException (.expectedSignature "Number" 1 9 88)),
        at_ [95, 115, 1, 0, 0, 0, 86, 88, 89] 9) :=
  ⟨fun junk => read_version_ok junk [86] [88, 89] (by decide), by decide, by decide⟩

/-! ## Interpolation of the inserted points -/

theorem drawSegmentTo_stroke (env : Env) (p : Point) (h : StrokeHandler) (s : Stroke)
    (hs : h.stroke = some s) (hp : h.hasPressure = true) :
    (drawSegmentTo env p h).stroke = some { s with points := s.points ++ [p] } ∧
      (drawSegmentTo env p h).hasPressure = true := by
  simp [drawSegmentTo, hs, hp, Stroke.addPoint]

theorem setLastPressure_stroke (z : ℚ) (h : StrokeHandler) (s : Stroke)
    (hs : h.stroke = some s) :
    (StrokeHandler.setLastPressure z h).stroke = some (s.setLastPressure z) ∧
      (StrokeHandler.setLastPressure z h).hasPressure = h.hasPressure := by
  simp [StrokeHandler.setLastPressure, hs]

theorem setLastPressure_points (s : Stroke) (z : ℚ) (pre : List Point) (q : Point)
    (hq : s.points = pre ++ [q]) :
    s.setLastPressure z = { s with points := pre ++ [{ q with z := z }] } := by
  simp [Stroke.setLastPressure, hq]

theorem subdivide_points (env : Env) (inc : Point) (m : Nat) :
    ∀ (e : Point) (h : StrokeHandler) (s : Stroke), h.stroke = some s → h.hasPressure = true →
      (subdivide env inc m e h).stroke =
          some { s with points := s.points ++ (List.range m).map fun i : Nat =>
            ({ x := e.x + ((i : ℚ) + 1) * inc.x, y := e.y + ((i : ℚ) + 1) * inc.y,
               z := e.z + ((i : ℚ) + 1) * inc.z } : Point) } ∧
        (subdivide env inc m e h).hasPressure = true := by
  induction m with
  | zero => intro e h s hs hp; simp [subdivide, hs, hp]
  | succ m ih =>
    intro e h s hs hp
    obtain ⟨hd, hp'⟩ := drawSegmentTo_stroke env
      { x := e.x + inc.x, y := e.y + inc.y, z := e.z + inc.z } h s hs hp
    obtain ⟨h1, h2⟩ := ih _ _ _ hd hp'
    simp only [subdivide]
    refine ⟨?_, h2⟩
    rw [h1]
    simp only [List.range_succ_eq_map, List.map_cons, List.map_map, List.append_assoc,
      List.singleton_append, Nat.cast_zero, zero_add, one_mul]
    congr 4
    apply List.map_congr_left
    intro i _
    simp only [Function.comp, Nat.cast_succ]
    congr 1 <;> ring

theorem paintTo_subdividing_eq (env : Env) (point endPoint : Point) (h : StrokeHandler)
    (s : Stroke) (hs : h.stroke = some s) (hl : s.points.getLast? = some endPoint)
    (hd : env.PIXEL_MOTION_THRESHOLD ≤ env.lineLengthTo point endPoint)
    (hp : h.hasPressure = true) (hz : endPoint.z ≠ env.NO_PRESSURE)
    (hw : MAX_WIDTH_VARIATION < |(point.z - endPoint.z) * s.width|) :
    paintTo env point h =
      drawSegmentTo env point
        (StrokeHandler.setLastPressure (point.z * s.width)
          (subdivide env (increment env point endPoint s.width)
            (nbSteps env ((point.z - endPoint.z) * s.width) (env.lineLengthTo point endPoint)
              - 1).toNat
            { endPoint with z := endPoint.z * s.width + (increment env point endPoint s.width).z }
            (StrokeHandler.setLastPressure
              (endPoint.z * s.width + (increment env point endPoint s.width).z) h))) := by
  have hnd : ¬ env.lineLengthTo point endPoint < env.PIXEL_MOTION_THRESHOLD := not_lt.mpr hd
  have hor := (abs_gt_iff_or _ _).mp hw
  simp only [paintTo, hs, hl, hnd, if_false, hp, if_true, hz, ne_eq, not_false_eq_true, hor,
    increment, stepLength]

theorem points_of_getLast {l : List Point} {e : Point} (hl : l.getLast? = some e) :
    l = l.dropLast ++ [e] :=
  (List.dropLast_append_getLast? e hl).symm

theorem map_range_shift {α : Type} (f : Nat → α) (m : Nat) :
    f 0 :: (List.range m).map (fun i => f (i + 1)) = (List.range m).map f ++ [f m] := by
  have h1 : (List.range (m + 1)).map f = (List.range m).map f ++ [f m] := by
    rw [List.range_succ, List.map_append, List.map_singleton]
  have h2 : (List.range (m + 1)).map f = f 0 :: (List.range m).map (fun i => f (i + 1)) := by
    rw [List.range_succ_eq_map, List.map_cons, List.map_map]
    rfl
  rw [← h1, h2]

theorem paintTo_subdividing_points (env : Env) (point endPoint : Point) (h : StrokeHandler)
    (s : Stroke) (hs : h.stroke = some s) (hl : s.points.getLast? = some endPoint)
    (hd : env.PIXEL_MOTION_THRESHOLD ≤ env.lineLengthTo point endPoint)
    (hp : h.hasPressure = true) (hz : endPoint.z ≠ env.NO_PRESSURE)
    (hw : MAX_WIDTH_VARIATION < |(point.z - endPoint.z) * s.width|) (m : Nat)
    (hm : nbSteps env ((point.z - endPoint.z) * s.width) (env.lineLengthTo point endPoint) =
      (m : Int) + 1) :
    (paintTo env point h).stroke =
      some { s with points := s.points.dropLast ++
        ((List.range (m + 1)).map fun k : Nat =>
          ({ x := endPoint.x + (k : ℚ) * (increment env point endPoint s.width).x,
             y := endPoint.y + (k : ℚ) * (increment env point endPoint s.width).y,
             z := endPoint.z * s.width +
               ((k : ℚ) + 1) * (increment env point endPoint s.width).z } : Point)) ++
        [point] } := by
  rw [paintTo_subdividing_eq env point endPoint h s hs hl hd hp hz hw]
  have hm1 : (nbSteps env ((point.z - endPoint.z) * s.width) (env.lineLengthTo point endPoint)
      - 1).toNat = m := by rw [hm]; simp
  rw [hm1]
  generalize hinc : increment env point endPoint s.width = inc
  have hincz : ((m : ℚ) + 1) * inc.z = (point.z - endPoint.z) * s.width := by
    rw [← hinc]
    simp only [increment, stepLength, hm]
    have : ((m : ℚ) + 1) ≠ 0 := by positivity
    push_cast
    field_simp
  obtain ⟨h1, p1⟩ := setLastPressure_stroke (endPoint.z * s.width + inc.z) h s hs
  rw [setLastPressure_points s _ _ _ (points_of_getLast hl)] at h1
  rw [hp] at p1
  obtain ⟨h2, p2⟩ := subdivide_points env inc m
    { endPoint with z := endPoint.z * s.width + inc.z } _ _ h1 p1
  have hlist : s.points.dropLast ++ [{ endPoint with z := endPoint.z * s.width + inc.z }] ++
      ((List.range m).map fun i : Nat =>
        ({ x := endPoint.x + ((i : ℚ) + 1) * inc.x, y := endPoint.y + ((i : ℚ) + 1) * inc.y,
           z := endPoint.z * s.width + inc.z + ((i : ℚ) + 1) * inc.z } : Point)) =
      s.points.dropLast ++
        ((List.range m).map fun k : Nat =>
          ({ x := endPoint.x + (k : ℚ) * inc.x, y := endPoint.y + (k : ℚ) * inc.y,
             z := endPoint.z * s.width + ((k : ℚ) + 1) * inc.z } : Point)) ++
        [{ x := endPoint.x + (m : ℚ) * inc.x, y := endPoint.y + (m : ℚ) * inc.y,
           z := endPoint.z * s.width + ((m : ℚ) + 1) * inc.z }] := by
    rw [List.append_assoc, List.append_assoc]
    congr 1
    rw [← map_range_shift (fun k : Nat =>
      ({ x := endPoint.x + (k : ℚ) * inc.x, y := endPoint.y + (k : ℚ) * inc.y,
         z := endPoint.z * s.width + ((k : ℚ) + 1) * inc.z } : Point)) m]
    simp only [List.singleton_append, Nat.cast_zero, zero_mul, add_zero, zero_add, one_mul,
      Nat.cast_add, Nat.cast_one]
    congr 1
    apply List.map_congr_left
    intro i _
    congr 1
    ring
  dsimp only at h2
  rw [hlist] at h2
  obtain ⟨h3, p3⟩ := setLastPressure_stroke (point.z * s.width) _ _ h2
  rw [setLastPressure_points _ _ _ _ rfl] at h3
  rw [p2] at p3
  obtain ⟨h4, _⟩ := drawSegmentTo_stroke env point _ _ h3 p3
  rw [h4]
  dsimp only
  rw [List.range_succ, List.map_append, List.map_singleton, ← List.append_assoc]
  have hz1 : point.z * s.width = endPoint.z * s.width + ((m : ℚ) + 1) * inc.z := by
    rw [hincz]; ring
  rw [hz1]

theorem map_range_succ_head {α : Type} (f : Nat → α) (m : Nat) :
    (List.range (m + 1)).map f = f 0 :: (List.range m).map (fun i => f (i + 1)) := by
  rw [List.range_succ_eq_map, List.map_cons, List.map_map]
  rfl

theorem nbSteps_eq_succ (env : Env) (widthDelta distance : ℚ)
    (hT : 0 < env.PIXEL_MOTION_THRESHOLD) (hd : env.PIXEL_MOTION_THRESHOLD ≤ distance)
    (hw : MAX_WIDTH_VARIATION < |widthDelta|) :
    ∃ m : Nat, nbSteps env widthDelta distance = (m : Int) + 1 := by
  have h1 := nbSteps_pos env widthDelta distance hT hd hw
  exact ⟨(nbSteps env widthDelta distance - 1).toNat, by omega⟩

theorem stepLength_bounds (env : Env) (widthDelta distance : ℚ)
    (hT : 0 < env.PIXEL_MOTION_THRESHOLD) (hd : env.PIXEL_MOTION_THRESHOLD ≤ distance)
    (hw : MAX_WIDTH_VARIATION < |widthDelta|) :
    0 < stepLength env widthDelta distance ∧ stepLength env widthDelta distance ≤ 1 := by
  have h0 := nbSteps_cast_pos env widthDelta distance hT hd hw
  have h1 : (1 : ℚ) ≤ (nbSteps env widthDelta distance : ℚ) := by
    exact_mod_cast nbSteps_pos env widthDelta distance hT hd hw
  unfold stepLength
  refine ⟨by positivity, ?_⟩
  rw [div_le_iff₀ h0]
  linarith

/-- C21. No division by zero in the subdivision: when `paintTo` subdivides
(positive motion threshold, distance to the last point at least the threshold,
pressure tracked, last point with a pressure, `|Δw|` above the maximal
variation), the step count is
`min(⌈|Δw| / MAX_WIDTH_VARIATION⌉, ⌊distance / PIXEL_MOTION_THRESHOLD⌋)` and
is at least one, the divisor of `stepLength = 1 / nbSteps` is not zero, and
`stepLength` lies in `(0, 1]`; `paintTo` is the subdivision by the increment
computed from this `stepLength`. -/
theorem stepLength_well_defined (env : Env) (point endPoint : Point) (h : StrokeHandler)
    (s : Stroke) (hs : h.stroke = some s) (hl : s.points.getLast? = some endPoint)
    (hT : 0 < env.PIXEL_MOTION_THRESHOLD)
    (hd : env.PIXEL_MOTION_THRESHOLD ≤ env.lineLengthTo point endPoint)
    (hp : h.hasPressure = true) (hz : endPoint.z ≠ env.NO_PRESSURE)
    (hw : MAX_WIDTH_VARIATION < |(point.z - endPoint.z) * s.width|) :
    nbSteps env ((point.z - endPoint.z) * s.width) (env.lineLengthTo point endPoint) =
        min ⌈|(point.z - endPoint.z) * s.width| / MAX_WIDTH_VARIATION⌉
          ⌊env.lineLengthTo point endPoint / env.PIXEL_MOTION_THRESHOLD⌋ ∧
      1 ≤ nbSteps env ((point.z - endPoint.z) * s.width) (env.lineLengthTo point endPoint) ∧
      (nbSteps env ((point.z - endPoint.z) * s.width) (env.lineLengthTo point endPoint) : ℚ) ≠ 0 ∧
      stepLength env ((point.z - endPoint.z) * s.width) (env.lineLengthTo point endPoint) =
        1 / (nbSteps env ((point.z - endPoint.z) * s.width) (env.lineLengthTo point endPoint) : ℚ) ∧
      0 < stepLength env ((point.z - endPoint.z) * s.width) (env.lineLengthTo point endPoint) ∧
      stepLength env ((point.z - endPoint.z) * s.width) (env.lineLengthTo point endPoint) ≤ 1 ∧
      paintTo env point h =
        drawSegmentTo env point
          (StrokeHandler.setLastPressure (point.z * s.width)
            (subdivide env (increment env point endPoint s.width)
              (nbSteps env ((point.z - endPoint.z) * s.width) (env.lineLengthTo point endPoint)
                - 1).toNat
              { endPoint with
                z := endPoint.z * s.width + (increment env point endPoint s.width).z }
              (StrokeHandler.setLastPressure
                (endPoint.z * s.width + (increment env point endPoint s.width).z) h))) := by
  have hb := stepLength_bounds env _ _ hT hd hw
  exact ⟨rfl, nbSteps_pos env _ _ hT hd hw, ne_of_gt (nbSteps_cast_pos env _ _ hT hd hw), rfl,
    hb.1, hb.2, paintTo_subdividing_eq env point endPoint h s hs hl hd hp hz hw⟩

/-- Witness for C21: on the sample stroke the step length is in `(0, 1]`. -/
theorem stepLength_well_defined_witness :
    0 < stepLength Example.env
        ((Example.farther.z - Example.inkedEnd.z) * Example.inkedStroke.width)
        (Example.env.lineLengthTo Example.farther Example.inkedEnd) ∧
      stepLength Example.env
        ((Example.farther.z - Example.inkedEnd.z) * Example.inkedStroke.width)
        (Example.env.lineLengthTo Example.farther Example.inkedEnd) ≤ 1 :=
  ⟨(stepLength_well_defined Example.env Example.farther Example.inkedEnd Example.inked
    Example.inkedStroke rfl rfl (by norm_num [Example.env])
    (by rw [example_distance]; norm_num [Example.env]) rfl
    (by norm_num [Example.inkedEnd, Example.env])
    (by rw [example_widthDelta]; norm_num [MAX_WIDTH_VARIATION])).2.2.2.2.1,
   (stepLength_well_defined Example.env Example.farther Example.inkedEnd Example.inked
    Example.inkedStroke rfl rfl (by norm_num [Example.env])
    (by rw [example_distance]; norm_num [Example.env]) rfl
    (by norm_num [Example.inkedEnd, Example.env])
    (by rw [example_widthDelta]; norm_num [MAX_WIDTH_VARIATION])).2.2.2.2.2.1⟩

/-- C22. Width interpolation: after a `paintTo` call that subdivides into
`n = nbSteps` steps, with `w0 = endPoint.z * width` and `w1 = point.z * width`,
the stored pressures are those of the earlier points, then
`w0 + k * (w1 − w0) / n` for `k = 1, …, n` on the former last point and the
`n − 1` inserted points in order, then the raw pressure `point.z` on the point
appended last; the point before the last one carries exactly `w1`. -/
theorem width_interpolation (env : Env) (point endPoint : Point) (h : StrokeHandler)
    (s : Stroke) (hs : h.stroke = some s) (hl : s.points.getLast? = some endPoint)
    (hT : 0 < env.PIXEL_MOTION_THRESHOLD)
    (hd : env.PIXEL_MOTION_THRESHOLD ≤ env.lineLengthTo point endPoint)
    (hp : h.hasPressure = true) (hz : endPoint.z ≠ env.NO_PRESSURE)
    (hw : MAX_WIDTH_VARIATION < |(point.z - endPoint.z) * s.width|) :
    ∃ s' : Stroke, (paintTo env point h).stroke = some s' ∧
      s'.points.map Point.z =
        s.points.dropLast.map Point.z ++
          ((List.range
              (nbSteps env ((point.z - endPoint.z) * s.width)
                (env.lineLengthTo point endPoint)).toNat).map fun j : Nat =>
            endPoint.z * s.width +
              ((j : ℚ) + 1) * (point.z * s.width - endPoint.z * s.width) /
                (nbSteps env ((point.z - endPoint.z) * s.width)
                  (env.lineLengthTo point endPoint) : ℚ)) ++
          [point.z] ∧
      s'.points.dropLast.getLast?.map Point.z = some (point.z * s.width) := by
  obtain ⟨m, hm⟩ := nbSteps_eq_succ env _ _ hT hd hw
  have hpts := paintTo_subdividing_points env point endPoint h s hs hl hd hp hz hw m hm
  refine ⟨_, hpts, ?_, ?_⟩
  · have ht : ((m : Int) + 1).toNat = m + 1 := by omega
    have hq : (((m : Int) + 1 : Int) : ℚ) = (m : ℚ) + 1 := by push_cast; rfl
    simp only [hm, ht, hq, List.map_append, List.map_map, List.map_singleton, increment,
      stepLength]
    congr 2
    apply List.map_congr_left
    intro j _
    simp only [Function.comp]
    ring
  · have hq : (((m : Int) + 1 : Int) : ℚ) = (m : ℚ) + 1 := by push_cast; rfl
    have hne : ((m : ℚ) + 1) ≠ 0 := by positivity
    simp only [List.dropLast_concat, List.range_succ, List.map_append, List.map_singleton,
      ← List.append_assoc, List.getLast?_concat, Option.map_some', increment, stepLength, hm, hq]
    congr 1
    field_simp
    ring

/-- Witness for C22: the sample stroke, subdivided into two steps. -/
theorem width_interpolation_witness :
    ∃ s' : Stroke, (paintTo Example.env Example.farther Example.inked).stroke = some s' ∧
      s'.points.map Point.z =
        Example.inkedStroke.points.dropLast.map Point.z ++
          ((List.range
              (nbSteps Example.env
                ((Example.farther.z - Example.inkedEnd.z) * Example.inkedStroke.width)
                (Example.env.lineLengthTo Example.farther Example.inkedEnd)).toNat).map
            fun j : Nat =>
              Example.inkedEnd.z * Example.inkedStroke.width +
                ((j : ℚ) + 1) *
                    (Example.farther.z * Example.inkedStroke.width -
                      Example.inkedEnd.z * Example.inkedStroke.width) /
                  (nbSteps Example.env
                    ((Example.farther.z - Example.inkedEnd.z) * Example.inkedStroke.width)
                    (Example.env.lineLengthTo Example.farther Example.inkedEnd) : ℚ)) ++
          [Example.farther.z] ∧
      s'.points.dropLast.getLast?.map Point.z =
        some (Example.farther.z * Example.inkedStroke.width) :=
  width_interpolation Example.env Example.farther Example.inkedEnd Example.inked
    Example.inkedStroke rfl rfl (by norm_num [Example.env])
    (by rw [example_distance]; norm_num [Example.env]) rfl
    (by norm_num [Example.inkedEnd, Example.env])
    (by rw [example_widthDelta]; norm_num [MAX_WIDTH_VARIATION])

theorem setLastPressure_positions (s : Stroke) (z : ℚ) :
    (s.setLastPressure z).points.map Point.position = s.points.map Point.position := by
  cases hl : s.points.getLast? with
  | none => simp [Stroke.setLastPressure, hl]
  | some e =>
    rw [setLastPressure_points s z _ _ (points_of_getLast hl)]
    conv_rhs => rw [points_of_getLast hl]
    simp [Point.position]

theorem drawSegmentTo_positions (env : Env) (p : Point) (h : StrokeHandler) (s : Stroke)
    (hs : h.stroke = some s) :
    ∃ s' : Stroke, (drawSegmentTo env p h).stroke = some s' ∧
      s'.points.map Point.position = s.points.map Point.position ++ [(p.x, p.y)] := by
  refine ⟨_, by simp only [drawSegmentTo, hs]; rfl, ?_⟩
  by_cases hp : h.hasPressure = true <;> simp [Stroke.addPoint, Point.position, hp]

theorem paintTo_plain_positions (env : Env) (point : Point) (h : StrokeHandler) (s : Stroke)
    (hs : h.stroke = some s)
    (hmove : ∀ e, s.points.getLast? = some e →
      env.PIXEL_MOTION_THRESHOLD ≤ env.lineLengthTo point e)
    (hplain : ∀ e, s.points.getLast? = some e →
      ¬ (h.hasPressure = true ∧ e.z ≠ env.NO_PRESSURE ∧
        MAX_WIDTH_VARIATION < |(point.z - e.z) * s.width|)) :
    ∃ s' : Stroke, (paintTo env point h).stroke = some s' ∧
      s'.points.map Point.position = s.points.map Point.position ++ [(point.x, point.y)] := by
  have hset : ∀ z, ∃ s' : Stroke,
      (drawSegmentTo env point (StrokeHandler.setLastPressure z h)).stroke = some s' ∧
        s'.points.map Point.position = s.points.map Point.position ++ [(point.x, point.y)] := by
    intro z
    obtain ⟨s', h1, h2⟩ := drawSegmentTo_positions env point _ _ (setLastPressure_stroke z h s hs).1
    exact ⟨s', h1, by rw [h2, setLastPressure_positions]⟩
  cases hl : s.points.getLast? with
  | none =>
    simp only [paintTo, hs, hl]
    exact drawSegmentTo_positions env point h s hs
  | some e =>
    have hnd : ¬ env.lineLengthTo point e < env.PIXEL_MOTION_THRESHOLD := not_lt.mpr (hmove e hl)
    simp only [paintTo, hs, hl, hnd, if_false]
    split_ifs with hp hz hw
    · exact absurd ⟨hp, hz, (abs_gt_iff_or _ _).mpr hw⟩ (hplain e hl)
    · exact hset _
    · exact hset _
    · exact drawSegmentTo_positions env point h s hs

/-- C23. Position interpolation: after a `paintTo(point)` call that the
motion threshold does not skip (positive threshold, last point `endPoint` of the
stroke at least the threshold away), the last point of the stroke has the `x`
and `y` of `point` and the points present before keep their positions; when the
call subdivides into `n = nbSteps` steps the positions are those of before,
then `endPoint + (k / n) * (point − endPoint)` for `k = 1, …, n − 1`, then the
position of `point`. -/
theorem position_interpolation (env : Env) (point endPoint : Point) (h : StrokeHandler)
    (s : Stroke) (hs : h.stroke = some s) (hl : s.points.getLast? = some endPoint)
    (hT : 0 < env.PIXEL_MOTION_THRESHOLD)
    (hd : env.PIXEL_MOTION_THRESHOLD ≤ env.lineLengthTo point endPoint) :
    ∃ s' : Stroke, (paintTo env point h).stroke = some s' ∧
      (s'.points.map Point.position).getLast? = some (point.x, point.y) ∧
      (s'.points.map Point.position).take s.points.length = s.points.map Point.position ∧
      (h.hasPressure = true → endPoint.z ≠ env.NO_PRESSURE →
        MAX_WIDTH_VARIATION < |(point.z - endPoint.z) * s.width| →
        s'.points.map Point.position =
          s.points.map Point.position ++
            ((List.range
                ((nbSteps env ((point.z - endPoint.z) * s.width)
                  (env.lineLengthTo point endPoint)).toNat - 1)).map fun j : Nat =>
              (endPoint.x +
                  ((j : ℚ) + 1) /
                      (nbSteps env ((point.z - endPoint.z) * s.width)
                        (env.lineLengthTo point endPoint) : ℚ) *
                    (point.x - endPoint.x),
                endPoint.y +
                  ((j : ℚ) + 1) /
                      (nbSteps env ((point.z - endPoint.z) * s.width)
                        (env.lineLengthTo point endPoint) : ℚ) *
                    (point.y - endPoint.y))) ++
            [(point.x, point.y)]) := by
  have key : h.hasPressure = true → endPoint.z ≠ env.NO_PRESSURE →
      MAX_WIDTH_VARIATION < |(point.z - endPoint.z) * s.width| →
      ∃ s' : Stroke, (paintTo env point h).stroke = some s' ∧
        s'.points.map Point.position =
          s.points.map Point.position ++
            ((List.range
                ((nbSteps env ((point.z - endPoint.z) * s.width)
                  (env.lineLengthTo point endPoint)).toNat - 1)).map fun j : Nat =>
              (endPoint.x +
                  ((j : ℚ) + 1) /
                      (nbSteps env ((point.z - endPoint.z) * s.width)
                        (env.lineLengthTo point endPoint) : ℚ) *
                    (point.x - endPoint.x),
                endPoint.y +
                  ((j : ℚ) + 1) /
                      (nbSteps env ((point.z - endPoint.z) * s.width)
                        (env.lineLengthTo point endPoint) : ℚ) *
                    (point.y - endPoint.y))) ++
            [(point.x, point.y)] := by
    intro hp hz hw
    obtain ⟨m, hm⟩ := nbSteps_eq_succ env _ _ hT hd hw
    have hpts := paintTo_subdividing_points env point endPoint h s hs hl hd hp hz hw m hm
    refine ⟨_, hpts, ?_⟩
    have ht : ((m : Int) + 1).toNat - 1 = m := by omega
    have hq : (((m : Int) + 1 : Int) : ℚ) = (m : ℚ) + 1 := by push_cast; rfl
    conv_rhs => rw [points_of_getLast hl]
    simp only [hm, ht, hq, List.map_append, List.map_map, List.map_singleton, increment,
      stepLength, map_range_succ_head, List.append_assoc, List.singleton_append]
    congr 1
    simp only [Function.comp, Point.position, Nat.cast_zero, zero_mul, add_zero, Nat.cast_add,
      Nat.cast_one, List.map_cons, List.map_map]
    congr 2
    apply List.map_congr_left
    intro j _
    simp only [Function.comp, Point.position]
    congr 1 <;> ring
  have hsame : ∀ e, s.points.getLast? = some e → e = endPoint := fun e he => by
    rw [hl] at he
    exact (Option.some.inj he).symm
  have gen : ∃ s' : Stroke, ∃ added : List (ℚ × ℚ), (paintTo env point h).stroke = some s' ∧
      s'.points.map Point.position =
        s.points.map Point.position ++ added ++ [(point.x, point.y)] := by
    by_cases hc : h.hasPressure = true ∧ endPoint.z ≠ env.NO_PRESSURE ∧
        MAX_WIDTH_VARIATION < |(point.z - endPoint.z) * s.width|
    · obtain ⟨s', h1, h2⟩ := key hc.1 hc.2.1 hc.2.2
      exact ⟨s', _, h1, h2⟩
    · obtain ⟨s', h1, h2⟩ := paintTo_plain_positions env point h s hs
        (fun e he => by rw [hsame e he]; exact hd) (fun e he => by rw [hsame e he]; exact hc)
      exact ⟨s', [], h1, by rw [h2, List.append_nil]⟩
  obtain ⟨s', added, h1, h2⟩ := gen
  refine ⟨s', h1, ?_, ?_, ?_⟩
  · rw [h2, List.getLast?_concat]
  · rw [h2, List.append_assoc, List.take_left']
    simp
  · intro hp hz hw
    obtain ⟨s'', h1', h2'⟩ := key hp hz hw
    rw [h1] at h1'
    cases h1'
    exact h2'

/-- Witness for C23: the sample stroke, to which a point two thresholds away
is painted, the call subdividing into two steps. -/
theorem position_interpolation_witness :
    ∃ s' : Stroke, (paintTo Example.env Example.farther Example.inked).stroke = some s' ∧
      (s'.points.map Point.position).getLast? = some (Example.farther.x, Example.farther.y) ∧
      (s'.points.map Point.position).take Example.inkedStroke.points.length =
        Example.inkedStroke.points.map Point.position ∧
      s'.points.map Point.position =
        Example.inkedStroke.points.map Point.position ++
          ((List.range
              ((nbSteps Example.env
                ((Example.farther.z - Example.inkedEnd.z) * Example.inkedStroke.width)
                (Example.env.lineLengthTo Example.farther Example.inkedEnd)).toNat - 1)).map
            fun j : Nat =>
              (Example.inkedEnd.x +
                  ((j : ℚ) + 1) /
                      (nbSteps Example.env
                        ((Example.farther.z - Example.inkedEnd.z) * Example.inkedStroke.width)
                        (Example.env.lineLengthTo Example.farther Example.inkedEnd) : ℚ) *
                    (Example.farther.x - Example.inkedEnd.x),
                Example.inkedEnd.y +
                  ((j : ℚ) + 1) /
                      (nbSteps Example.env
                        ((Example.farther.z - Example.inkedEnd.z) * Example.inkedStroke.width)
                        (Example.env.lineLengthTo Example.farther Example.inkedEnd) : ℚ) *
                    (Example.farther.y - Example.inkedEnd.y))) ++
          [(Example.farther.x, Example.farther.y)] :=
  (position_interpolation Example.env Example.farther Example.inkedEnd Example.inked
    Example.inkedStroke rfl rfl (by norm_num [Example.env])
    (by rw [example_distance]; norm_num [Example.env])).imp fun _ hx =>
      ⟨hx.1, hx.2.1, hx.2.2.1,
        hx.2.2.2 rfl (by norm_num [Example.inkedEnd, Example.env])
          (by rw [example_widthDelta]; norm_num [MAX_WIDTH_VARIATION])⟩

/-! ## The tag check and the names of the type codes -/

theorem drop_takeWhile_length (p : Nat → Bool) (l : List Nat) :
    l.drop (l.takeWhile p).length = l.dropWhile p :=
  (congrArg (fun x => x.drop (l.takeWhile p).length)
    (List.takeWhile_append_dropWhile p l)).symm.trans (List.drop_left' rfl)

theorem extractChar_some {s s' : IStringStream} {c : Nat}
    (h : s.extractChar = (some c, s')) :
    s.failed = false ∧
      s.avail = s.avail.takeWhile isSpace ++ c :: s.str.drop s'.gpos ∧
      s' = { s with gpos := s.gpos + (s.avail.takeWhile isSpace).length + 1 } := by
  unfold IStringStream.extractChar at h
  cases hf : s.failed with
  | true => simp [hf] at h
  | false =>
    rw [hf] at h
    simp only [Bool.false_eq_true, if_false] at h
    cases hg : s.str[s.gpos + (s.avail.takeWhile isSpace).length]? with
    | none => simp [hg] at h
    | some d =>
      simp only [hg, Prod.mk.injEq, Option.some.injEq] at h
      obtain ⟨hd, hs'⟩ := h
      subst hd
      refine ⟨rfl, ?_, hs'.symm⟩
      rw [← hs']
      have hlt := (List.getElem?_eq_some_iff.mp hg).1
      have hdrop : s.str.drop (s.gpos + (s.avail.takeWhile isSpace).length) =
          d :: s.str.drop (s.gpos + (s.avail.takeWhile isSpace).length + 1) := by
        rw [List.drop_eq_getElem_cons hlt, (List.getElem?_eq_some_iff.mp hg).2]
      have hdw : s.avail.dropWhile isSpace =
          d :: s.str.drop (s.gpos + (s.avail.takeWhile isSpace).length + 1) := by
        rw [← drop_takeWhile_length, ← hdrop]
        simp only [IStringStream.avail, List.drop_drop]
      conv_lhs => rw [← List.takeWhile_append_dropWhile isSpace s.avail, hdw]

theorem takeWhile_isSpace (l : List Nat) : ∀ c ∈ l.takeWhile isSpace, isSpace c = true :=
  fun _ hc => (List.mem_takeWhile_imp hc)

/-- What `checkType` has consumed when it returns for a type code other than
the null character: white space, the underscore, white space again, and the
type code; the cursor has advanced by two plus the white space skipped. -/
theorem checkType_ok_consumed (type : Nat) (o o' : ObjectInputStream) (h0 : type ≠ 0)
    (h : checkType type o = (.ok (), o')) :
    ∃ w1 w2 : List Nat, (∀ c ∈ w1, isSpace c = true) ∧ (∀ c ∈ w2, isSpace c = true) ∧
      o.istream.avail = w1 ++ 95 :: (w2 ++ type :: o'.istream.avail) ∧
      o'.istream.gpos = o.istream.gpos + w1.length + w2.length + 2 ∧
      o'.istream.str = o.istream.str ∧ o'.istream.failed = false ∧ o'.len = o.len := by
  rcases h1 : o.istream.extractChar with ⟨c1, s1⟩
  rcases h2 : s1.extractChar with ⟨c2, s2⟩
  by_cases hlen : o.istream.str.length < 2
  · simp [checkType, hlen] at h
  by_cases hu : c1.getD 0 = 95
  swap
  · simp [checkType, hlen, h1, h2, hu] at h
  by_cases ht : c2.getD 0 = type
  swap
  · simp [checkType, hlen, h1, h2, hu, ht] at h
  simp only [checkType, hlen, h1, h2, hu, ht, if_false, ne_eq, not_true_eq_false,
    Prod.mk.injEq, true_and] at h
  subst h
  cases c1 with
  | none => simp at hu
  | some u =>
    cases c2 with
    | none => simp at ht; exact absurd ht.symm h0
    | some t =>
      simp only [Option.getD_some] at hu ht
      subst hu ht
      obtain ⟨f1, a1, e1⟩ := extractChar_some h1
      obtain ⟨f2, a2, e2⟩ := extractChar_some h2
      have hstr : s1.str = o.istream.str := by rw [e1]
      have hstr2 : s2.str = o.istream.str := by rw [e2, hstr]
      refine ⟨o.istream.avail.takeWhile isSpace, s1.avail.takeWhile isSpace,
        takeWhile_isSpace _, takeWhile_isSpace _, ?_, ?_, hstr2, ?_, rfl⟩
      · have hs1 : s1.avail = o.istream.str.drop s1.gpos := by
          simp only [IStringStream.avail, hstr]
        have hs2 : s2.avail = s1.str.drop s2.gpos := by
          simp only [IStringStream.avail, hstr, hstr2]
        show o.istream.avail = _ ++ 95 :: (_ ++ t :: s2.avail)
        rw [hs2, ← a2, hs1]
        exact a1
      · show s2.gpos = _
        rw [e2]
        show s1.gpos + _ + 1 = _
        have hg : s1.gpos = o.istream.gpos + (o.istream.avail.takeWhile isSpace).length + 1 := by
          rw [e1]
        omega
      · show s2.failed = false
        rw [e2]
        exact f2

/-- C24 (evaluation at the failing inputs). With white space before the tag,
or between the underscore and the type code, `checkType` returns without
raising although the two bytes at the cursor are not the tag, and the cursor
has advanced by three bytes, or by five, not by two. -/
theorem checkType_advances_past_white_space :
    ([32, 95, 105].take 2 ≠ tag 105 ∧
      checkType 105 (at_ [32, 95, 105] 0) = (.ok (), at_ [32, 95, 105] 3)) ∧
    ([95, 32, 105].take 2 ≠ tag 105 ∧
      checkType 105 (at_ [95, 32, 105] 0) = (.ok (), at_ [95, 32, 105] 3)) ∧
    (([95, 105, 7, 0, 0, 0, 10, 95, 9, 13, 115, 0, 0, 0, 0].drop 6).take 2 ≠ tag 115 ∧
      checkType 115 (at_ [95, 105, 7, 0, 0, 0, 10, 95, 9, 13, 115, 0, 0, 0, 0] 6) =
        (.ok (), at_ [95, 105, 7, 0, 0, 0, 10, 95, 9, 13, 115, 0, 0, 0, 0] 11)) :=
  ⟨⟨by decide, by decide⟩, ⟨by decide, by decide⟩, ⟨by decide, by decide⟩⟩

theorem getType_unknown (c : Nat) (h : c ∉ [123, 125, 105, 100, 115, 98, 109]) :
    ∃ rest : String, getType c = "Unknown type" ++ rest := by
  simp only [List.mem_cons, List.mem_singleton, List.not_mem_nil, or_false, not_or] at h
  obtain ⟨h1, h2, h3, h4, h5, h6, h7⟩ := h
  by_cases h0 : c = 0
  · refine ⟨": " ++ hex2 c ++ " (", ?_⟩
    simp only [getType, h1, h2, h3, h4, h5, h6, h7, h0, if_false, if_true]
    rfl
  · refine ⟨": " ++ hex2 c ++ " (" ++ String.singleton (Char.ofNat c) ++ ")", ?_⟩
    simp only [getType, h1, h2, h3, h4, h5, h6, h7, h0, if_false]
    simp only [String.append_assoc]
    rfl

theorem getType_known (c : Nat) (h : c ∈ [123, 125, 105, 100, 115, 98, 109]) (rest : String) :
    getType c ≠ "Unknown type" ++ rest := by
  intro he
  have hd := congrArg (fun x : String => x.data.head?) he
  have hu : ("Unknown type" ++ rest).data.head? = some 'U' := by
    rw [String.data_append]
    rfl
  simp only [hu] at hd
  simp only [List.mem_cons, List.mem_singleton, List.not_mem_nil, or_false] at h
  rcases h with h | h | h | h | h | h | h <;> subst h <;> revert hd <;> decide

/-- C25 (evaluation at the failing input). The type code `l` of the size
word, the one `readSizeT` checks for, has no name: `getType` answers with the
text for an unknown type, and that text is what `readSizeT` reports as expected
when it finds another tag.  `getType` gives a text beginning with
`Unknown type` exactly for the codes other than the seven it names, and the
seven names differ from one another. -/
theorem getType_misses_size_word :
    getType 108 = "Unknown type: 6c (l)" ∧
    (∀ junk : Nat → Nat,
      (readSizeT junk (at_ [95, 105, 7, 0, 0, 0] 0)).1 =
        .error (.inputStreamException (.expectedButRead "Unknown type: 6c (l)" "Number"))) ∧
    (∀ c : Nat, (∃ rest : String, getType c = "Unknown type" ++ rest) ↔
      c ∉ [123, 125, 105, 100, 115, 98, 109]) ∧
    [123, 125, 105, 100, 115, 98, 109].map getType =
      ["Object begin", "Object end", "Number", "Floating point", "String", "Binary", "Image"] := by
  refine ⟨by decide, ?_, ?_, by decide⟩
  · intro junk
    have hc : checkType 108 (at_ [95, 105, 7, 0, 0, 0] 0) =
        (.error (.inputStreamException (.expectedButRead "Unknown type: 6c (l)" "Number")),
          at_ [95, 105, 7, 0, 0, 0] 2) := by decide
    simp only [readSizeT, hc]
  · intro c
    constructor
    · rintro ⟨rest, hr⟩ hc
      exact getType_known c hc rest hr
    · intro hc
      exact getType_unknown c hc

/-! ## Rounding to double -/

theorem roundHalfEven_floor_le (q : ℚ) : ⌊q⌋ ≤ roundHalfEven q := by
  unfold roundHalfEven
  split_ifs <;> omega

theorem roundHalfEven_sub_le (q : ℚ) : |(roundHalfEven q : ℚ) - q| ≤ 1 / 2 := by
  have h1 := Int.floor_le q
  have h2 := Int.lt_floor_add_one q
  unfold roundHalfEven
  rw [abs_le]
  split_ifs with ha hb hc
  · constructor <;> linarith
  · push_cast; constructor <;> linarith
  · push_neg at ha hb
    constructor <;> linarith
  · push_neg at ha hb
    push_cast; constructor <;> linarith

theorem roundHalfEven_eq (q : ℚ) (m : Int) (h : |q - m| < 1 / 2) : roundHalfEven q = m := by
  rw [abs_lt] at h
  have hf : ⌊q⌋ = m ∨ ⌊q⌋ = m - 1 := by
    have h1 : m - 1 ≤ ⌊q⌋ := Int.le_floor.mpr (by push_cast; linarith)
    have h2 : ⌊q⌋ < m + 1 := Int.floor_lt.mpr (by push_cast; linarith)
    omega
  unfold roundHalfEven
  rcases hf with hf | hf
  · have : q - ⌊q⌋ < 1 / 2 := by rw [hf]; linarith
    rw [if_pos this, hf]
  · have h3 : ¬ q - ⌊q⌋ < 1 / 2 := by rw [hf]; push_cast; linarith
    have h4 : 1 / 2 < q - ⌊q⌋ := by rw [hf]; push_cast; linarith
    rw [if_neg h3, if_pos h4, hf]
    omega

theorem ulpExponent_eq (x : ℚ) (e : Int) (he : -1022 ≤ e) (h1 : 2 ^ e ≤ |x|)
    (h2 : |x| < 2 ^ (e + 1)) : ulpExponent x = e - 52 := by
  have hpos : 0 < |x| := lt_of_lt_of_le (by positivity) h1
  have ha : e ≤ Int.log 2 |x| := (Int.zpow_le_iff_le_log (by norm_num) hpos).mp (by exact_mod_cast h1)
  have hb : Int.log 2 |x| < e + 1 := (Int.lt_zpow_iff_log_lt (by norm_num) hpos).mp (by exact_mod_cast h2)
  unfold ulpExponent
  omega

theorem roundToDouble_eq (x : ℚ) (e m : Int) (he : -1022 ≤ e) (h1 : 2 ^ e ≤ |x|)
    (h2 : |x| < 2 ^ (e + 1)) (hm : |x / 2 ^ (e - 52) - m| < 1 / 2) :
    roundToDouble x = m * 2 ^ (e - 52) := by
  unfold roundToDouble
  rw [ulpExponent_eq x e he h1 h2, roundHalfEven_eq _ m hm]

theorem roundToDouble_zero : roundToDouble 0 = 0 := by
  simp [roundToDouble, roundHalfEven]

theorem roundToDouble_sub_le (x : ℚ) :
    |roundToDouble x - x| ≤ 2 ^ ulpExponent x / 2 := by
  have hp : (0 : ℚ) < 2 ^ ulpExponent x := by positivity
  have h := roundHalfEven_sub_le (x / 2 ^ ulpExponent x)
  have e1 : roundToDouble x - x =
      ((roundHalfEven (x / 2 ^ ulpExponent x) : ℚ) - x / 2 ^ ulpExponent x) * 2 ^ ulpExponent x := by
    unfold roundToDouble
    field_simp
  rw [e1, abs_mul, abs_of_pos hp]
  calc |(roundHalfEven (x / 2 ^ ulpExponent x) : ℚ) - x / 2 ^ ulpExponent x| * 2 ^ ulpExponent x
      ≤ 1 / 2 * 2 ^ ulpExponent x := mul_le_mul_of_nonneg_right h hp.le
    _ = 2 ^ ulpExponent x / 2 := by ring

theorem two_pow_mul_zpow (e : Int) : ((2 ^ 52 : Int) : ℚ) * 2 ^ (e - 52) = 2 ^ e := by
  rw [zpow_sub₀ (by norm_num : (2 : ℚ) ≠ 0)]
  push_cast
  field_simp
  norm_num
  ring

theorem ulpExponent_of_one_le (x : ℚ) (h : 1 ≤ x) :
    ulpExponent x = Int.log 2 x - 52 ∧ 0 ≤ Int.log 2 x ∧ (2 : ℚ) ^ Int.log 2 x ≤ x := by
  have hpos : 0 < x := lt_of_lt_of_le one_pos h
  have h0 : 0 ≤ Int.log 2 x :=
    (Int.zpow_le_iff_le_log (by norm_num) hpos).mp (by simpa using h)
  have h1 : (2 : ℚ) ^ Int.log 2 x ≤ x := by
    have := Int.zpow_log_le_self (b := 2) (r := x) (by norm_num) hpos
    exact_mod_cast this
  refine ⟨?_, h0, h1⟩
  unfold ulpExponent
  rw [abs_of_pos hpos]
  omega

theorem one_le_roundToDouble (x : ℚ) (h : 1 ≤ x) : 1 ≤ roundToDouble x := by
  obtain ⟨hu, h0, h1⟩ := ulpExponent_of_one_le x h
  have hq : (0 : ℚ) < 2 ^ (Int.log 2 x - 52) := by positivity
  have hy : ((2 ^ 52 : Int) : ℚ) ≤ x / 2 ^ (Int.log 2 x - 52) := by
    rw [le_div_iff₀ hq]
    rw [two_pow_mul_zpow]
    exact h1
  have hr : (2 ^ 52 : Int) ≤ roundHalfEven (x / 2 ^ (Int.log 2 x - 52)) :=
    (Int.le_floor.mpr hy).trans (roundHalfEven_floor_le _)
  have hr' : ((2 ^ 52 : Int) : ℚ) ≤ (roundHalfEven (x / 2 ^ (Int.log 2 x - 52)) : ℚ) :=
    Int.cast_le.mpr hr
  unfold roundToDouble
  rw [hu]
  calc (1 : ℚ) ≤ 2 ^ Int.log 2 x := one_le_zpow₀ (by norm_num) h0
    _ = ((2 ^ 52 : Int) : ℚ) * 2 ^ (Int.log 2 x - 52) := (two_pow_mul_zpow _).symm
    _ ≤ _ := mul_le_mul_of_nonneg_right hr' hq.le

theorem roundToDouble_lower (x : ℚ) (h : 1 ≤ x) : x * (1 - 1 / 2 ^ 53) ≤ roundToDouble x := by
  obtain ⟨hu, h0, h1⟩ := ulpExponent_of_one_le x h
  have he := roundToDouble_sub_le x
  rw [hu, abs_le] at he
  have hz : (2 : ℚ) ^ (Int.log 2 x - 52) / 2 = 2 ^ Int.log 2 x / 2 ^ 53 := by
    rw [zpow_sub₀ (by norm_num : (2 : ℚ) ≠ 0)]
    norm_num
    ring
  have hle : (2 : ℚ) ^ Int.log 2 x / 2 ^ 53 ≤ x / 2 ^ 53 :=
    div_le_div_of_nonneg_right h1 (by positivity)
  have := he.1
  rw [hz] at this
  linarith

theorem MAX_WIDTH_VARIATION_double :
    Double.MAX_WIDTH_VARIATION = 5404319552844595 / 2 ^ 54 := by
  unfold Double.MAX_WIDTH_VARIATION
  rw [roundToDouble_eq (3 / 10) (-2) 5404319552844595 (by norm_num) (by norm_num [abs_of_pos])
    (by norm_num [abs_of_pos]) (by norm_num [abs_lt])]
  norm_num

/-! ## Painting in double arithmetic -/

theorem subdivide_frame_double (env : Env) (inc : Point) (n : Nat) :
    ∀ (e : Point) (h : StrokeHandler), Frame h (Double.subdivide env inc n e h) := by
  induction n with
  | zero => intro e h; exact frame_refl h
  | succ n ih =>
    intro e h
    exact frame_trans (drawSegmentTo_frame env _ h) (ih _ _)

theorem paintTo_frame_double (env : Env) (p : Point) (h : StrokeHandler) :
    Frame h (Double.paintTo env p h) := by
  unfold Double.paintTo
  cases hs : h.stroke with
  | none => exact frame_refl h
  | some s =>
    dsimp only
    cases hl : s.points.getLast? with
    | none => exact drawSegmentTo_frame env p h
    | some e =>
      dsimp only
      split_ifs
      · exact frame_refl h
      · exact frame_trans (frame_trans (frame_trans (setLastPressure_frame _ h)
          (subdivide_frame_double env _ _ _ _)) (setLastPressure_frame _ _))
          (drawSegmentTo_frame env p _)
      · exact frame_trans (setLastPressure_frame _ h) (drawSegmentTo_frame env p _)
      · exact frame_trans (setLastPressure_frame _ h) (drawSegmentTo_frame env p _)
      · exact drawSegmentTo_frame env p h

theorem paintAll_frame_double (env : Env) (ps : List Point) :
    ∀ h : StrokeHandler, Frame h (Double.paintAll env ps h) := by
  induction ps with
  | nil => intro h; exact frame_refl h
  | cons p ps ih =>
    intro h
    exact frame_trans (paintTo_frame_double env p h) (ih _)

theorem finalizeStroke_frame_double (env : Env) (flush : List Point) (h : StrokeHandler) :
    Frame h (Double.finalizeStroke env flush h) := by
  unfold Double.finalizeStroke
  exact frame_trans (b := { h with stabilizerCalls := h.stabilizerCalls ++ [StabilizerCall.finalizeStroke] })
    ⟨rfl, rfl⟩ (paintAll_frame_double env flush _)

theorem subdivide_count_double (env : Env) (inc : Point) (n : Nat) :
    ∀ (e : Point) (h : StrokeHandler), h.stroke.isSome = true →
      (Double.subdivide env inc n e h).getPointCount = h.getPointCount + n := by
  induction n with
  | zero => intro e h _; rfl
  | succ n ih =>
    intro e h hs
    have hs' : (drawSegmentTo env (Double.advance inc e) h).stroke.isSome = true := by
      rw [(drawSegmentTo_frame env _ h).2]; exact hs
    simp only [Double.subdivide]
    rw [ih _ _ hs', drawSegmentTo_count env _ h hs]
    omega

theorem nbSteps_pos_double (env : Env) (widthDelta distance : ℚ)
    (hT : 0 < env.PIXEL_MOTION_THRESHOLD) (hd : env.PIXEL_MOTION_THRESHOLD ≤ distance)
    (hw : Double.MAX_WIDTH_VARIATION < |widthDelta|) :
    1 ≤ Double.nbSteps env widthDelta distance := by
  have hM : (0 : ℚ) < Double.MAX_WIDTH_VARIATION := by
    rw [MAX_WIDTH_VARIATION_double]; norm_num
  unfold Double.nbSteps Double.div
  apply le_min
  · have h1 : (1 : ℚ) ≤ |widthDelta| / Double.MAX_WIDTH_VARIATION := by
      rw [le_div_iff₀ hM, one_mul]; exact hw.le
    exact Int.one_le_ceil_iff.mpr (lt_of_lt_of_le one_pos (one_le_roundToDouble _ h1))
  · have h1 : (1 : ℚ) ≤ distance / env.PIXEL_MOTION_THRESHOLD := by
      rw [le_div_iff₀ hT, one_mul]; exact hd
    apply Int.le_floor.mpr
    rw [Int.cast_one]
    exact one_le_roundToDouble _ h1

theorem paintTo_subdividing_eq_double (env : Env) (point endPoint : Point) (h : StrokeHandler)
    (s : Stroke) (hs : h.stroke = some s) (hl : s.points.getLast? = some endPoint)
    (hd : env.PIXEL_MOTION_THRESHOLD ≤ env.lineLengthTo point endPoint)
    (hp : h.hasPressure = true) (hz : endPoint.z ≠ env.NO_PRESSURE)
    (hw : Double.MAX_WIDTH_VARIATION < |Double.widthDelta point endPoint s.width|) :
    Double.paintTo env point h =
      drawSegmentTo env point
        (StrokeHandler.setLastPressure (Double.mul point.z s.width)
          (Double.subdivide env
            (Double.increment point endPoint s.width
              (Double.nbSteps env (Double.widthDelta point endPoint s.width)
                (env.lineLengthTo point endPoint)))
            (Double.nbSteps env (Double.widthDelta point endPoint s.width)
              (env.lineLengthTo point endPoint) - 1).toNat
            (Double.startPoint point endPoint s.width
              (Double.nbSteps env (Double.widthDelta point endPoint s.width)
                (env.lineLengthTo point endPoint)))
            (StrokeHandler.setLastPressure
              (Double.startPoint point endPoint s.width
                (Double.nbSteps env (Double.widthDelta point endPoint s.width)
                  (env.lineLengthTo point endPoint))).z h))) := by
  have hnd : ¬ env.lineLengthTo point endPoint < env.PIXEL_MOTION_THRESHOLD := not_lt.mpr hd
  have hor := (abs_gt_iff_or _ _).mp hw
  simp only [Double.paintTo, hs, hl, hnd, if_false, hp, if_true, hz, ne_eq, not_false_eq_true,
    hor, Double.startPoint]

theorem paintTo_subdividing_count_double (env : Env) (point endPoint : Point)
    (h : StrokeHandler) (s : Stroke) (hs : h.stroke = some s)
    (hl : s.points.getLast? = some endPoint) (hT : 0 < env.PIXEL_MOTION_THRESHOLD)
    (hd : env.PIXEL_MOTION_THRESHOLD ≤ env.lineLengthTo point endPoint)
    (hp : h.hasPressure = true) (hz : endPoint.z ≠ env.NO_PRESSURE)
    (hw : Double.MAX_WIDTH_VARIATION < |Double.widthDelta point endPoint s.width|) :
    ((Double.paintTo env point h).getPointCount : Int) =
      (h.getPointCount : Int) +
        Double.nbSteps env (Double.widthDelta point endPoint s.width)
          (env.lineLengthTo point endPoint) := by
  have hsome : h.stroke.isSome = true := by rw [hs]; rfl
  have hsl : ∀ z, (StrokeHandler.setLastPressure z h).stroke.isSome = true := fun z => by
    rw [(setLastPressure_frame z h).2]; exact hsome
  have hn := nbSteps_pos_double env _ _ hT hd hw
  rw [paintTo_subdividing_eq_double env point endPoint h s hs hl hd hp hz hw]
  rw [drawSegmentTo_count, setLastPressure_count, subdivide_count_double _ _ _ _ _ (hsl _),
    setLastPressure_count]
  · push_cast
    omega
  · rw [(setLastPressure_frame _ _).2, (subdivide_frame_double env _ _ _ _).2]
    exact hsl _

/-- C11. Number of points `paintTo(point)` appends to a stroke whose last
point is `endPoint`, as the program computes it in double arithmetic, for a
positive motion threshold, with `d` the distance from `endPoint` to `point` and
`Δw = (point.z − endPoint.z) * width`: none, the handler being unchanged, when
`d` is below the threshold; exactly
`min(⌈|Δw| / MAX_WIDTH_VARIATION⌉, ⌊d / PIXEL_MOTION_THRESHOLD⌋)`, the two
quotients being the doubles the program computes, when pressure is tracked,
`endPoint` carries a pressure and `|Δw|` exceeds the maximal variation; exactly
one in every other case. -/
theorem paintTo_pointCount_double (env : Env) (point endPoint : Point) (h : StrokeHandler)
    (s : Stroke) (hs : h.stroke = some s) (hl : s.points.getLast? = some endPoint)
    (hT : 0 < env.PIXEL_MOTION_THRESHOLD) :
    (env.lineLengthTo point endPoint < env.PIXEL_MOTION_THRESHOLD →
      Double.paintTo env point h = h) ∧
    (env.PIXEL_MOTION_THRESHOLD ≤ env.lineLengthTo point endPoint →
      h.hasPressure = true → endPoint.z ≠ env.NO_PRESSURE →
      Double.MAX_WIDTH_VARIATION < |Double.mul (Double.sub point.z endPoint.z) s.width| →
      ((Double.paintTo env point h).getPointCount : Int) =
        (h.getPointCount : Int) +
          min
            ⌈Double.div |Double.mul (Double.sub point.z endPoint.z) s.width|
              Double.MAX_WIDTH_VARIATION⌉
            ⌊Double.div (env.lineLengthTo point endPoint) env.PIXEL_MOTION_THRESHOLD⌋) ∧
    (env.PIXEL_MOTION_THRESHOLD ≤ env.lineLengthTo point endPoint →
      ¬ (h.hasPressure = true ∧ endPoint.z ≠ env.NO_PRESSURE ∧
        Double.MAX_WIDTH_VARIATION < |Double.mul (Double.sub point.z endPoint.z) s.width|) →
      (Double.paintTo env point h).getPointCount = h.getPointCount + 1) := by
  have hsome : h.stroke.isSome = true := by rw [hs]; rfl
  have hsl : ∀ z, (StrokeHandler.setLastPressure z h).stroke.isSome = true := fun z => by
    rw [(setLastPressure_frame z h).2]; exact hsome
  refine ⟨?_, ?_, ?_⟩
  · intro hd
    simp only [Double.paintTo, hs, hl, hd, if_true]
  · intro hd hp hz hw
    exact paintTo_subdividing_count_double env point endPoint h s hs hl hT hd hp hz hw
  · intro hd hnot
    have hnd : ¬ env.lineLengthTo point endPoint < env.PIXEL_MOTION_THRESHOLD := not_lt.mpr hd
    simp only [Double.paintTo, hs, hl, hnd, if_false]
    split_ifs with hp hz hw
    · exact absurd ⟨hp, hz, (abs_gt_iff_or _ _).mpr hw⟩ hnot
    · rw [drawSegmentTo_count _ _ _ (hsl _), setLastPressure_count]
    · rw [drawSegmentTo_count _ _ _ (hsl _), setLastPressure_count]
    · exact drawSegmentTo_count env point h hsome

/-! ## Sample roundings -/

theorem double_three_tenths : roundToDouble (3 / 10) = 5404319552844595 / 18014398509481984 := by
  rw [roundToDouble_eq (3 / 10) (-2) (5404319552844595) (by norm_num)
    (by rw [abs_of_pos (by norm_num)]; norm_num) (by rw [abs_of_pos (by norm_num)]; norm_num)
    (by rw [abs_lt]; constructor <;> norm_num)]
  norm_num

theorem double_three_point_six : roundToDouble (18 / 5) = 8106479329266893 / 2251799813685248 := by
  rw [roundToDouble_eq (18 / 5) (1) (8106479329266893) (by norm_num)
    (by rw [abs_of_pos (by norm_num)]; norm_num) (by rw [abs_of_pos (by norm_num)]; norm_num)
    (by rw [abs_lt]; constructor <;> norm_num)]
  norm_num

theorem double_six : roundToDouble (6) = 6 := by
  rw [roundToDouble_eq (6) (2) (6755399441055744) (by norm_num)
    (by rw [abs_of_pos (by norm_num)]; norm_num) (by rw [abs_of_pos (by norm_num)]; norm_num)
    (by rw [abs_lt]; constructor <;> norm_num)]
  norm_num

theorem double_neg_quarter : roundToDouble (-(1 / 4)) = -(1 / 4) := by
  rw [roundToDouble_eq (-(1 / 4)) (-2) (-4503599627370496) (by norm_num)
    (by rw [abs_of_neg (by norm_num)]; norm_num) (by rw [abs_of_neg (by norm_num)]; norm_num)
    (by rw [abs_lt]; constructor <;> norm_num)]
  norm_num

theorem double_soft_widthDelta : roundToDouble (-(8106479329266893 / 9007199254740992)) = -(8106479329266893 / 9007199254740992) := by
  rw [roundToDouble_eq (-(8106479329266893 / 9007199254740992)) (-1) (-8106479329266893) (by norm_num)
    (by rw [abs_of_neg (by norm_num)]; norm_num) (by rw [abs_of_neg (by norm_num)]; norm_num)
    (by rw [abs_lt]; constructor <;> norm_num)]
  norm_num

theorem double_soft_quotient : roundToDouble (16212958658533786 / 5404319552844595) = 3 := by
  rw [roundToDouble_eq (16212958658533786 / 5404319552844595) (1) (6755399441055744) (by norm_num)
    (by rw [abs_of_pos (by norm_num)]; norm_num) (by rw [abs_of_pos (by norm_num)]; norm_num)
    (by rw [abs_lt]; constructor <;> norm_num)]
  norm_num

theorem double_soft_steps : roundToDouble (108086391056891904 / 5404319552844595) = 20 := by
  rw [roundToDouble_eq (108086391056891904 / 5404319552844595) (4) (5629499534213120) (by norm_num)
    (by rw [abs_of_pos (by norm_num)]; norm_num) (by rw [abs_of_pos (by norm_num)]; norm_num)
    (by rw [abs_lt]; constructor <;> norm_num)]
  norm_num

theorem double_three_quarters : roundToDouble (3 / 4) = 3 / 4 := by
  rw [roundToDouble_eq (3 / 4) (-1) (6755399441055744) (by norm_num)
    (by rw [abs_of_pos (by norm_num)]; norm_num) (by rw [abs_of_pos (by norm_num)]; norm_num)
    (by rw [abs_lt]; constructor <;> norm_num)]
  norm_num

theorem double_wide_steps : roundToDouble (13510798882111488 / 5404319552844595) = 5 / 2 := by
  rw [roundToDouble_eq (13510798882111488 / 5404319552844595) (1) (5629499534213120) (by norm_num)
    (by rw [abs_of_pos (by norm_num)]; norm_num) (by rw [abs_of_pos (by norm_num)]; norm_num)
    (by rw [abs_lt]; constructor <;> norm_num)]
  norm_num

theorem double_three_eighths : roundToDouble (3 / 8) = 3 / 8 := by
  rw [roundToDouble_eq (3 / 8) (-2) (6755399441055744) (by norm_num)
    (by rw [abs_of_pos (by norm_num)]; norm_num) (by rw [abs_of_pos (by norm_num)]; norm_num)
    (by rw [abs_lt]; constructor <;> norm_num)]
  norm_num

theorem double_three : roundToDouble (3) = 3 := by
  rw [roundToDouble_eq (3) (1) (6755399441055744) (by norm_num)
    (by rw [abs_of_pos (by norm_num)]; norm_num) (by rw [abs_of_pos (by norm_num)]; norm_num)
    (by rw [abs_lt]; constructor <;> norm_num)]
  norm_num

theorem double_wide_quotient : roundToDouble (54043195528445952 / 5404319552844595) = 10 := by
  rw [roundToDouble_eq (54043195528445952 / 5404319552844595) (3) (5629499534213120) (by norm_num)
    (by rw [abs_of_pos (by norm_num)]; norm_num) (by rw [abs_of_pos (by norm_num)]; norm_num)
    (by rw [abs_lt]; constructor <;> norm_num)]
  norm_num

theorem double_half : roundToDouble (1 / 2) = 1 / 2 := by
  rw [roundToDouble_eq (1 / 2) (-1) (4503599627370496) (by norm_num)
    (by rw [abs_of_pos (by norm_num)]; norm_num) (by rw [abs_of_pos (by norm_num)]; norm_num)
    (by rw [abs_lt]; constructor <;> norm_num)]
  norm_num

theorem double_one : roundToDouble (1) = 1 := by
  rw [roundToDouble_eq (1) (0) (4503599627370496) (by norm_num)
    (by rw [abs_of_pos (by norm_num)]; norm_num) (by rw [abs_of_pos (by norm_num)]; norm_num)
    (by rw [abs_lt]; constructor <;> norm_num)]
  norm_num

theorem double_three_halves : roundToDouble (3 / 2) = 3 / 2 := by
  rw [roundToDouble_eq (3 / 2) (0) (6755399441055744) (by norm_num)
    (by rw [abs_of_pos (by norm_num)]; norm_num) (by rw [abs_of_pos (by norm_num)]; norm_num)
    (by rw [abs_lt]; constructor <;> norm_num)]
  norm_num

theorem double_five_halves : roundToDouble (5 / 2) = 5 / 2 := by
  rw [roundToDouble_eq (5 / 2) (1) (5629499534213120) (by norm_num)
    (by rw [abs_of_pos (by norm_num)]; norm_num) (by rw [abs_of_pos (by norm_num)]; norm_num)
    (by rw [abs_lt]; constructor <;> norm_num)]
  norm_num

theorem double_ninety_one_eighths : roundToDouble (91 / 8) = 91 / 8 := by
  rw [roundToDouble_eq (91 / 8) (3) (6403555720167424) (by norm_num)
    (by rw [abs_of_pos (by norm_num)]; norm_num) (by rw [abs_of_pos (by norm_num)]; norm_num)
    (by rw [abs_lt]; constructor <;> norm_num)]
  norm_num

theorem double_twenty : roundToDouble (20) = 20 := by
  rw [roundToDouble_eq (20) (4) (5629499534213120) (by norm_num)
    (by rw [abs_of_pos (by norm_num)]; norm_num) (by rw [abs_of_pos (by norm_num)]; norm_num)
    (by rw [abs_lt]; constructor <;> norm_num)]
  norm_num

theorem double_four : roundToDouble (4) = 4 := by
  rw [roundToDouble_eq (4) (2) (4503599627370496) (by norm_num)
    (by rw [abs_of_pos (by norm_num)]; norm_num) (by rw [abs_of_pos (by norm_num)]; norm_num)
    (by rw [abs_lt]; constructor <;> norm_num)]
  norm_num

theorem double_twenty_thirds : roundToDouble (20 / 3) = 7505999378950827 / 1125899906842624 := by
  rw [roundToDouble_eq (20 / 3) (2) (7505999378950827) (by norm_num)
    (by rw [abs_of_pos (by norm_num)]; norm_num) (by rw [abs_of_pos (by norm_num)]; norm_num)
    (by rw [abs_lt]; constructor <;> norm_num)]
  norm_num

theorem double_forty_thirds : roundToDouble (40 / 3) = 7505999378950827 / 562949953421312 := by
  rw [roundToDouble_eq (40 / 3) (3) (7505999378950827) (by norm_num)
    (by rw [abs_of_pos (by norm_num)]; norm_num) (by rw [abs_of_pos (by norm_num)]; norm_num)
    (by rw [abs_lt]; constructor <;> norm_num)]
  norm_num

theorem double_ten : roundToDouble (10) = 10 := by
  rw [roundToDouble_eq (10) (3) (5629499534213120) (by norm_num)
    (by rw [abs_of_pos (by norm_num)]; norm_num) (by rw [abs_of_pos (by norm_num)]; norm_num)
    (by rw [abs_lt]; constructor <;> norm_num)]
  norm_num

theorem double_tap_dx : roundToDouble (3752999689475413 / 1125899906842624) = 3752999689475413 / 1125899906842624 := by
  rw [roundToDouble_eq (3752999689475413 / 1125899906842624) (1) (7505999378950826) (by norm_num)
    (by rw [abs_of_pos (by norm_num)]; norm_num) (by rw [abs_of_pos (by norm_num)]; norm_num)
    (by rw [abs_lt]; constructor <;> norm_num)]
  norm_num

theorem double_tap_dx_sq : roundToDouble (14085006669202546403519131520569 / 1267650600228229401496703205376) = 6254999482459021 / 562949953421312 := by
  rw [roundToDouble_eq (14085006669202546403519131520569 / 1267650600228229401496703205376) (3) (6254999482459021) (by norm_num)
    (by rw [abs_of_pos (by norm_num)]; norm_num) (by rw [abs_of_pos (by norm_num)]; norm_num)
    (by rw [abs_lt]; constructor <;> norm_num)]
  norm_num

theorem double_tap_dx_sq_again : roundToDouble (6254999482459021 / 562949953421312) = 6254999482459021 / 562949953421312 := by
  rw [roundToDouble_eq (6254999482459021 / 562949953421312) (3) (6254999482459021) (by norm_num)
    (by rw [abs_of_pos (by norm_num)]; norm_num) (by rw [abs_of_pos (by norm_num)]; norm_num)
    (by rw [abs_lt]; constructor <;> norm_num)]
  norm_num

theorem double_nine : roundToDouble (9) = 9 := by
  rw [roundToDouble_eq (9) (3) (5066549580791808) (by norm_num)
    (by rw [abs_of_pos (by norm_num)]; norm_num) (by rw [abs_of_pos (by norm_num)]; norm_num)
    (by rw [abs_lt]; constructor <;> norm_num)]
  norm_num

theorem double_tap_lengthSqrd : roundToDouble (56294995342131189 / 562949953421312) = 7036874417766399 / 70368744177664 := by
  rw [roundToDouble_eq (56294995342131189 / 562949953421312) (6) (7036874417766399) (by norm_num)
    (by rw [abs_of_pos (by norm_num)]; norm_num) (by rw [abs_of_pos (by norm_num)]; norm_num)
    (by rw [abs_lt]; constructor <;> norm_num)]
  norm_num

theorem double_inch : roundToDouble (127 / 5) = 3574732204225331 / 140737488355328 := by
  rw [roundToDouble_eq (127 / 5) (4) (7149464408450662) (by norm_num)
    (by rw [abs_of_pos (by norm_num)]; norm_num) (by rw [abs_of_pos (by norm_num)]; norm_num)
    (by rw [abs_lt]; constructor <;> norm_num)]
  norm_num

theorem double_tap_dpmm : roundToDouble (35747322042253312 / 3574732204225331) = 10 := by
  rw [roundToDouble_eq (35747322042253312 / 3574732204225331) (3) (5629499534213120) (by norm_num)
    (by rw [abs_of_pos (by norm_num)]; norm_num) (by rw [abs_of_pos (by norm_num)]; norm_num)
    (by rw [abs_lt]; constructor <;> norm_num)]
  norm_num

theorem double_hundred : roundToDouble (100) = 100 := by
  rw [roundToDouble_eq (100) (6) (7036874417766400) (by norm_num)
    (by rw [abs_of_pos (by norm_num)]; norm_num) (by rw [abs_of_pos (by norm_num)]; norm_num)
    (by rw [abs_lt]; constructor <;> norm_num)]
  norm_num

theorem double_twenty_one_halves : roundToDouble (21 / 2) = 21 / 2 := by
  rw [roundToDouble_eq (21 / 2) (3) (5910974510923776) (by norm_num)
    (by rw [abs_of_pos (by norm_num)]; norm_num) (by rw [abs_of_pos (by norm_num)]; norm_num)
    (by rw [abs_lt]; constructor <;> norm_num)]
  norm_num

theorem double_quarter : roundToDouble (1 / 4) = 1 / 4 := by
  rw [roundToDouble_eq (1 / 4) (-2) (4503599627370496) (by norm_num)
    (by rw [abs_of_pos (by norm_num)]; norm_num) (by rw [abs_of_pos (by norm_num)]; norm_num)
    (by rw [abs_lt]; constructor <;> norm_num)]
  norm_num

theorem example_threshold_double :
    Example.envDouble.PIXEL_MOTION_THRESHOLD = 5404319552844595 / 18014398509481984 :=
  double_three_tenths

theorem example_soft_distance :
    Example.envDouble.lineLengthTo Example.lighter Example.softEnd = 6 := by
  norm_num [Example.envDouble, Example.lighter, Example.softEnd, Double.sub, double_six,
    roundToDouble_zero]

theorem example_soft_widthDelta :
    Double.mul (Double.sub Example.lighter.z Example.softEnd.z) Example.softStroke.width =
      -(8106479329266893 / 9007199254740992) := by
  norm_num [Example.lighter, Example.softEnd, Example.softStroke, Double.sub, Double.mul,
    double_neg_quarter, double_three_point_six, double_soft_widthDelta]

theorem example_soft_quotient :
    Double.div |(-(8106479329266893 / 9007199254740992) : ℚ)| Double.MAX_WIDTH_VARIATION = 3 := by
  rw [abs_of_neg (by norm_num), MAX_WIDTH_VARIATION_double]
  norm_num [Double.div, double_soft_quotient]

theorem example_soft_steps :
    Double.div (6 : ℚ) Example.envDouble.PIXEL_MOTION_THRESHOLD = 20 := by
  rw [example_threshold_double]
  norm_num [Double.div, double_soft_steps]

/-- Witness for C11: a width variation of `0.9` over a distance of `6`; the
quotient `0.9 / 0.3` is rounded to `3` before the ceiling is taken, and three
points are appended. -/
theorem paintTo_pointCount_double_witness :
    ((Double.paintTo Example.envDouble Example.lighter Example.soft).getPointCount : Int) =
        (Example.soft.getPointCount : Int) +
          min
            ⌈Double.div
              |Double.mul (Double.sub Example.lighter.z Example.softEnd.z)
                Example.softStroke.width|
              Double.MAX_WIDTH_VARIATION⌉
            ⌊Double.div (Example.envDouble.lineLengthTo Example.lighter Example.softEnd)
              Example.envDouble.PIXEL_MOTION_THRESHOLD⌋ ∧
      min
          ⌈Double.div
            |Double.mul (Double.sub Example.lighter.z Example.softEnd.z)
              Example.softStroke.width|
            Double.MAX_WIDTH_VARIATION⌉
          ⌊Double.div (Example.envDouble.lineLengthTo Example.lighter Example.softEnd)
            Example.envDouble.PIXEL_MOTION_THRESHOLD⌋ = 3 :=
  ⟨(paintTo_pointCount_double Example.envDouble Example.lighter Example.softEnd Example.soft
      Example.softStroke rfl rfl (by rw [example_threshold_double]; norm_num)).2.1
      (by rw [example_soft_distance, example_threshold_double]; norm_num) rfl
      (by norm_num [Example.softEnd, Example.envDouble, Example.env])
      (by rw [example_soft_widthDelta, MAX_WIDTH_VARIATION_double, abs_of_neg (by norm_num)]
          norm_num),
    by
      rw [example_soft_widthDelta, example_soft_quotient, example_soft_distance,
        example_soft_steps]
      norm_num⟩

theorem example_soft_exact_quotient :
    ⌈|(-(8106479329266893 / 9007199254740992) : ℚ)| / Double.MAX_WIDTH_VARIATION⌉ = 4 := by
  rw [abs_of_neg (by norm_num), MAX_WIDTH_VARIATION_double, Int.ceil_eq_iff]
  norm_num

theorem subdivide_points_double (env : Env) (inc : Point) (m : Nat) :
    ∀ (e : Point) (h : StrokeHandler) (s : Stroke), h.stroke = some s → h.hasPressure = true →
      (Double.subdivide env inc m e h).stroke =
          some { s with points := s.points ++ (List.range m).map fun i : Nat =>
            (Double.advance inc)^[i + 1] e } ∧
        (Double.subdivide env inc m e h).hasPressure = true := by
  induction m with
  | zero => intro e h s hs hp; simp [Double.subdivide, hs, hp]
  | succ m ih =>
    intro e h s hs hp
    obtain ⟨hd, hp'⟩ := drawSegmentTo_stroke env (Double.advance inc e) h s hs hp
    obtain ⟨h1, h2⟩ := ih _ _ _ hd hp'
    simp only [Double.subdivide]
    refine ⟨?_, h2⟩
    rw [h1, map_range_succ_head]
    simp only [List.append_assoc, List.singleton_append, Function.iterate_succ,
      Function.iterate_zero, Function.comp, id]

theorem paintTo_subdividing_points_double (env : Env) (point endPoint : Point)
    (h : StrokeHandler) (s : Stroke) (hs : h.stroke = some s)
    (hl : s.points.getLast? = some endPoint) (hT : 0 < env.PIXEL_MOTION_THRESHOLD)
    (hd : env.PIXEL_MOTION_THRESHOLD ≤ env.lineLengthTo point endPoint)
    (hp : h.hasPressure = true) (hz : endPoint.z ≠ env.NO_PRESSURE)
    (hw : Double.MAX_WIDTH_VARIATION < |Double.widthDelta point endPoint s.width|) :
    (Double.paintTo env point h).stroke =
      some
        ((({ s with points := s.points.dropLast ++
            Double.steps point endPoint s.width
                        (Double.nbSteps env (Double.widthDelta point endPoint s.width)
                          (env.lineLengthTo point endPoint)) } : Stroke).setLastPressure
            (Double.mul point.z s.width)).addPoint point) := by
  rw [paintTo_subdividing_eq_double env point endPoint h s hs hl hd hp hz hw]
  have hn := nbSteps_pos_double env _ _ hT hd hw
  obtain ⟨m, hm⟩ : ∃ m : Nat, Double.nbSteps env (Double.widthDelta point endPoint s.width)
      (env.lineLengthTo point endPoint) = (m : Int) + 1 :=
    ⟨(Double.nbSteps env (Double.widthDelta point endPoint s.width)
      (env.lineLengthTo point endPoint) - 1).toNat, by omega⟩
  rw [hm]
  have hm1 : ((m : Int) + 1 - 1).toNat = m := by omega
  have hm2 : ((m : Int) + 1).toNat = m + 1 := by omega
  unfold Double.steps
  rw [hm1, hm2]
  generalize hst : Double.startPoint point endPoint s.width ((m : Int) + 1) = e0
  generalize Double.increment point endPoint s.width ((m : Int) + 1) = inc
  obtain ⟨h1, p1⟩ := setLastPressure_stroke e0.z h s hs
  rw [setLastPressure_points s _ _ _ (points_of_getLast hl)] at h1
  have he0 : ({ endPoint with z := e0.z } : Point) = e0 := by
    rw [← hst]; rfl
  rw [he0] at h1
  rw [hp] at p1
  obtain ⟨h2, p2⟩ := subdivide_points_double env inc m e0 _ _ h1 p1
  obtain ⟨h3, p3⟩ := setLastPressure_stroke (Double.mul point.z s.width) _ _ h2
  rw [p2] at p3
  obtain ⟨h4, _⟩ := drawSegmentTo_stroke env point _ _ h3 p3
  rw [h4, map_range_succ_head]
  simp only [Stroke.addPoint, List.append_assoc, List.singleton_append, Function.iterate_zero, id]

theorem width_step_slack (w m : ℚ) (n : Int) (hm : 0 < m) (hn : 1 ≤ n)
    (h : w / m * (1 - 1 / 2 ^ 53) ≤ (n : ℚ)) (hw : 0 ≤ w) :
    w / (n : ℚ) ≤ m * (1 + 1 / 2 ^ 52) := by
  have hn0 : (0 : ℚ) < (n : ℚ) := by exact_mod_cast (by omega : 0 < n)
  rw [div_le_iff₀ hn0]
  have h1 : w * (1 - 1 / 2 ^ 53) ≤ (n : ℚ) * m := by
    have := mul_le_mul_of_nonneg_right h hm.le
    have e : w / m * (1 - 1 / 2 ^ 53) * m = w * (1 - 1 / 2 ^ 53) := by
      field_simp
      ring
    rw [e] at this
    exact this
  have h2 : w ≤ w * (1 - 1 / 2 ^ 53) * (1 + 1 / 2 ^ 52) := by
    have hc : (1 : ℚ) ≤ (1 - 1 / 2 ^ 53) * (1 + 1 / 2 ^ 52) := by norm_num
    calc w = w * 1 := (mul_one w).symm
      _ ≤ w * ((1 - 1 / 2 ^ 53) * (1 + 1 / 2 ^ 52)) := mul_le_mul_of_nonneg_left hc hw
      _ = w * (1 - 1 / 2 ^ 53) * (1 + 1 / 2 ^ 52) := by ring
  have h3 : w * (1 - 1 / 2 ^ 53) * (1 + 1 / 2 ^ 52) ≤ (n : ℚ) * m * (1 + 1 / 2 ^ 52) :=
    mul_le_mul_of_nonneg_right h1 (by norm_num)
  calc w ≤ (n : ℚ) * m * (1 + 1 / 2 ^ 52) := h2.trans h3
    _ = m * (1 + 1 / 2 ^ 52) * (n : ℚ) := by ring

/-- C12, as amended. For a `paintTo` call that subdivides, computed in double
arithmetic (positive motion threshold, distance at least the threshold,
pressure tracked, last point with a pressure, `|Δw|` above the maximal
variation), and whose number of steps is not capped by the distance, that is
`⌈|Δw| / MAX_WIDTH_VARIATION⌉ ≤ ⌊d / PIXEL_MOTION_THRESHOLD⌋` for the two
quotients as doubles: the call appends `nbSteps` points, `nbSteps` is
`⌈|Δw| / MAX_WIDTH_VARIATION⌉` for the rounded quotient, the width step
`|Δw| / nbSteps` is at most `MAX_WIDTH_VARIATION * (1 + 2⁻⁵²)`, and the stroke
left is the one before with the former last point and `nbSteps − 1` further
points carrying the pressures obtained from `endPoint.z * width` by adding the
increment `Δw * (1 / nbSteps)` once, twice and so on, every sum rounded, the
last of them overwritten with `point.z * width`, followed by `point`. -/
theorem width_step_bounded_double (env : Env) (point endPoint : Point) (h : StrokeHandler)
    (s : Stroke) (hs : h.stroke = some s) (hl : s.points.getLast? = some endPoint)
    (hT : 0 < env.PIXEL_MOTION_THRESHOLD)
    (hd : env.PIXEL_MOTION_THRESHOLD ≤ env.lineLengthTo point endPoint)
    (hp : h.hasPressure = true) (hz : endPoint.z ≠ env.NO_PRESSURE)
    (hw : Double.MAX_WIDTH_VARIATION < |Double.widthDelta point endPoint s.width|)
    (hcap : ⌈Double.div |Double.widthDelta point endPoint s.width| Double.MAX_WIDTH_VARIATION⌉ ≤
      ⌊Double.div (env.lineLengthTo point endPoint) env.PIXEL_MOTION_THRESHOLD⌋) :
    ((Double.paintTo env point h).getPointCount : Int) =
        (h.getPointCount : Int) +
          Double.nbSteps env (Double.widthDelta point endPoint s.width)
            (env.lineLengthTo point endPoint) ∧
      Double.nbSteps env (Double.widthDelta point endPoint s.width)
          (env.lineLengthTo point endPoint) =
        ⌈Double.div |Double.widthDelta point endPoint s.width| Double.MAX_WIDTH_VARIATION⌉ ∧
      |Double.widthDelta point endPoint s.width| /
          (Double.nbSteps env (Double.widthDelta point endPoint s.width)
            (env.lineLengthTo point endPoint) : ℚ) ≤
        Double.MAX_WIDTH_VARIATION * (1 + 1 / 2 ^ 52) ∧
      (Double.paintTo env point h).stroke =
        some
          ((({ s with points := s.points.dropLast ++
              Double.steps point endPoint s.width
                          (Double.nbSteps env (Double.widthDelta point endPoint s.width)
                            (env.lineLengthTo point endPoint)) } : Stroke).setLastPressure
              (Double.mul point.z s.width)).addPoint point) ∧
      Double.widthDelta point endPoint s.width =
        roundToDouble (roundToDouble (point.z - endPoint.z) * s.width) ∧
      (∀ n : Int,
        Double.steps point endPoint s.width n =
            (List.range n.toNat).map (fun k : Nat =>
              (Double.advance (Double.increment point endPoint s.width n))^[k]
                (Double.startPoint point endPoint s.width n)) ∧
          (Double.increment point endPoint s.width n).z =
            roundToDouble (Double.widthDelta point endPoint s.width * roundToDouble (1 / (n : ℚ))) ∧
          (Double.startPoint point endPoint s.width n).z =
            roundToDouble (roundToDouble (endPoint.z * s.width) +
              (Double.increment point endPoint s.width n).z)) ∧
      (∀ inc p : Point, (Double.advance inc p).z = roundToDouble (p.z + inc.z)) := by
  have hM : (0 : ℚ) < Double.MAX_WIDTH_VARIATION := by
    rw [MAX_WIDTH_VARIATION_double]; norm_num
  have hn : Double.nbSteps env (Double.widthDelta point endPoint s.width)
      (env.lineLengthTo point endPoint) =
      ⌈Double.div |Double.widthDelta point endPoint s.width| Double.MAX_WIDTH_VARIATION⌉ := by
    unfold Double.nbSteps
    exact min_eq_left hcap
  refine ⟨paintTo_subdividing_count_double env point endPoint h s hs hl hT hd hp hz hw, hn, ?_,
    paintTo_subdividing_points_double env point endPoint h s hs hl hT hd hp hz hw, rfl,
    fun n => ⟨rfl, rfl, rfl⟩, fun inc p => rfl⟩
  apply width_step_slack _ _ _ hM (nbSteps_pos_double env _ _ hT hd hw) _ (abs_nonneg _)
  have h1 : (1 : ℚ) ≤ |Double.widthDelta point endPoint s.width| / Double.MAX_WIDTH_VARIATION := by
    rw [le_div_iff₀ hM, one_mul]; exact hw.le
  have h2 := roundToDouble_lower _ h1
  have h3 := Int.le_ceil
    (Double.div |Double.widthDelta point endPoint s.width| Double.MAX_WIDTH_VARIATION)
  rw [hn]
  exact h2.trans h3

theorem example_wide_distance :
    Example.envDouble.lineLengthTo Example.nearby Example.wideEnd = 3 / 4 := by
  norm_num [Example.envDouble, Example.nearby, Example.wideEnd, Double.sub,
    double_three_quarters, roundToDouble_zero]

theorem example_wide_widthDelta :
    Double.widthDelta Example.nearby Example.wideEnd Example.wideStroke.width = 3 := by
  norm_num [Double.widthDelta, Example.nearby, Example.wideEnd, Example.wideStroke, Double.sub,
    Double.mul, double_three_eighths, double_three]

theorem example_wide_nbSteps : Double.nbSteps Example.envDouble 3 (3 / 4) = 2 := by
  unfold Double.nbSteps
  rw [example_threshold_double, MAX_WIDTH_VARIATION_double]
  have h1 : Double.div |(3 : ℚ)| (5404319552844595 / 2 ^ 54) = 10 := by
    norm_num [Double.div, double_wide_quotient]
  have h2 : Double.div (3 / 4 : ℚ) (5404319552844595 / 18014398509481984) = 5 / 2 := by
    norm_num [Double.div, double_wide_steps]
  have h3 : ⌊(5 / 2 : ℚ)⌋ = 2 := by
    rw [Int.floor_eq_iff]; norm_num
  rw [h1, h2, h3]
  norm_num

theorem paintTo_example_double :
    (Double.paintTo Example.envDouble Example.nearby Example.wide).stroke =
      some
        { points := [{ x := 10, y := 20, z := 1 }, { x := 11, y := 20, z := 5 / 2 },
            { x := 91 / 8, y := 20, z := 4 }, { x := 47 / 4, y := 20, z := 1 / 2 }],
          width := 8, toolType := StrokeTool.pen, fill := -1, hasDashes := false } := by
  have hd : Example.envDouble.lineLengthTo Example.nearby { x := 11, y := 20, z := 1 / 8 } =
      3 / 4 := example_wide_distance
  have hw : Double.widthDelta Example.nearby { x := 11, y := 20, z := 1 / 8 } 8 = 3 :=
    example_wide_widthDelta
  have hw2 : Double.widthDelta { x := 47 / 4, y := 20, z := 1 / 2 }
      { x := 11, y := 20, z := 1 / 8 } 8 = 3 := example_wide_widthDelta
  have hM : Double.MAX_WIDTH_VARIATION < 3 := by
    rw [MAX_WIDTH_VARIATION_double]; norm_num
  have hT : ¬ (3 / 4 : ℚ) < Example.envDouble.PIXEL_MOTION_THRESHOLD := by
    rw [example_threshold_double]; norm_num
  simp only [Double.paintTo, Example.wide, Example.wideStroke, List.getLast?, List.getLast, hd,
    hw, example_wide_nbSteps, hT, hM, if_false, if_true, or_true]
  norm_num [Example.envDouble, Example.env, StrokeHandler.setLastPressure,
    Stroke.setLastPressure, Double.subdivide, Double.advance, Double.increment, hw, hw2, drawSegmentTo,
    Stroke.addPoint, Example.idle, Example.nearby, Double.add, Double.sub, Double.mul,
    Double.div, double_three_quarters, double_half, double_three_eighths, double_three_halves,
    double_one, double_five_halves, double_ninety_one_eighths, double_twenty, double_four,
    roundToDouble_zero]

/-- C12, counterexample. A point two and a half motion thresholds away from
the last one, with a width variation of ten times the maximum, every operation
being exact in double arithmetic: the step count is capped at 2, the stored
widths go from `5/2` to `4`, and the width step `3/2` exceeds
`MAX_WIDTH_VARIATION`. -/
theorem width_step_exceeds_double :
    (Double.paintTo Example.envDouble Example.nearby Example.wide).stroke =
      some
        { points := [{ x := 10, y := 20, z := 1 }, { x := 11, y := 20, z := 5 / 2 },
            { x := 91 / 8, y := 20, z := 4 }, { x := 47 / 4, y := 20, z := 1 / 2 }],
          width := 8, toolType := StrokeTool.pen, fill := -1, hasDashes := false } ∧
    Double.MAX_WIDTH_VARIATION <
      |Double.widthDelta Example.nearby Example.wideEnd Example.wideStroke.width| ∧
    Double.nbSteps Example.envDouble
      (Double.widthDelta Example.nearby Example.wideEnd Example.wideStroke.width)
      (Example.envDouble.lineLengthTo Example.nearby Example.wideEnd) = 2 ∧
    ¬ (|Double.widthDelta Example.nearby Example.wideEnd Example.wideStroke.width| /
        (Double.nbSteps Example.envDouble
          (Double.widthDelta Example.nearby Example.wideEnd Example.wideStroke.width)
          (Example.envDouble.lineLengthTo Example.nearby Example.wideEnd) : ℚ) ≤
      Double.MAX_WIDTH_VARIATION) := by
  refine ⟨paintTo_example_double, ?_, ?_, ?_⟩
  · rw [example_wide_widthDelta, MAX_WIDTH_VARIATION_double]; norm_num
  · rw [example_wide_distance, example_wide_widthDelta]; exact example_wide_nbSteps
  · rw [example_wide_distance, example_wide_widthDelta, example_wide_nbSteps,
      MAX_WIDTH_VARIATION_double]
    norm_num

theorem example_soft_cap :
    ⌈Double.div |Double.widthDelta Example.lighter Example.softEnd Example.softStroke.width|
        Double.MAX_WIDTH_VARIATION⌉ ≤
      ⌊Double.div (Example.envDouble.lineLengthTo Example.lighter Example.softEnd)
        Example.envDouble.PIXEL_MOTION_THRESHOLD⌋ := by
  unfold Double.widthDelta
  rw [example_soft_widthDelta, example_soft_quotient, example_soft_distance, example_soft_steps]
  norm_num

/-- Witness for C12 as amended: a width variation of `0.9`, three steps not
capped by the distance, and a width step within the bound. -/
theorem width_step_bounded_double_witness :
    Double.nbSteps Example.envDouble
        (Double.widthDelta Example.lighter Example.softEnd Example.softStroke.width)
        (Example.envDouble.lineLengthTo Example.lighter Example.softEnd) =
      ⌈Double.div |Double.widthDelta Example.lighter Example.softEnd Example.softStroke.width|
        Double.MAX_WIDTH_VARIATION⌉ ∧
    |Double.widthDelta Example.lighter Example.softEnd Example.softStroke.width| /
        (Double.nbSteps Example.envDouble
          (Double.widthDelta Example.lighter Example.softEnd Example.softStroke.width)
          (Example.envDouble.lineLengthTo Example.lighter Example.softEnd) : ℚ) ≤
      Double.MAX_WIDTH_VARIATION * (1 + 1 / 2 ^ 52) :=
  have h := width_step_bounded_double Example.envDouble Example.lighter Example.softEnd
    Example.soft Example.softStroke rfl rfl (by rw [example_threshold_double]; norm_num)
    (by rw [example_soft_distance, example_threshold_double]; norm_num) rfl
    (by norm_num [Example.softEnd, Example.envDouble, Example.env])
    (by unfold Double.widthDelta
        rw [example_soft_widthDelta, MAX_WIDTH_VARIATION_double, abs_of_neg (by norm_num)]
        norm_num)
    example_soft_cap
  ⟨h.2.1, h.2.2.1⟩

/-! ## The stroke filter in double arithmetic -/

theorem strokeFilter_of_cond_double {ctl : Control} {pos : PositionInputData}
    {h : StrokeHandler} (hc : Double.FilterCond ctl pos h) :
    Double.strokeFilter ctl pos h =
      (true, { h with stroke := none, userTapped := true, lastStrokeTime := pos.timestamp }) := by
  obtain ⟨h1, h2, h3⟩ := hc
  simp only [Double.strokeFilter, h1, h2, h3, and_self, if_true]

theorem strokeFilter_of_not_cond_double {ctl : Control} {pos : PositionInputData}
    {h : StrokeHandler} (hc : ¬ Double.FilterCond ctl pos h) :
    Double.strokeFilter ctl pos h = (false, { h with lastStrokeTime := pos.timestamp }) := by
  unfold Double.FilterCond at hc
  unfold Double.strokeFilter
  split_ifs with h1 h2
  · exact absurd ⟨h1.1, h1.2, h2⟩ hc
  · rfl
  · rfl

theorem filterCond_congr_double (ctl : Control) (pos : PositionInputData) (h h' : StrokeHandler)
    (hb : h'.buttonDownPoint = h.buttonDownPoint) (hst : h'.startStrokeTime = h.startStrokeTime)
    (hlt : h'.lastStrokeTime = h.lastStrokeTime) :
    Double.FilterCond ctl pos h' ↔ Double.FilterCond ctl pos h := by
  unfold Double.FilterCond Double.lengthSqrd
  rw [hb, hst, hlt]

theorem commit_undo_double (env : Env) (ctl : Control) (h : StrokeHandler) (s : Stroke)
    (hs : h.stroke = some s) :
    (Double.commit env ctl h).stroke = none ∧
      ∃ rest : List UndoAction,
        (Double.commit env ctl h).undo = h.undo ++ UndoAction.insert (twoPoints env s) :: rest := by
  unfold Double.commit
  rw [hs]
  dsimp only
  by_cases hd : ctl.drawingType = DrawingType.strokeRecognizer
  · rw [if_pos hd]
    cases hr : env.recognizePatterns (twoPoints env s) with
    | none => exact ⟨rfl, [], rfl⟩
    | some r =>
      refine ⟨rfl, [UndoAction.recognizer (twoPoints env s)
        (Double.replacement env ctl (twoPoints env s) r) r.sources], ?_⟩
      simp [Double.strokeRecognizerDetected]
  · rw [if_neg hd]
    exact ⟨rfl, [], rfl⟩

theorem release_of_cond_double (env : Env) (ctl : Control) (flush : List Point)
    (pos : PositionInputData) (h : StrokeHandler) (s0 : Stroke) (hs : h.stroke = some s0)
    (hen : ctl.strokeFilterEnabled = true)
    (hc : Double.FilterCond ctl pos h) :
    (Double.onButtonReleaseEvent env ctl flush pos h).stroke = none ∧
      (Double.onButtonReleaseEvent env ctl flush pos h).layer = h.layer ∧
      (Double.onButtonReleaseEvent env ctl flush pos h).undo = h.undo := by
  obtain ⟨hl, hu, hb, hst, hlt, _⟩ := frame_fields (finalizeStroke_frame_double env flush h)
  have hc' := (filterCond_congr_double ctl pos h _ hb hst hlt).mpr hc
  unfold Double.onButtonReleaseEvent
  rw [hs]
  dsimp only
  rw [if_pos hen, strokeFilter_of_cond_double hc']
  exact ⟨rfl, hl, hu⟩

theorem release_of_not_cond_double (env : Env) (ctl : Control) (flush : List Point)
    (pos : PositionInputData) (h : StrokeHandler) (s0 : Stroke) (hs : h.stroke = some s0)
    (hen : ctl.strokeFilterEnabled = true)
    (hc : ¬ Double.FilterCond ctl pos h) :
    (Double.onButtonReleaseEvent env ctl flush pos h).stroke = none ∧
      ∃ (s : Stroke) (rest : List UndoAction),
        (Double.finalizeStroke env flush h).stroke = some s ∧
        (Double.onButtonReleaseEvent env ctl flush pos h).undo =
          h.undo ++ UndoAction.insert (twoPoints env s) :: rest := by
  have hfr := finalizeStroke_frame_double env flush h
  obtain ⟨hl, hu, hb, hst, hlt, _⟩ := frame_fields hfr
  obtain ⟨s, hs1⟩ := frame_stroke_some hfr hs
  have hc' : ¬ Double.FilterCond ctl pos (Double.finalizeStroke env flush h) := fun hx =>
    hc ((filterCond_congr_double ctl pos h _ hb hst hlt).mp hx)
  have he : Double.onButtonReleaseEvent env ctl flush pos h =
      Double.commit env ctl
        { Double.finalizeStroke env flush h with lastStrokeTime := pos.timestamp } := by
    unfold Double.onButtonReleaseEvent
    rw [hs]
    dsimp only
    rw [if_pos hen, strokeFilter_of_not_cond_double hc']
    simp
  obtain ⟨h1, rest, h2⟩ := commit_undo_double env ctl
    { Double.finalizeStroke env flush h with lastStrokeTime := pos.timestamp } s hs1
  rw [he]
  refine ⟨h1, s, rest, hs1, ?_⟩
  rw [h2]
  show (Double.finalizeStroke env flush h).undo ++ _ = _
  rw [hu]

theorem press_buttonDownPoint_double (env : Env) (ctl : Control) (press : PositionInputData)
    (h0 : StrokeHandler) (hidle : h0.stroke = none) :
    (Double.onButtonPressEvent env ctl press h0).buttonDownPoint.x =
        Double.div press.x ctl.zoom ∧
      (Double.onButtonPressEvent env ctl press h0).buttonDownPoint.y =
        Double.div press.y ctl.zoom ∧
      (Double.onButtonPressEvent env ctl press h0).startStrokeTime = press.timestamp := by
  unfold Double.onButtonPressEvent destroySurface createStroke
  split_ifs <;> simp [hidle]

/-- C6, as amended. Tap-filter decision as the program computes it: with the
stroke filter enabled, a stroke active and a zoom that is not zero (a division
by zero is not represented), `onButtonReleaseEvent` discards the
stroke (no stroke left, layer and undo log as before) if and only if
`lengthSqrd`, the double the code computes from the release position and the
stored press point (each divided by the zoom, the squared differences summed
and multiplied by the squared zoom, every operation rounded), is below the
double `pow(ignoreLength * (dpi / 25.4), 2)`, the release time minus the press
time is below `ignoreTime`, and the release time minus `lastStrokeTime` is above
`successiveTime`; in every other case the stroke is committed: the session is
idle and the undo log has gained the insert action of the stroke.  The times
are `guint32` and the two comparisons are those the code makes (difference
modulo `2 ^ 32`, setting converted to unsigned); for a release time not before
the press and the last stroke, and settings that are not negative, they are
the comparisons of the plain differences.  The press point the handler stores
at a press is the double quotient of the press position by the zoom. -/
theorem tapFilter_decision_double (env : Env) (ctl : Control) (flush : List Point)
    (pos : PositionInputData) (h : StrokeHandler) (s0 : Stroke)
    (hs : h.stroke = some s0) (hen : ctl.strokeFilterEnabled = true) (_hz : ctl.zoom ≠ 0) :
    (((Double.onButtonReleaseEvent env ctl flush pos h).stroke = none ∧
        (Double.onButtonReleaseEvent env ctl flush pos h).layer = h.layer ∧
        (Double.onButtonReleaseEvent env ctl flush pos h).undo = h.undo) ↔
      (Double.lengthSqrd ctl pos h < Double.ignoreLengthSqrd ctl ∧
        subUInt32 pos.timestamp h.startStrokeTime < ofInt32 ctl.strokeFilterIgnoreTime ∧
        subUInt32 pos.timestamp h.lastStrokeTime > ofInt32 ctl.strokeFilterSuccessiveTime)) ∧
    (¬ (Double.lengthSqrd ctl pos h < Double.ignoreLengthSqrd ctl ∧
        subUInt32 pos.timestamp h.startStrokeTime < ofInt32 ctl.strokeFilterIgnoreTime ∧
        subUInt32 pos.timestamp h.lastStrokeTime > ofInt32 ctl.strokeFilterSuccessiveTime) →
      (Double.onButtonReleaseEvent env ctl flush pos h).stroke = none ∧
      ∃ (s : Stroke) (rest : List UndoAction),
        (Double.finalizeStroke env flush h).stroke = some s ∧
        (Double.onButtonReleaseEvent env ctl flush pos h).undo =
          h.undo ++ UndoAction.insert (twoPoints env s) :: rest) ∧
    (pos.timestamp < 2 ^ 32 → h.startStrokeTime ≤ pos.timestamp →
      h.lastStrokeTime ≤ pos.timestamp →
      (0 ≤ ctl.strokeFilterIgnoreTime ∧ ctl.strokeFilterIgnoreTime < 2 ^ 31) →
      (0 ≤ ctl.strokeFilterSuccessiveTime ∧ ctl.strokeFilterSuccessiveTime < 2 ^ 31) →
      (subUInt32 pos.timestamp h.startStrokeTime < ofInt32 ctl.strokeFilterIgnoreTime ↔
          (pos.timestamp : Int) - h.startStrokeTime < ctl.strokeFilterIgnoreTime) ∧
        (subUInt32 pos.timestamp h.lastStrokeTime > ofInt32 ctl.strokeFilterSuccessiveTime ↔
          (pos.timestamp : Int) - h.lastStrokeTime > ctl.strokeFilterSuccessiveTime)) ∧
    (∀ (press : PositionInputData) (h0 : StrokeHandler), h0.stroke = none →
      (Double.onButtonPressEvent env ctl press h0).buttonDownPoint.x =
          Double.div press.x ctl.zoom ∧
        (Double.onButtonPressEvent env ctl press h0).buttonDownPoint.y =
          Double.div press.y ctl.zoom ∧
        (Double.onButtonPressEvent env ctl press h0).startStrokeTime = press.timestamp) ∧
    Double.lengthSqrd ctl pos h =
      roundToDouble
        (roundToDouble
            (roundToDouble
                (roundToDouble (roundToDouble (pos.x / ctl.zoom) - h.buttonDownPoint.x) *
                  roundToDouble (roundToDouble (pos.x / ctl.zoom) - h.buttonDownPoint.x)) +
              roundToDouble
                (roundToDouble (roundToDouble (pos.y / ctl.zoom) - h.buttonDownPoint.y) *
                  roundToDouble (roundToDouble (pos.y / ctl.zoom) - h.buttonDownPoint.y))) *
          roundToDouble (ctl.zoom * ctl.zoom)) ∧
    Double.ignoreLengthSqrd ctl =
      roundToDouble
        (roundToDouble
            (ctl.strokeFilterIgnoreLength *
              roundToDouble (ctl.displayDpi / roundToDouble (254 / 10))) *
          roundToDouble
            (ctl.strokeFilterIgnoreLength *
              roundToDouble (ctl.displayDpi / roundToDouble (254 / 10)))) := by
  have hnot := release_of_not_cond_double env ctl flush pos h s0 hs hen
  refine ⟨⟨?_, ?_⟩, hnot, filter_times_plain _ _ _ _ _,
    fun press h0 hidle => press_buttonDownPoint_double env ctl press h0 hidle, rfl, rfl⟩
  · intro hdis
    by_contra hc
    obtain ⟨_, s', rest, _, hundo⟩ := hnot hc
    rw [hdis.2.2] at hundo
    have := congrArg List.length hundo
    simp at this
  · intro hc
    exact release_of_cond_double env ctl flush pos h s0 hs hen hc

theorem pressedZoom3_eq : Example.pressedZoom3 =
    { Example.idle with
      stroke := some
        { points := [{ x := 7505999378950827 / 1125899906842624,
                       y := 7505999378950827 / 562949953421312, z := -1 }],
          width := 1, toolType := StrokeTool.pen, fill := -1, hasDashes := false },
      buttonDownPoint :=
        { x := 7505999378950827 / 1125899906842624, y := 7505999378950827 / 562949953421312,
          z := 0 },
      surfMask := true, crMask := true, startStrokeTime := 1000, hasPressure := true,
      stabilizerCalls := [StabilizerCall.initializeWith 3 Example.press] } := by
  simp [Example.pressedZoom3, Double.onButtonPressEvent, destroySurface, createStroke,
    Example.envDouble, Example.env, Example.ctlZoom3, Example.ctl, Example.press, Example.idle,
    Double.div, double_twenty_thirds, double_forty_thirds]
  norm_num

theorem example_tap_lengthSqrd :
    Double.lengthSqrd Example.ctlZoom3 Example.releaseTen Example.pressedZoom3 =
      7036874417766399 / 70368744177664 := by
  rw [pressedZoom3_eq]
  norm_num [Double.lengthSqrd, Example.ctlZoom3, Example.ctl, Example.releaseTen, Double.div,
    Double.sub, Double.sq, Double.add, Double.mul, double_ten, double_forty_thirds,
    double_tap_dx, double_tap_dx_sq, double_tap_dx_sq_again, double_nine,
    double_tap_lengthSqrd, roundToDouble_zero]

theorem example_ignoreLengthSqrd : Double.ignoreLengthSqrd Example.ctlZoom3 = 100 := by
  norm_num [Double.ignoreLengthSqrd, Example.ctlZoom3, Example.ctl, Double.div, Double.mul,
    Double.sq, double_inch, double_tap_dpmm, double_ten, double_hundred]

theorem example_tap_cond_double :
    Double.FilterCond Example.ctlZoom3 Example.releaseTen Example.pressedZoom3 := by
  refine ⟨?_, ?_, ?_⟩
  · rw [example_tap_lengthSqrd, example_ignoreLengthSqrd]; norm_num
  · rw [pressedZoom3_eq]; decide
  · rw [pressedZoom3_eq]; decide

/-- C6, counterexample. At zoom 3, a press at pixel (20, 40) and a release at
(30, 40), 50 ms later, with an ignore length of 10 pixels, an ignore time of
150 ms and a successive time of 500 ms: the squared pixel displacement is 100,
not below `(ignoreLength * dpi / 25.4)^2 = 100`, yet the program computes
`lengthSqrd = 99.99999999999999` from the stored press point `20 / 3` and
discards the stroke. -/
theorem tap_at_ignore_length_discarded :
    ((Double.onButtonReleaseEvent Example.envDouble Example.ctlZoom3 [] Example.releaseTen
          Example.pressedZoom3).stroke = none ∧
      (Double.onButtonReleaseEvent Example.envDouble Example.ctlZoom3 [] Example.releaseTen
          Example.pressedZoom3).layer = Example.pressedZoom3.layer ∧
      (Double.onButtonReleaseEvent Example.envDouble Example.ctlZoom3 [] Example.releaseTen
          Example.pressedZoom3).undo = Example.pressedZoom3.undo) ∧
    ¬ ((Example.releaseTen.x - Example.press.x) ^ 2 + (Example.releaseTen.y - Example.press.y) ^ 2 <
        (Example.ctlZoom3.strokeFilterIgnoreLength * Example.ctlZoom3.displayDpi / (254 / 10)) ^ 2) ∧
    Double.lengthSqrd Example.ctlZoom3 Example.releaseTen Example.pressedZoom3 =
      7036874417766399 / 70368744177664 ∧
    Double.ignoreLengthSqrd Example.ctlZoom3 = 100 ∧
    Example.pressedZoom3.buttonDownPoint.x = roundToDouble (20 / 3) := by
  refine ⟨release_of_cond_double Example.envDouble Example.ctlZoom3 [] Example.releaseTen
    Example.pressedZoom3 _ (by rw [pressedZoom3_eq]) rfl example_tap_cond_double, ?_,
    example_tap_lengthSqrd, example_ignoreLengthSqrd, ?_⟩
  · norm_num [Example.releaseTen, Example.press, Example.ctlZoom3, Example.ctl]
  · rw [pressedZoom3_eq, double_twenty_thirds]

theorem pressedDouble_eq : Example.pressedDouble =
    { Example.idle with
      stroke := some Example.dot, buttonDownPoint := { x := 10, y := 20, z := 0 },
      surfMask := true, crMask := true, startStrokeTime := 1000, hasPressure := true,
      stabilizerCalls := [StabilizerCall.initializeWith 2 Example.press] } := by
  simp [Example.pressedDouble, Double.onButtonPressEvent, destroySurface, createStroke,
    Example.envDouble, Example.env, Example.ctl, Example.press, Example.idle, Example.dot,
    Double.div]
  norm_num [double_ten, double_twenty]

/-- Witness for C6 as amended: a press and, one pixel away and 50 ms later, a
release, at zoom 2 with thresholds of 10 pixels, 150 ms and 500 ms: the tap is
discarded. -/
theorem tapFilter_decision_double_witness :
    (Double.onButtonReleaseEvent Example.envDouble Example.ctl [] Example.release
        Example.pressedDouble).stroke = none ∧
      (Double.onButtonReleaseEvent Example.envDouble Example.ctl [] Example.release
        Example.pressedDouble).layer = Example.pressedDouble.layer ∧
      (Double.onButtonReleaseEvent Example.envDouble Example.ctl [] Example.release
        Example.pressedDouble).undo = Example.pressedDouble.undo :=
  (tapFilter_decision_double Example.envDouble Example.ctl [] Example.release
    Example.pressedDouble Example.dot (by rw [pressedDouble_eq]) (by rfl)
    (by norm_num [Example.ctl])).1.mpr
    ⟨by
        rw [pressedDouble_eq]
        norm_num [Double.lengthSqrd, Double.ignoreLengthSqrd, Example.ctl, Example.release,
          Double.div, Double.sub, Double.sq, Double.add, Double.mul, double_twenty_one_halves,
          double_twenty, double_half, double_quarter, double_four, double_one, double_inch,
          double_tap_dpmm, double_ten, double_hundred, roundToDouble_zero],
     by rw [pressedDouble_eq]; decide,
     by rw [pressedDouble_eq]; decide⟩

/-! ## Length of the sub-segments -/

theorem getElem?_range_segment {α : Type} (D : List α) (f : Nat → α) (n : Nat) (c : α) :
    (∀ k, k < n → (D ++ (List.range n).map f ++ [c])[D.length + k]? = some (f k)) ∧
      (D ++ (List.range n).map f ++ [c])[D.length + n]? = some c := by
  constructor
  · intro k hk
    rw [List.append_assoc, List.getElem?_append_right (Nat.le_add_right _ _),
      Nat.add_sub_cancel_left, List.getElem?_append_left (by simpa using hk)]
    simp [hk]
  · rw [List.append_assoc, List.getElem?_append_right (Nat.le_add_right _ _),
      Nat.add_sub_cancel_left, List.getElem?_append_right (by simp)]
    simp

/-- C13. Minimum sub-segment length, in exact arithmetic: for a `paintTo` call
that subdivides (positive motion threshold, distance `d` to the last point
`endPoint` at least the threshold, pressure tracked, last point with a pressure,
`|Δw|` above the maximal variation) into `n = nbSteps` steps, the stroke gains
`n` points, `n` is at least one and `d / n` is at least the threshold; the `n`
sub-segments run from the former last point, which keeps its position, through
the points stored after it to `point`, stored last, and each of them advances
by `(Δx / n, Δy / n)`; when `d` is the Euclidean distance of `endPoint` and
`point`, each sub-segment has squared length `(d / n)^2`, at least the square of
the threshold. -/
theorem subSegment_min_length (env : Env) (point endPoint : Point) (h : StrokeHandler)
    (s : Stroke) (hs : h.stroke = some s) (hl : s.points.getLast? = some endPoint)
    (hT : 0 < env.PIXEL_MOTION_THRESHOLD)
    (hd : env.PIXEL_MOTION_THRESHOLD ≤ env.lineLengthTo point endPoint)
    (hp : h.hasPressure = true) (hz : endPoint.z ≠ env.NO_PRESSURE)
    (hw : MAX_WIDTH_VARIATION < |(point.z - endPoint.z) * s.width|) :
    ∃ s' : Stroke, (paintTo env point h).stroke = some s' ∧
      (s'.points.length : Int) =
        (s.points.length : Int) +
          nbSteps env ((point.z - endPoint.z) * s.width) (env.lineLengthTo point endPoint) ∧
      1 ≤ nbSteps env ((point.z - endPoint.z) * s.width) (env.lineLengthTo point endPoint) ∧
      env.PIXEL_MOTION_THRESHOLD ≤
        env.lineLengthTo point endPoint /
          (nbSteps env ((point.z - endPoint.z) * s.width) (env.lineLengthTo point endPoint) : ℚ) ∧
      (s'.points[s.points.length - 1]?).map Point.position = some endPoint.position ∧
      s'.points.getLast? = some point ∧
      ∀ k : Nat,
        k < (nbSteps env ((point.z - endPoint.z) * s.width)
          (env.lineLengthTo point endPoint)).toNat →
        ∃ a b : Point, s'.points[s.points.length - 1 + k]? = some a ∧
          s'.points[s.points.length + k]? = some b ∧
          b.x - a.x = (point.x - endPoint.x) /
            (nbSteps env ((point.z - endPoint.z) * s.width)
              (env.lineLengthTo point endPoint) : ℚ) ∧
          b.y - a.y = (point.y - endPoint.y) /
            (nbSteps env ((point.z - endPoint.z) * s.width)
              (env.lineLengthTo point endPoint) : ℚ) ∧
          ((env.lineLengthTo point endPoint) ^ 2 =
              (point.x - endPoint.x) ^ 2 + (point.y - endPoint.y) ^ 2 →
            (b.x - a.x) ^ 2 + (b.y - a.y) ^ 2 =
                (env.lineLengthTo point endPoint /
                  (nbSteps env ((point.z - endPoint.z) * s.width)
                    (env.lineLengthTo point endPoint) : ℚ)) ^ 2 ∧
              env.PIXEL_MOTION_THRESHOLD ^ 2 ≤ (b.x - a.x) ^ 2 + (b.y - a.y) ^ 2) := by
  have hn0 := nbSteps_cast_pos env _ _ hT hd hw
  have hn1 := nbSteps_pos env _ _ hT hd hw
  have hle : env.PIXEL_MOTION_THRESHOLD ≤
      env.lineLengthTo point endPoint /
        (nbSteps env ((point.z - endPoint.z) * s.width) (env.lineLengthTo point endPoint) : ℚ) := by
    rw [le_div_iff₀ hn0]
    have hf : (nbSteps env ((point.z - endPoint.z) * s.width) (env.lineLengthTo point endPoint) : ℚ)
        ≤ env.lineLengthTo point endPoint / env.PIXEL_MOTION_THRESHOLD := by
      have h1 : nbSteps env ((point.z - endPoint.z) * s.width) (env.lineLengthTo point endPoint) ≤
          ⌊env.lineLengthTo point endPoint / env.PIXEL_MOTION_THRESHOLD⌋ := by
        unfold nbSteps; exact min_le_right _ _
      exact (Int.cast_le.mpr h1).trans (Int.floor_le _)
    rw [le_div_iff₀ hT] at hf
    linarith
  obtain ⟨m, hm⟩ := nbSteps_eq_succ env _ _ hT hd hw
  have hpts := paintTo_subdividing_points env point endPoint h s hs hl hd hp hz hw m hm
  have hlen : s.points.length = s.points.dropLast.length + 1 := by
    conv_lhs => rw [points_of_getLast hl]
    simp
  have hq : (((m : Int) + 1 : Int) : ℚ) = (m : ℚ) + 1 := by push_cast; rfl
  have hne : ((m : ℚ) + 1) ≠ 0 := by positivity
  have ht : ((m : Int) + 1).toNat = m + 1 := by omega
  obtain ⟨hget, hlast⟩ := getElem?_range_segment s.points.dropLast
    (fun k : Nat =>
      ({ x := endPoint.x + (k : ℚ) * (increment env point endPoint s.width).x,
         y := endPoint.y + (k : ℚ) * (increment env point endPoint s.width).y,
         z := endPoint.z * s.width +
           ((k : ℚ) + 1) * (increment env point endPoint s.width).z } : Point)) (m + 1) point
  refine ⟨_, hpts, ?_, hn1, hle, ?_, ?_, ?_⟩
  · rw [hm]
    simp only [List.length_append, List.length_map, List.length_range, List.length_singleton]
    rw [hlen]
    push_cast
    ring
  · have h0 := hget 0 (Nat.succ_pos m)
    rw [hlen]
    simp only [Nat.add_sub_cancel, Nat.add_zero] at h0 ⊢
    rw [h0]
    simp [Point.position]
  · simp
  · intro k hk
    rw [hm, ht] at hk
    have ha := hget k hk
    have e1 : s.points.length - 1 + k = s.points.dropLast.length + k := by rw [hlen]; omega
    have e2 : s.points.length + k = s.points.dropLast.length + (k + 1) := by rw [hlen]; omega
    rw [e1, e2, hm, hq]
    have hstep : ∀ a b : Point,
        b.x - a.x = (point.x - endPoint.x) / ((m : ℚ) + 1) →
        b.y - a.y = (point.y - endPoint.y) / ((m : ℚ) + 1) →
        ((env.lineLengthTo point endPoint) ^ 2 =
              (point.x - endPoint.x) ^ 2 + (point.y - endPoint.y) ^ 2 →
            (b.x - a.x) ^ 2 + (b.y - a.y) ^ 2 =
                (env.lineLengthTo point endPoint / ((m : ℚ) + 1)) ^ 2 ∧
              env.PIXEL_MOTION_THRESHOLD ^ 2 ≤ (b.x - a.x) ^ 2 + (b.y - a.y) ^ 2) := by
      intro a b hx hy he
      have hsq : (b.x - a.x) ^ 2 + (b.y - a.y) ^ 2 =
          (env.lineLengthTo point endPoint / ((m : ℚ) + 1)) ^ 2 := by
        rw [hx, hy, div_pow, div_pow, div_pow, he]
        ring
      refine ⟨hsq, ?_⟩
      rw [hsq]
      have hle' := hle
      rw [hm, hq] at hle'
      exact pow_le_pow_left₀ (le_of_lt hT) hle' 2
    by_cases hk' : k + 1 < m + 1
    · have hb := hget (k + 1) hk'
      refine ⟨_, _, ha, hb, ?_, ?_, ?_⟩
      · simp only [increment, stepLength, hm, hq]
        push_cast
        field_simp
        ring
      · simp only [increment, stepLength, hm, hq]
        push_cast
        field_simp
        ring
      · apply hstep
        · simp only [increment, stepLength, hm, hq]
          push_cast
          field_simp
          ring
        · simp only [increment, stepLength, hm, hq]
          push_cast
          field_simp
          ring
    · have hkm : k = m := by omega
      subst hkm
      refine ⟨_, _, ha, hlast, ?_, ?_, ?_⟩
      · simp only [increment, stepLength, hm, hq]
        field_simp
        ring
      · simp only [increment, stepLength, hm, hq]
        field_simp
        ring
      · apply hstep
        · simp only [increment, stepLength, hm, hq]
          field_simp
          ring
        · simp only [increment, stepLength, hm, hq]
          field_simp
          ring

/-- Witness for C13: two steps over a distance of two thresholds. -/
theorem subSegment_min_length_witness :
    ∃ s' : Stroke, (paintTo Example.env Example.farther Example.inked).stroke = some s' ∧
      (s'.points.length : Int) =
        (Example.inkedStroke.points.length : Int) +
          nbSteps Example.env
            ((Example.farther.z - Example.inkedEnd.z) * Example.inkedStroke.width)
            (Example.env.lineLengthTo Example.farther Example.inkedEnd) ∧
      Example.env.PIXEL_MOTION_THRESHOLD ≤
        Example.env.lineLengthTo Example.farther Example.inkedEnd /
          (nbSteps Example.env
            ((Example.farther.z - Example.inkedEnd.z) * Example.inkedStroke.width)
            (Example.env.lineLengthTo Example.farther Example.inkedEnd) : ℚ) ∧
      s'.points.getLast? = some Example.farther :=
  (subSegment_min_length Example.env Example.farther Example.inkedEnd Example.inked
    Example.inkedStroke rfl rfl (by norm_num [Example.env])
    (by rw [example_distance]; norm_num [Example.env]) rfl
    (by norm_num [Example.inkedEnd, Example.env])
    (by rw [example_widthDelta]; norm_num [MAX_WIDTH_VARIATION])).imp fun _ hx =>
      ⟨hx.1, hx.2.1, hx.2.2.2.1, hx.2.2.2.2.2.1⟩

end Xournalpp
